import Mathlib

/-!
# EventEmitter.sane.hpp : handler store, trigger loop and deferred queue

A shallow embedding of `ExampleEventProvider`, `ExampleDeferredEventProvider`,
`EventEmitter::DeferredBase`, `ExampleEventDispatcher` and the single-thread
behaviour of `ExampleThreadedEventProvider`.

* The handler container is the default `std::forward_list<HandlerPtr>`: a list of
  nodes, front first.  A node is identified by the address its `shared_ptr`
  holds; iterators are node identities, so that a list changed by a handler
  while `triggerExample` iterates is seen the way the C++ iterators see it.
* A handler is a code `k : κ`; what running it does is given by an
  interpretation `κ → α → World → Except Fault World`, so a handler may do
  anything to the provider.  `pureInterp act` interprets handlers that only
  change the environment (they do not touch the provider).
* Loops that need not terminate for arbitrary handlers take a fuel bound.
* `World.log` is ghost state: the trigger loop records every invocation
  `(*(*i))(fargs...)` as the pair (node address, argument values).
* The dispatcher keeps its `std::multimap` as a key-ordered list and iterates
  it with node identities, as the store does.
* Threads are not modelled.  A wait of the threaded provider takes as a
  parameter what happens to the provider while the caller is blocked.
-/

set_option autoImplicit false

namespace EventEmitter

/-! ## Data model -/

/-- Ways in which a call does not return normally. -/
inductive Fault where
  /-- The iteration bound of the model is exhausted. -/
  | outOfFuel
  /-- A forward_list iterator that is not linked (any more) is advanced, dereferenced or erased after. -/
  | invalidIterator
  /-- A null container pointer is dereferenced. -/
  | nullDeref
  /-- Call of `pop_front()` on an empty deque. -/
  | emptyContainer
  /-- The non-recursive `std::mutex` is locked while it is already held. -/
  | deadlock
  /-- A wait on the condition variable without timeout that nothing ever ends. -/
  | blocked
  /-- Control flows off the end of a function whose return type is not `void`. -/
  | missingReturn
  /-- The exception `std::future_error` of `set_value` on a promise that already holds a value. -/
  | futureError
  deriving DecidableEq, Repr

/-- The type `HandlerPtr = std::shared_ptr<Handler>`, compared through `get()`:
`none` is the empty pointer, `some p` a pointer holding address `p`. -/
abbrev HandlerPtr := Option Nat

/-- The `std::function<void(Rest...)>` value stored in a node: either the
caller's handler as given to `onExample`, or the `LambdaCallbackWrapper` built by
`onceExample`, which runs the handler and then sets `eventHandlers->eraseLast`. -/
inductive Handler (κ : Type) where
  | user (f : κ)
  | lambdaCallbackWrapper (f : κ)
  deriving DecidableEq, Repr

/-- One element of the forward_list: the address held by its `shared_ptr`
(never null, it comes from `make_shared`) and the callable stored there. -/
structure Node (κ : Type) where
  ptr : Nat
  handler : Handler κ
  deriving DecidableEq, Repr

/-- The container `struct EventHandlersSet : std::forward_list<HandlerPtr>` with its
`bool eraseLast` member. -/
structure EventHandlersSet (κ : Type) where
  list : List (Node κ)
  eraseLast : Bool
  deriving DecidableEq, Repr

/-- Result of `forward_as_ref<Args>(fargs)` as stored by `std::bind`: an rvalue
argument is kept by value, an lvalue argument is kept as a `reference_wrapper`
to the caller's variable, here the accessor reading that variable from the
environment. -/
inductive BoundArgs (α σ : Type) where
  | value (v : α)
  | ref (var : σ → α)

/-- One argument pack as written at a call of the deferred `triggerExample`:
temporaries (rvalues) with their values, or named variables of the caller
(lvalues), given by the accessor that reads them from the environment. -/
inductive CallArgs (α σ : Type) where
  | rvalue (v : α)
  | lvalue (var : σ → α)

/-- The function `forward_as_ref<Args>(fargs)` followed by the decay copy of
`std::bind`: for `Args = T` the result is `T&&` and the value is stored; for
`Args = T&` (`forward_as_ref_type<T &>`) the result is a `reference_wrapper<T>`
holding the address of the variable, and that wrapper is stored. -/
def forward_as_ref {α σ : Type} (fargs : CallArgs α σ) : BoundArgs α σ :=
  match fargs with
  | .rvalue v => .value v
  | .lvalue var => .ref var

/-- An `ExampleDeferredEventProvider` object (its `ExampleEventProvider` and
`DeferredBase` parts) together with what surrounds it: the allocator, the
environment the handlers act on, and the ghost invocation log.
An element of `deferredQueue` is the `std::bind` closure queued by the deferred
`triggerExample`; it is determined by its bound arguments. -/
structure World (κ α σ : Type) where
  eventHandlers : Option (EventHandlersSet κ)
  deferredQueue : Option (List (BoundArgs α σ))
  mutex : Bool
  nextPtr : Nat
  user : σ
  log : List (Nat × α)

/-- What invoking a handler code does. -/
abbrev Interp (κ α σ : Type) := κ → α → World κ α σ → Except Fault (World κ α σ)

/-- A forward_list iterator. -/
inductive Iter where
  | beforeBegin
  | node (p : Nat)
  | pastEnd
  deriving DecidableEq, Repr

variable {κ α σ : Type}

/-- A freshly constructed provider: both container pointers are null. -/
def World.init (u : σ) : World κ α σ :=
  { eventHandlers := none, deferredQueue := none, mutex := false, nextPtr := 0, user := u, log := [] }

/-- The registered nodes, front first (none when the container was never allocated). -/
def World.handlers (w : World κ α σ) : List (Node κ) :=
  match w.eventHandlers with
  | none => []
  | some s => s.list

/-- The queued closures, oldest first (none when the deque was never allocated). -/
def World.queue (w : World κ α σ) : List (BoundArgs α σ) :=
  match w.deferredQueue with
  | none => []
  | some q => q

/-- The caller's handler inside a stored callable. -/
def Handler.fn : Handler κ → κ
  | .user f => f
  | .lambdaCallbackWrapper f => f

/-- Whether the stored callable is the one-shot wrapper. -/
def Handler.isOnce : Handler κ → Bool
  | .user _ => false
  | .lambdaCallbackWrapper _ => true

/-! ## forward_list iterators -/

/-- The iterator `begin()`. -/
def Iter.begin (l : List (Node κ)) : Iter :=
  match l with
  | [] => .pastEnd
  | n :: _ => .node n.ptr

/-- Iterator following the node with address `p`; `none` if no such node is linked. -/
def nextOf (p : Nat) : List (Node κ) → Option Iter
  | [] => none
  | n :: rest => if n.ptr = p then some (Iter.begin rest) else nextOf p rest

/-- Increment `++it`; `none` when `it` is `end()` or is not linked. -/
def Iter.next (l : List (Node κ)) : Iter → Option Iter
  | .beforeBegin => some (Iter.begin l)
  | .node p => nextOf p l
  | .pastEnd => none

/-- Dereference `*it`; `none` when `it` does not point at a linked node. -/
def Iter.deref (l : List (Node κ)) : Iter → Option (Node κ)
  | .node p => l.find? (fun n => decide (n.ptr = p))
  | _ => none

/-- The call `erase_after` at the node with address `p`; `none` when that node is
not linked or is the last one. -/
def eraseAfterNode (p : Nat) : List (Node κ) → Option (List (Node κ) × Iter)
  | [] => none
  | n :: rest =>
    if n.ptr = p then
      match rest with
      | [] => none
      | _ :: rest1 => some (n :: rest1, Iter.begin rest1)
    else
      match eraseAfterNode p rest with
      | none => none
      | some (l, it) => some (n :: l, it)

/-- The call `erase_after(pos)`: unlinks the element following `pos` and returns the
iterator to the element after the erased one. -/
def eraseAfter (l : List (Node κ)) : Iter → Option (List (Node κ) × Iter)
  | .beforeBegin =>
    match l with
    | [] => none
    | _ :: rest => some (rest, Iter.begin rest)
  | .node p => eraseAfterNode p l
  | .pastEnd => none

/-! ## ExampleEventProvider -/

namespace ExampleEventProvider

/-- The statement `if(!eventHandlers) eventHandlers = new EventHandlersSet;`. -/
def assureHandlers (w : World κ α σ) : EventHandlersSet κ :=
  match w.eventHandlers with
  | none => { list := [], eraseLast := false }
  | some s => s

/-- Method `onExample(handler)`: `emplace_front(make_shared<Handler>(handler))`,
returns `front()`. -/
def onExample (handler : κ) (w : World κ α σ) : World κ α σ × HandlerPtr :=
  let s := assureHandlers w
  let p := w.nextPtr
  ({ w with eventHandlers := some { s with list := { ptr := p, handler := .user handler } :: s.list },
            nextPtr := p + 1 }, some p)

/-- Method `onceExample(handler)`: as `onExample`, storing the handler wrapped with the
callback that sets `eraseLast`. -/
def onceExample (handler : κ) (w : World κ α σ) : World κ α σ × HandlerPtr :=
  let s := assureHandlers w
  let p := w.nextPtr
  ({ w with eventHandlers := some { s with list := { ptr := p, handler := .lambdaCallbackWrapper handler } :: s.list },
            nextPtr := p + 1 }, some p)

/-- Calling a stored callable: `m_f(fargs...); m_afterCb();` for the wrapper. -/
def call (interp : Interp κ α σ) (h : Handler κ) (fargs : α) (w : World κ α σ) :
    Except Fault (World κ α σ) :=
  match h with
  | .user f => interp f fargs w
  | .lambdaCallbackWrapper f =>
    match interp f fargs w with
    | .error e => .error e
    | .ok w1 =>
      match w1.eventHandlers with
      | none => .error .nullDeref
      | some s => .ok { w1 with eventHandlers := some { s with eraseLast := true } }

/-- The `for` loop of `triggerExample`, with cursors `prev` and `i`. -/
def triggerLoop (interp : Interp κ α σ) (fargs : α) :
    Nat → Iter → Iter → World κ α σ → Except Fault (World κ α σ)
  | 0, _, i, w => if i = .pastEnd then .ok w else .error .outOfFuel
  | fuel + 1, prev, i, w =>
    if i = .pastEnd then .ok w else
    match w.eventHandlers with
    | none => .error .nullDeref
    | some s =>
      match Iter.deref s.list i with
      | none => .error .invalidIterator
      | some n =>
        match call interp n.handler fargs { w with log := w.log ++ [(n.ptr, fargs)] } with
        | .error e => .error e
        | .ok w1 =>
          match w1.eventHandlers with
          | none => .error .nullDeref
          | some s1 =>
            if s1.eraseLast then
              match eraseAfter s1.list prev with
              | none => .error .invalidIterator
              | some (l, i1) =>
                triggerLoop interp fargs fuel prev i1
                  { w1 with eventHandlers := some { list := l, eraseLast := false } }
            else
              match Iter.next s1.list i, Iter.next s1.list prev with
              | some i1, some prev1 => triggerLoop interp fargs fuel prev1 i1 w1
              | _, _ => .error .invalidIterator

/-- Method `triggerExample(fargs...)`: returns at once when there is no container,
otherwise runs the loop from `prev = before_begin()`, `i = begin()`. -/
def triggerExample (interp : Interp κ α σ) (fuel : Nat) (fargs : α) (w : World κ α σ) :
    Except Fault (World κ α σ) :=
  match w.eventHandlers with
  | none => .ok w
  | some s => triggerLoop interp fargs fuel .beforeBegin (Iter.begin s.list) w

/-- The `for` loop of `triggerExample` when the argument pack `fargs` is bound to
variables of the caller (`Args = T&`): every call `(*(*i))(fargs...)` copies the
value the variables have at that moment, here `fargs w.user`. -/
def triggerLoopRef (interp : Interp κ α σ) (fargs : σ → α) :
    Nat → Iter → Iter → World κ α σ → Except Fault (World κ α σ)
  | 0, _, i, w => if i = .pastEnd then .ok w else .error .outOfFuel
  | fuel + 1, prev, i, w =>
    if i = .pastEnd then .ok w else
    match w.eventHandlers with
    | none => .error .nullDeref
    | some s =>
      match Iter.deref s.list i with
      | none => .error .invalidIterator
      | some n =>
        match call interp n.handler (fargs w.user)
            { w with log := w.log ++ [(n.ptr, fargs w.user)] } with
        | .error e => .error e
        | .ok w1 =>
          match w1.eventHandlers with
          | none => .error .nullDeref
          | some s1 =>
            if s1.eraseLast then
              match eraseAfter s1.list prev with
              | none => .error .invalidIterator
              | some (l, i1) =>
                triggerLoopRef interp fargs fuel prev i1
                  { w1 with eventHandlers := some { list := l, eraseLast := false } }
            else
              match Iter.next s1.list i, Iter.next s1.list prev with
              | some i1, some prev1 => triggerLoopRef interp fargs fuel prev1 i1 w1
              | _, _ => .error .invalidIterator

/-- Method `triggerExample(fargs...)` called with an argument pack bound to
variables of the caller. -/
def triggerExampleRef (interp : Interp κ α σ) (fuel : Nat) (fargs : σ → α) (w : World κ α σ) :
    Except Fault (World κ α σ) :=
  match w.eventHandlers with
  | none => .ok w
  | some s => triggerLoopRef interp fargs fuel .beforeBegin (Iter.begin s.list) w

/-- The scan of `removeExampleHandler`: `prev` and `i` advance together and
nothing else runs, so the node erased by `erase_after(prev)` is the first one
whose address equals `handlerPtr.get()`.  `none` when the scan reaches `end()`. -/
def removeLoop (handlerPtr : HandlerPtr) : List (Node κ) → Option (List (Node κ))
  | [] => none
  | n :: rest =>
    if some n.ptr = handlerPtr then some rest
    else
      match removeLoop handlerPtr rest with
      | none => none
      | some l => some (n :: l)

/-- Method `removeExampleHandler(handlerPtr)`: returns `handlerPtr` when a node was
erased, the empty pointer otherwise. -/
def removeExampleHandler (handlerPtr : HandlerPtr) (w : World κ α σ) : World κ α σ × HandlerPtr :=
  match w.eventHandlers with
  | none => (w, none)
  | some s =>
    match removeLoop handlerPtr s.list with
    | none => (w, none)
    | some l => ({ w with eventHandlers := some { s with list := l } }, handlerPtr)

/-- Method `removeAllExampleHandlers()`: `clear()` when the container exists. -/
def removeAllExampleHandlers (w : World κ α σ) : World κ α σ :=
  match w.eventHandlers with
  | none => w
  | some s => { w with eventHandlers := some { s with list := [] } }

end ExampleEventProvider

/-! ## DeferredBase -/

namespace DeferredBase

/-- The guard `std::lock_guard<std::mutex> guard(mutex);` on entry. -/
def lock (w : World κ α σ) : Except Fault (World κ α σ) :=
  if w.mutex then .error .deadlock else .ok { w with mutex := true }

/-- The guard going out of scope. -/
def unlock (w : World κ α σ) : World κ α σ :=
  { w with mutex := false }

/-- Method `assureContainer()`. -/
def assureContainer (w : World κ α σ) : World κ α σ :=
  match w.deferredQueue with
  | none => { w with deferredQueue := some [] }
  | some _ => w

/-- Method `runDeferred(DeferredHandler f)`: `push_back(f)` under the lock. -/
def runDeferredPush (f : BoundArgs α σ) (w : World κ α σ) : Except Fault (World κ α σ) :=
  match lock w with
  | .error e => .error e
  | .ok w1 =>
    let w2 := assureContainer w1
    .ok (unlock { w2 with deferredQueue := some (w2.queue ++ [f]) })

/-- Method `clearDeferred()`: `clear()` under the lock. -/
def clearDeferred (w : World κ α σ) : Except Fault (World κ α σ) :=
  match lock w with
  | .error e => .error e
  | .ok w1 =>
    let w2 := assureContainer w1
    .ok (unlock { w2 with deferredQueue := some [] })

/-- The value a bound argument has when it is read in the environment `u`: a stored
copy is what it is, a `reference_wrapper` converts to the variable it points to. -/
def boundValue (b : BoundArgs α σ) (u : σ) : α :=
  match b with
  | .value v => v
  | .ref var => var u

/-- Calling a queued closure: the lambda `[=](Args... as)` calls
`this->ExampleEventProvider<Rest...>::triggerExample(as...)`.  For a stored copy `as`
is a parameter of the lambda that nothing else can change; for a
`reference_wrapper`, `as` is the caller's variable itself, which the base
`triggerExample` reads again at every handler call. -/
def callDeferred (interp : Interp κ α σ) (fuel : Nat) (f : BoundArgs α σ) (w : World κ α σ) :
    Except Fault (World κ α σ) :=
  ExampleEventProvider.triggerExampleRef interp fuel (boundValue f) w

/-- Method `runDeferred()`: under the lock, when `size()` is not zero call `front()`
and then `pop_front()`; returns `size()` as a bool. -/
def runDeferred (interp : Interp κ α σ) (fuel : Nat) (w : World κ α σ) :
    Except Fault (World κ α σ × Bool) :=
  match lock w with
  | .error e => .error e
  | .ok w1 =>
    let w2 := assureContainer w1
    match w2.queue with
    | [] => .ok (unlock w2, false)
    | f :: _ =>
      match callDeferred interp fuel f w2 with
      | .error e => .error e
      | .ok w3 =>
        match w3.deferredQueue with
        | none => .error .nullDeref
        | some [] => .error .emptyContainer
        | some (_ :: q1) =>
          .ok (unlock { w3 with deferredQueue := some q1 }, decide (q1.length ≠ 0))

/-- Method `runAllDeferred()`: `while(runDeferred());`.  `fuel` bounds every trigger loop
run by a closure, the second number bounds the calls of `runDeferred()`. -/
def runAllDeferred (interp : Interp κ α σ) (fuel : Nat) :
    Nat → World κ α σ → Except Fault (World κ α σ)
  | 0, _ => .error .outOfFuel
  | rounds + 1, w =>
    match runDeferred interp fuel w with
    | .error e => .error e
    | .ok (w1, true) => runAllDeferred interp fuel rounds w1
    | .ok (w1, false) => .ok w1

end DeferredBase

/-! ## ExampleDeferredEventProvider -/

namespace ExampleDeferredEventProvider

/-- Method `triggerExample(fargs...)` of the deferred provider:
`runDeferred(std::bind(lambda, forward_as_ref<Args>(fargs)...))`. -/
def triggerExample (fargs : BoundArgs α σ) (w : World κ α σ) : Except Fault (World κ α σ) :=
  DeferredBase.runDeferredPush fargs w

end ExampleDeferredEventProvider

/-! ## Handlers that do not touch the provider, and states between calls -/

/-- Interpretation of handlers that leave the provider alone: handler `k`
called with `a` changes the environment by `act k a` and nothing else. -/
def pureInterp (act : κ → α → σ → σ) : Interp κ α σ :=
  fun k a w => .ok { w with user := act k a w.user }

/-- The `eraseLast` flag as a caller finds it (clear when no container exists). -/
def World.eraseLast (w : World κ α σ) : Bool :=
  match w.eventHandlers with
  | none => false
  | some s => s.eraseLast

/-- A provider as it is between two calls made from outside: no erase request
is pending, live `shared_ptr` addresses are pairwise different, and the
allocator has not yet handed out an address that is in use. -/
structure World.WellFormed (w : World κ α σ) : Prop where
  flag : w.eraseLast = false
  nodup : (w.handlers.map Node.ptr).Nodup
  fresh : ∀ n ∈ w.handlers, n.ptr < w.nextPtr

/-- Iterator to the last node of `done`, `before_begin()` when there is none:
where `prev` stands when `i` is at the node following `done`. -/
def lastIter (done : List (Node κ)) : Iter :=
  match done.getLast? with
  | none => .beforeBegin
  | some n => .node n.ptr

/-- Environment after the handlers of `l` ran one after the other with `a`. -/
def fire (act : κ → α → σ → σ) (a : α) (l : List (Node κ)) (u : σ) : σ :=
  l.foldl (fun u n => act n.handler.fn a u) u

/-- The nodes of `l` whose callable is not the one-shot wrapper. -/
def persistent (l : List (Node κ)) : List (Node κ) :=
  l.filter (fun n => !n.handler.isOnce)

/-- The log entries of one pass over `l` with arguments `a`. -/
def invocations (a : α) (l : List (Node κ)) : List (Nat × α) :=
  l.map (fun n => (n.ptr, a))

/-- The state one `triggerExample(a)` leads to when no handler touches the
provider: the one-shot nodes are gone, every handler has acted on the
environment, and the pass is logged. -/
def triggered (act : κ → α → σ → σ) (a : α) (w : World κ α σ) : World κ α σ :=
  { w with
    eventHandlers :=
      match w.eventHandlers with
      | none => none
      | some s => some { list := persistent s.list, eraseLast := false },
    user := fire act a w.handlers w.user,
    log := w.log ++ invocations a w.handlers }

/-- The arguments the handler at address `p` was invoked with, oldest first. -/
def delivered (p : Nat) (log : List (Nat × α)) : List α :=
  (log.filter (fun e => decide (e.1 = p))).map Prod.snd

/-! ## Call sequences -/

/-- A run of registrations: `(true, h)` is `onceExample(h)`, `(false, h)` is
`onExample(h)`.  Returns the handles in the order of the calls. -/
def registerAll : List (Bool × κ) → World κ α σ → World κ α σ × List HandlerPtr
  | [], w => (w, [])
  | (once, h) :: rest, w =>
    let r := if once then ExampleEventProvider.onceExample h w else ExampleEventProvider.onExample h w
    let r2 := registerAll rest r.1
    (r2.1, r.2 :: r2.2)

/-- One immediate `triggerExample` call per element of the list, in order. -/
def triggerAll (interp : Interp κ α σ) (fuel : Nat) :
    List α → World κ α σ → Except Fault (World κ α σ)
  | [], w => .ok w
  | a :: rest, w =>
    match ExampleEventProvider.triggerExample interp fuel a w with
    | .error e => .error e
    | .ok w1 => triggerAll interp fuel rest w1

/-- One deferred `triggerExample` call per element of the list, in order, the
arguments being passed as temporaries. -/
def deferAll : List α → World κ α σ → Except Fault (World κ α σ)
  | [], w => .ok w
  | a :: rest, w =>
    match ExampleDeferredEventProvider.triggerExample (.value a) w with
    | .error e => .error e
    | .ok w1 => deferAll rest w1

/-- The state a run of `triggerExample` calls leads to when no handler touches
the provider. -/
def triggeredAll (act : κ → α → σ → σ) : List α → World κ α σ → World κ α σ
  | [], w => w
  | a :: rest, w => triggeredAll act rest (triggered act a w)

/-! ## Handlers that call back into the provider -/

/-- Handler bodies used to exercise calls made from inside a handler:
`note tag` appends `tag` to the environment and touches nothing else,
`onExample tag` calls `onExample` of the same store with a `note tag` handler,
`deferTrigger a` calls the deferred `triggerExample(a)` of the same provider. -/
inductive Script where
  | note (tag : Nat)
  | onExample (tag : Nat)
  | deferTrigger (a : Nat)
  deriving DecidableEq, Repr

/-- What running a `Script` body does. -/
def Script.run : Interp Script Nat (List Nat)
  | .note tag, _, w => .ok { w with user := w.user ++ [tag] }
  | .onExample tag, _, w => .ok (ExampleEventProvider.onExample (.note tag) w).1
  | .deferTrigger a, _, w => ExampleDeferredEventProvider.triggerExample (.value a) w

/-! ## ExampleEventDispatcher -/

/-- The members an `ExampleEventDispatcher` adds to its base provider: the
`std::multimap<T, HandlerPtr> map`, kept here in iteration order (ascending
keys, equal keys in insertion order), and its own `eraseLast` flag; together
with the ghost log of the dispatcher-level invocations (node address,
arguments) and the environment the dispatcher-level handlers act on. -/
structure DispatcherState (τ κ ρ σ : Type) where
  map : List (τ × Node κ)
  eraseLast : Bool
  log : List (Nat × ρ)
  env : σ

/-- A dispatcher object with its surroundings: the base provider has the
signature `(T, Rest...)` and holds the one lambda registered by the
constructor (handler code `()`); the dispatcher members live in `user`. -/
abbrev DWorld (τ κ ρ σ : Type) := World Unit (τ × ρ) (DispatcherState τ κ ρ σ)

/-- What invoking a dispatcher-level handler code does. -/
abbrev DInterp (τ κ ρ σ : Type) :=
  κ → ρ → DWorld τ κ ρ σ → Except Fault (DWorld τ κ ρ σ)

namespace ExampleEventDispatcher

variable {τ ρ : Type}

/-- Member `map.insert(pair)`: the new element goes to the upper bound of its key,
behind the elements with an equal key. -/
def mapInsert [LT τ] [DecidableRel (fun (a b : τ) => a < b)] (first : τ) (v : Node κ) :
    List (τ × Node κ) → List (τ × Node κ)
  | [] => [(first, v)]
  | e :: rest => if first < e.1 then (first, v) :: e :: rest else e :: mapInsert first v rest

/-- First half of `map.equal_range(first)`: the first element whose key is not
less than `first`. -/
def lowerBound [LT τ] [DecidableRel (fun (a b : τ) => a < b)] (first : τ) :
    List (τ × Node κ) → Iter
  | [] => .pastEnd
  | e :: rest => if e.1 < first then lowerBound first rest else .node e.2.ptr

/-- Second half of `map.equal_range(first)`: the first element whose key is
greater than `first`. -/
def upperBound [LT τ] [DecidableRel (fun (a b : τ) => a < b)] (first : τ) :
    List (τ × Node κ) → Iter
  | [] => .pastEnd
  | e :: rest => if first < e.1 then .node e.2.ptr else upperBound first rest

/-- Member `map.erase(it)`: `none` when `it` does not point at an element of the map. -/
def mapErase (m : List (τ × Node κ)) : Iter → Option (List (τ × Node κ))
  | .node p =>
    if m.any (fun e => decide (e.2.ptr = p)) then some (m.filter (fun e => !decide (e.2.ptr = p)))
    else none
  | _ => none

/-- The dispatcher as its constructor leaves it: empty map, and the dispatch
lambda registered on the base provider with the base `onExample`. -/
def new (u : σ) : DWorld τ κ ρ σ :=
  (ExampleEventProvider.onExample ()
    (World.init { map := [], eraseLast := false, log := [], env := u })).1

/-- Method `onExample(first, handler)` of the dispatcher: `map.insert` of a new
`shared_ptr`, which is returned. -/
def onExample [LT τ] [DecidableRel (fun (a b : τ) => a < b)] (first : τ) (handler : κ)
    (w : DWorld τ κ ρ σ) : DWorld τ κ ρ σ × HandlerPtr :=
  let p := w.nextPtr
  ({ w with nextPtr := p + 1,
            user := { w.user with map := mapInsert first { ptr := p, handler := .user handler } w.user.map } },
   some p)

/-- Method `onceExample(first, handler)` of the dispatcher: as `onExample`, the
handler being wrapped with the callback that sets the dispatcher's `eraseLast`. -/
def onceExample [LT τ] [DecidableRel (fun (a b : τ) => a < b)] (first : τ) (handler : κ)
    (w : DWorld τ κ ρ σ) : DWorld τ κ ρ σ × HandlerPtr :=
  let p := w.nextPtr
  ({ w with nextPtr := p + 1,
            user := { w.user with
                      map := mapInsert first { ptr := p, handler := .lambdaCallbackWrapper handler }
                               w.user.map } },
   some p)

/-- Calling a callable stored in the map; the wrapper built by the dispatcher's
`onceExample` runs the handler and then sets the dispatcher's `eraseLast`. -/
def call (interp : DInterp τ κ ρ σ) (h : Handler κ) (fargs : ρ) (w : DWorld τ κ ρ σ) :
    Except Fault (DWorld τ κ ρ σ) :=
  match h with
  | .user f => interp f fargs w
  | .lambdaCallbackWrapper f =>
    match interp f fargs w with
    | .error e => .error e
    | .ok w1 => .ok { w1 with user := { w1.user with eraseLast := true } }

/-- The `for` loop of the dispatch lambda, from `it` up to `ret.second`.  After
`map.erase(it)` the loop goes on with the same `it`. -/
def dispatchLoop (interp : DInterp τ κ ρ σ) (fargs : ρ) :
    Nat → Iter → Iter → DWorld τ κ ρ σ → Except Fault (DWorld τ κ ρ σ)
  | 0, it, last, w => if it = last then .ok w else .error .outOfFuel
  | fuel + 1, it, last, w =>
    if it = last then .ok w else
    match Iter.deref (w.user.map.map Prod.snd) it with
    | none => .error .invalidIterator
    | some n =>
      match call interp n.handler fargs
          { w with user := { w.user with log := w.user.log ++ [(n.ptr, fargs)] } } with
      | .error e => .error e
      | .ok w1 =>
        if w1.user.eraseLast then
          match mapErase w1.user.map it with
          | none => .error .invalidIterator
          | some m1 =>
            dispatchLoop interp fargs fuel it last
              { w1 with user := { w1.user with map := m1, eraseLast := false } }
        else
          match Iter.next (w1.user.map.map Prod.snd) it with
          | none => .error .invalidIterator
          | some it1 => dispatchLoop interp fargs fuel it1 last w1

/-- The lambda the constructor registers on the base provider. -/
def dispatchLambda [LT τ] [DecidableRel (fun (a b : τ) => a < b)]
    (interp : DInterp τ κ ρ σ) (fuel : Nat) : Interp Unit (τ × ρ) (DispatcherState τ κ ρ σ) :=
  fun _ args w =>
    dispatchLoop interp args.2 fuel (lowerBound args.1 w.user.map) (upperBound args.1 w.user.map) w

/-- Base-level `triggerExample(first, fargs...)` on a dispatcher. -/
def triggerExample [LT τ] [DecidableRel (fun (a b : τ) => a < b)]
    (interp : DInterp τ κ ρ σ) (fuel : Nat) (first : τ) (fargs : ρ) (w : DWorld τ κ ρ σ) :
    Except Fault (DWorld τ κ ρ σ) :=
  ExampleEventProvider.triggerExample (dispatchLambda interp fuel) fuel (first, fargs) w

/-- Interpretation of dispatcher-level handlers that only change the environment. -/
def pureInterp (act : κ → ρ → σ → σ) : DInterp τ κ ρ σ :=
  fun k a w => .ok { w with user := { w.user with env := act k a w.user.env } }

/-- A run of dispatcher registrations: `(true, first, h)` is `onceExample(first, h)`,
`(false, first, h)` is `onExample(first, h)`.  Returns the handles in the order
of the calls. -/
def registerAll [LT τ] [DecidableRel (fun (a b : τ) => a < b)] :
    List (Bool × τ × κ) → DWorld τ κ ρ σ → DWorld τ κ ρ σ × List HandlerPtr
  | [], w => (w, [])
  | (once, first, h) :: rest, w =>
    let r := if once then onceExample first h w else onExample first h w
    let r2 := registerAll rest r.1
    (r2.1, r.2 :: r2.2)

end ExampleEventDispatcher

/-- A dispatcher as it is between two calls made from outside: the base store
holds just the constructor's lambda, the map is in ascending key order, the
addresses in the map are pairwise different and already handed out, and no
erase request is pending. -/
structure ExampleEventDispatcher.WellFormed {τ ρ : Type} [LE τ] (w : DWorld τ κ ρ σ) : Prop where
  base : ∃ p, w.eventHandlers = some { list := [{ ptr := p, handler := .user () }], eraseLast := false }
  sorted : (w.user.map.map Prod.fst).Pairwise (fun a b => a ≤ b)
  nodup : (w.user.map.map (fun e => e.2.ptr)).Nodup
  fresh : ∀ e ∈ w.user.map, e.2.ptr < w.nextPtr
  flag : w.user.eraseLast = false

/-! ## ExampleThreadedEventProvider -/

/-- The callables a threaded provider stores: a handler of the caller; the
lambda `[=](Rest...) {}` of `waitExample(duration)`; the `LambdaCallbackWrapper`
built in `waitExample(handler, duration)`, whose callback stores `true` in the
`finished` cell and calls `condition.notify_all()`; the `LambdaPromiseWrapper` of
`futureOnceExample`, which calls `set_value` on its promise. -/
inductive ThreadedHandler (κ : Type) where
  | user (k : κ)
  | ignoreArgs
  | lambdaCallbackWrapper (f : ThreadedHandler κ) (finished : Nat)
  | lambdaPromiseWrapper (promise : Nat)
  deriving DecidableEq, Repr

/-- What a threaded provider adds to its base classes, and what its handlers
act on: the mutex `m`, the number of `condition.notify_all()` calls made so far
(ghost), the `std::atomic<bool>` cells made by `waitExample`, the shared states
of the promises made by `futureOnceExample` (`none` while no value is set), and
the environment of the caller's handlers. -/
structure ThreadedState (α σ : Type) where
  m : Bool
  notified : Nat
  finished : List Bool
  promises : List (Option α)
  env : σ

/-- A threaded provider object with its surroundings. -/
abbrev TWorld (κ α σ : Type) := World (ThreadedHandler κ) α (ThreadedState α σ)

/-- What invoking a handler of the caller does on a threaded provider. -/
abbrev TInterp (κ α σ : Type) := κ → α → TWorld κ α σ → Except Fault (TWorld κ α σ)

namespace ExampleThreadedEventProvider

/-- Call of `condition.notify_all()`. -/
def notifyAll (w : TWorld κ α σ) : TWorld κ α σ :=
  { w with user := { w.user with notified := w.user.notified + 1 } }

/-- Calling a stored callable of the threaded provider. -/
def run (interp : TInterp κ α σ) : Interp (ThreadedHandler κ) α (ThreadedState α σ)
  | .user k, a, w => interp k a w
  | .ignoreArgs, _, w => .ok w
  | .lambdaCallbackWrapper f c, a, w =>
    match run interp f a w with
    | .error e => .error e
    | .ok w1 => .ok (notifyAll { w1 with user := { w1.user with finished := w1.user.finished.set c true } })
  | .lambdaPromiseWrapper c, a, w =>
    match w.user.promises.get? c with
    | none => .error .nullDeref
    | some (some _) => .error .futureError
    | some none => .ok { w with user := { w.user with promises := w.user.promises.set c (some a) } }

/-- Method `onExample(handler)` of the threaded provider: the base method under
`DeferredBase::mutex`. -/
def onExample (handler : ThreadedHandler κ) (w : TWorld κ α σ) :
    Except Fault (TWorld κ α σ × HandlerPtr) :=
  match DeferredBase.lock w with
  | .error e => .error e
  | .ok w1 =>
    let r := ExampleEventProvider.onExample handler w1
    .ok (DeferredBase.unlock r.1, r.2)

/-- Method `onceExample(handler)` of the threaded provider: the base method under
`DeferredBase::mutex`. -/
def onceExample (handler : ThreadedHandler κ) (w : TWorld κ α σ) :
    Except Fault (TWorld κ α σ × HandlerPtr) :=
  match DeferredBase.lock w with
  | .error e => .error e
  | .ok w1 =>
    let r := ExampleEventProvider.onceExample handler w1
    .ok (DeferredBase.unlock r.1, r.2)

/-- Method `triggerExample(fargs...)` of the threaded provider: the base method
under `DeferredBase::mutex`, then `condition.notify_all()`. -/
def triggerExample (interp : TInterp κ α σ) (fuel : Nat) (fargs : α) (w : TWorld κ α σ) :
    Except Fault (TWorld κ α σ) :=
  match DeferredBase.lock w with
  | .error e => .error e
  | .ok w1 =>
    match ExampleEventProvider.triggerExample (run interp) fuel fargs w1 with
    | .error e => .error e
    | .ok w2 => .ok (DeferredBase.unlock (notifyAll w2))

/-- Method `futureOnceExample()`: makes a promise, calls `condition.notify_all()`,
registers the promise wrapper with `onceExample`; returns the future, here the
index of the shared state. -/
def futureOnceExample (w : TWorld κ α σ) : Except Fault (TWorld κ α σ × Nat) :=
  let c := w.user.promises.length
  let w1 : TWorld κ α σ := { w with user := { w.user with promises := w.user.promises ++ [none] } }
  match onceExample (.lambdaPromiseWrapper c) (notifyAll w1) with
  | .error e => .error e
  | .ok r => .ok (r.1, c)

/-- Method `waitExample(handler, duration)`.  `duration` is `none` for
`std::chrono::milliseconds::max()`.  `during` is what the other threads do to
the provider while the caller is blocked on the condition variable (with `m`
released); a wait without timeout that is not notified meanwhile never ends. -/
def waitExample (handler : ThreadedHandler κ) (duration : Option Nat)
    (during : TWorld κ α σ → Except Fault (TWorld κ α σ)) (w : TWorld κ α σ) :
    Except Fault (TWorld κ α σ × Bool) :=
  let c := w.user.finished.length
  let w1 : TWorld κ α σ := { w with user := { w.user with finished := w.user.finished ++ [false] } }
  if w1.user.m then .error .deadlock else
  match onceExample (.lambdaCallbackWrapper handler c) { w1 with user := { w1.user with m := true } } with
  | .error e => .error e
  | .ok (w2, ptr) =>
    match during { w2 with user := { w2.user with m := false } } with
    | .error e => .error e
    | .ok w3 =>
      if duration = none ∧ w3.user.notified = w2.user.notified then .error .blocked else
      let w4 : TWorld κ α σ := { w3 with user := { w3.user with m := true } }
      let gotFinished := w4.user.finished.getD c false
      let w5 := if gotFinished then w4 else (ExampleEventProvider.removeExampleHandler ptr w4).1
      .ok ({ w5 with user := { w5.user with m := false } }, gotFinished)

/-- Method `waitExample(duration)`: its body is the call
`waitExample([=](Rest...) {}, duration);` and nothing else, so control reaches the
end of a function returning `bool` without a `return` statement. -/
def waitExampleNoPayload (duration : Option Nat)
    (during : TWorld κ α σ → Except Fault (TWorld κ α σ)) (w : TWorld κ α σ) :
    Except Fault (TWorld κ α σ × Bool) :=
  match waitExample .ignoreArgs duration during w with
  | .error e => .error e
  | .ok _ => .error .missingReturn

/-- Interpretation of handlers of the caller that only change their environment. -/
def pureInterp (act : κ → α → σ → σ) : TInterp κ α σ :=
  fun k a w => .ok { w with user := { w.user with env := act k a w.user.env } }

/-- A freshly constructed threaded provider. -/
def new (u : σ) : TWorld κ α σ :=
  World.init { m := false, notified := 0, finished := [], promises := [], env := u }

end ExampleThreadedEventProvider

/-- Whether a callable of the threaded provider contains no promise wrapper. -/
def ThreadedHandler.promiseFree : ThreadedHandler κ → Bool
  | .user _ => true
  | .ignoreArgs => true
  | .lambdaCallbackWrapper f _ => f.promiseFree
  | .lambdaPromiseWrapper _ => false

/-- The promise a callable sets when it is a promise wrapper. -/
def ThreadedHandler.promiseCell : ThreadedHandler κ → Option Nat
  | .lambdaPromiseWrapper c => some c
  | _ => none

/-- What a callable of the threaded provider does to the threaded state when the
caller's handlers only change their environment by `act` (and the promise it
sets, if any, holds no value yet). -/
def ThreadedHandler.act (act : κ → α → σ → σ) :
    ThreadedHandler κ → α → ThreadedState α σ → ThreadedState α σ
  | .user k, a, s => { s with env := act k a s.env }
  | .ignoreArgs, _, s => s
  | .lambdaCallbackWrapper f c, a, s =>
    { ThreadedHandler.act act f a s with
      finished := (ThreadedHandler.act act f a s).finished.set c true,
      notified := (ThreadedHandler.act act f a s).notified + 1 }
  | .lambdaPromiseWrapper c, a, s => { s with promises := s.promises.set c (some a) }

/-- A threaded provider as it is between two calls made from outside, no thread
being inside one of its methods: the base store is well formed, both mutexes
are free, and every promise wrapper in the store is a one-shot node registered
by `futureOnceExample` whose promise holds no value yet, different nodes having
different promises. -/
structure ExampleThreadedEventProvider.WellFormed (w : TWorld κ α σ) : Prop where
  base : World.WellFormed w
  mutexFree : w.mutex = false
  mFree : w.user.m = false
  wrappers : ∀ n ∈ w.handlers, n.handler.fn.promiseFree = true ∨
    ∃ c, n.handler = .lambdaCallbackWrapper (.lambdaPromiseWrapper c) ∧
      w.user.promises.get? c = some none
  distinct : (w.handlers.filterMap (fun n => n.handler.fn.promiseCell)).Nodup

/-- Environment after the handlers of `l` ran one after the other, each with the
arguments `fargs` has when it is called. -/
def fireBy (act : κ → α → σ → σ) (fargs : σ → α) : List (Node κ) → σ → σ
  | [], u => u
  | n :: l, u => fireBy act fargs l (act n.handler.fn (fargs u) u)

/-- The log entries of one pass over `l`, each handler being called with the
arguments `fargs` has at that moment. -/
def invocationsBy (act : κ → α → σ → σ) (fargs : σ → α) : List (Node κ) → σ → List (Nat × α)
  | [], _ => []
  | n :: l, u => (n.ptr, fargs u) :: invocationsBy act fargs l (act n.handler.fn (fargs u) u)

/-- The state one `triggerExample` on an argument pack bound to variables leads to
when no handler touches the provider. -/
def triggeredBy (act : κ → α → σ → σ) (fargs : σ → α) (w : World κ α σ) : World κ α σ :=
  { w with
    eventHandlers :=
      match w.eventHandlers with
      | none => none
      | some s => some { list := persistent s.list, eraseLast := false },
    user := fireBy act fargs w.handlers w.user,
    log := w.log ++ invocationsBy act fargs w.handlers w.user }

/-- What a callable of the threaded provider does to the environment of the
caller's handlers, these changing it by `act`. -/
def ThreadedHandler.envAct (act : κ → α → σ → σ) : ThreadedHandler κ → α → σ → σ
  | .user k, a, e => act k a e
  | .ignoreArgs, _, e => e
  | .lambdaCallbackWrapper f _, a, e => ThreadedHandler.envAct act f a e
  | .lambdaPromiseWrapper _, _, e => e

/-- The state in which `waitExample(handler, duration)` blocks on the condition
variable: its `finished` cell is the new last cell and holds `false`, its
one-shot node (handle `w.nextPtr`) is at the front of the store, `m` is
released. -/
def ExampleThreadedEventProvider.blockedState (handler : ThreadedHandler κ) (w : TWorld κ α σ) :
    TWorld κ α σ :=
  { w with
    eventHandlers := some
      { list := { ptr := w.nextPtr,
                  handler := .lambdaCallbackWrapper
                    (.lambdaCallbackWrapper handler w.user.finished.length) } :: w.handlers,
        eraseLast := false },
    nextPtr := w.nextPtr + 1,
    user := { w.user with finished := w.user.finished ++ [false] } }

/-! ## Iterator lemmas -/

theorem lastIter_nil : lastIter ([] : List (Node κ)) = .beforeBegin := rfl

theorem begin_cons (n : Node κ) (l : List (Node κ)) : Iter.begin (n :: l) = .node n.ptr := rfl

theorem next_node (l : List (Node κ)) (p : Nat) : Iter.next l (.node p) = nextOf p l := rfl

theorem lastIter_concat (done : List (Node κ)) (e : Node κ) :
    lastIter (done ++ [e]) = .node e.ptr := by
  simp [lastIter]

theorem deref_mid (done rest : List (Node κ)) (e : Node κ)
    (h : ((done ++ e :: rest).map Node.ptr).Nodup) :
    Iter.deref (done ++ e :: rest) (.node e.ptr) = some e := by
  induction done with
  | nil => simp [Iter.deref]
  | cons d done ih =>
    simp only [List.cons_append, List.map_cons, List.nodup_cons] at h
    have hd : d.ptr ≠ e.ptr := by
      intro hEq
      apply h.1
      rw [hEq]
      simp
    have h2 : ((done ++ e :: rest).map Node.ptr).Nodup := h.2
    have := ih h2
    simp only [Iter.deref] at this ⊢
    simp [List.find?, hd, this]

theorem nextOf_mid (done rest : List (Node κ)) (e : Node κ)
    (h : ((done ++ e :: rest).map Node.ptr).Nodup) :
    nextOf e.ptr (done ++ e :: rest) = some (Iter.begin rest) := by
  induction done with
  | nil => simp [nextOf]
  | cons d done ih =>
    simp only [List.cons_append, List.map_cons, List.nodup_cons] at h
    have hd : d.ptr ≠ e.ptr := by
      intro hEq
      apply h.1
      rw [hEq]
      simp
    have h2 : ((done ++ e :: rest).map Node.ptr).Nodup := h.2
    simp [nextOf, hd, ih h2]

theorem eraseAfterNode_mid (pre rest : List (Node κ)) (d e : Node κ)
    (h : ((pre ++ d :: e :: rest).map Node.ptr).Nodup) :
    eraseAfterNode d.ptr (pre ++ d :: e :: rest) = some (pre ++ d :: rest, Iter.begin rest) := by
  induction pre with
  | nil => simp [eraseAfterNode]
  | cons c pre ih =>
    simp only [List.cons_append, List.map_cons, List.nodup_cons] at h
    have hc : c.ptr ≠ d.ptr := by
      intro hEq
      apply h.1
      rw [hEq]
      simp
    have h2 : ((pre ++ d :: e :: rest).map Node.ptr).Nodup := h.2
    simp [eraseAfterNode, hc, ih h2]

theorem next_lastIter (done rest : List (Node κ)) (e : Node κ)
    (h : ((done ++ e :: rest).map Node.ptr).Nodup) :
    Iter.next (done ++ e :: rest) (lastIter done) = some (.node e.ptr) := by
  rcases List.eq_nil_or_concat done with hnil | ⟨pre, d, hd⟩
  · subst hnil
    simp [lastIter, Iter.next, Iter.begin]
  · subst hd
    rw [List.concat_eq_append] at h ⊢
    rw [List.append_assoc] at h
    rw [lastIter_concat, List.append_assoc]
    simpa [Iter.next, Iter.begin] using nextOf_mid pre (e :: rest) d h

theorem eraseAfter_lastIter (done rest : List (Node κ)) (e : Node κ)
    (h : ((done ++ e :: rest).map Node.ptr).Nodup) :
    eraseAfter (done ++ e :: rest) (lastIter done) = some (done ++ rest, Iter.begin rest) := by
  rcases List.eq_nil_or_concat done with hnil | ⟨pre, d, hd⟩
  · subst hnil
    simp [lastIter, eraseAfter]
  · subst hd
    rw [List.concat_eq_append] at h ⊢
    rw [List.append_assoc] at h
    rw [lastIter_concat, List.append_assoc]
    simpa [eraseAfter] using eraseAfterNode_mid pre rest d e h

/-! ## The trigger loop on handlers that do not touch the provider -/

theorem triggerLoop_pure (act : κ → α → σ → σ) (a : α) :
    ∀ (rest done : List (Node κ)) (w : World κ α σ) (fuel : Nat),
      w.eventHandlers = some { list := done ++ rest, eraseLast := false } →
      ((done ++ rest).map Node.ptr).Nodup →
      rest.length ≤ fuel →
      ExampleEventProvider.triggerLoop (pureInterp act) a fuel (lastIter done) (Iter.begin rest) w
        = .ok { w with eventHandlers := some { list := done ++ persistent rest, eraseLast := false },
                       user := fire act a rest w.user,
                       log := w.log ++ invocations a rest } := by
  intro rest
  induction rest with
  | nil =>
    intro done w fuel hw _ _
    obtain ⟨eh, dq, m, np, u, lg⟩ := w
    simp only at hw
    subst hw
    cases fuel <;>
      simp [ExampleEventProvider.triggerLoop, Iter.begin, persistent, fire, invocations]
  | cons e rest ih =>
    intro done w fuel hw hnd hfuel
    cases fuel with
    | zero => simp at hfuel
    | succ fuel =>
      have hfuel2 : rest.length ≤ fuel := by simpa using hfuel
      obtain ⟨eh, dq, m, np, u, lg⟩ := w
      simp only at hw
      subst hw
      obtain ⟨p, h⟩ := e
      cases h with
      | user f =>
        have hnd2 : (((done ++ [(⟨p, Handler.user f⟩ : Node κ)]) ++ rest).map Node.ptr).Nodup := by
          simpa using hnd
        have hi := ih (done ++ [⟨p, Handler.user f⟩])
          { eventHandlers := some { list := (done ++ [⟨p, Handler.user f⟩]) ++ rest, eraseLast := false },
            deferredQueue := dq, mutex := m, nextPtr := np, user := act f a u,
            log := lg ++ [(p, a)] } fuel rfl hnd2 hfuel2
        have hd := deref_mid done rest ⟨p, Handler.user f⟩ hnd
        have hn := next_lastIter done rest ⟨p, Handler.user f⟩ hnd
        have hx := nextOf_mid done rest ⟨p, Handler.user f⟩ hnd
        simp only [lastIter_concat, List.append_assoc, List.singleton_append] at hi
        dsimp only at hd hn hx
        rw [begin_cons]
        simp only [ExampleEventProvider.triggerLoop, hd, ExampleEventProvider.call,
          pureInterp, next_node, hn, hx, hi]
        simp [persistent, fire, invocations, Handler.isOnce, Handler.fn]
      | lambdaCallbackWrapper f =>
        have hnd2 : ((done ++ rest).map Node.ptr).Nodup := by
          simp only [List.map_append, List.map_cons] at hnd ⊢
          exact (List.nodup_cons.mp (List.nodup_middle.mp hnd)).2
        have hi := ih done
          { eventHandlers := some { list := done ++ rest, eraseLast := false },
            deferredQueue := dq, mutex := m, nextPtr := np, user := act f a u,
            log := lg ++ [(p, a)] } fuel rfl hnd2 hfuel2
        have hd := deref_mid done rest ⟨p, Handler.lambdaCallbackWrapper f⟩ hnd
        have he := eraseAfter_lastIter done rest ⟨p, Handler.lambdaCallbackWrapper f⟩ hnd
        dsimp only at hd he
        rw [begin_cons]
        simp only [ExampleEventProvider.triggerLoop, hd, ExampleEventProvider.call,
          pureInterp, he, hi]
        simp [persistent, fire, invocations, Handler.isOnce, Handler.fn]

theorem handlers_triggered (act : κ → α → σ → σ) (a : α) (w : World κ α σ) :
    (triggered act a w).handlers = persistent w.handlers := by
  unfold triggered World.handlers
  cases h : w.eventHandlers <;> simp [persistent]

theorem persistent_sublist (l : List (Node κ)) : (persistent l).Sublist l :=
  List.filter_sublist l

theorem wellFormed_triggered (act : κ → α → σ → σ) (a : α) (w : World κ α σ)
    (h : w.WellFormed) : (triggered act a w).WellFormed := by
  refine ⟨?_, ?_, ?_⟩
  · unfold triggered World.eraseLast
    cases w.eventHandlers <;> rfl
  · rw [handlers_triggered]
    exact h.nodup.sublist ((persistent_sublist _).map _)
  · intro n hn
    rw [handlers_triggered] at hn
    exact h.fresh n ((persistent_sublist _).subset hn)

theorem triggerExample_pure (act : κ → α → σ → σ) (fuel : Nat) (a : α) (w : World κ α σ)
    (hwf : w.WellFormed) (hfuel : w.handlers.length ≤ fuel) :
    ExampleEventProvider.triggerExample (pureInterp act) fuel a w = .ok (triggered act a w) := by
  obtain ⟨hflag, hnd, _⟩ := hwf
  obtain ⟨eh, dq, m, np, u, lg⟩ := w
  cases eh with
  | none =>
    simp [ExampleEventProvider.triggerExample, triggered, World.handlers, fire, invocations]
  | some s =>
    obtain ⟨l, e⟩ := s
    simp only [World.eraseLast] at hflag
    subst hflag
    simp only [World.handlers] at hnd hfuel
    have := triggerLoop_pure act a l []
      { eventHandlers := some { list := l, eraseLast := false }, deferredQueue := dq, mutex := m,
        nextPtr := np, user := u, log := lg } fuel rfl (by simpa using hnd) hfuel
    simpa [ExampleEventProvider.triggerExample, triggered, World.handlers, lastIter_nil] using this

theorem fireBy_const (act : κ → α → σ → σ) (a : α) (l : List (Node κ)) :
    ∀ u : σ, fireBy act (fun _ => a) l u = fire act a l u := by
  induction l with
  | nil => intro u; rfl
  | cons n l ih => intro u; exact ih _

theorem invocationsBy_const (act : κ → α → σ → σ) (a : α) (l : List (Node κ)) :
    ∀ u : σ, invocationsBy act (fun _ => a) l u = invocations a l := by
  induction l with
  | nil => intro u; rfl
  | cons n l ih =>
    intro u
    show (n.ptr, a) :: invocationsBy act (fun _ => a) l _ = (n.ptr, a) :: invocations a l
    rw [ih]

theorem triggeredBy_const (act : κ → α → σ → σ) (a : α) (w : World κ α σ) :
    triggeredBy act (fun _ => a) w = triggered act a w := by
  simp only [triggeredBy, triggered, fireBy_const, invocationsBy_const]

theorem fireBy_stable (act : κ → α → σ → σ) (fargs : σ → α)
    (hstable : ∀ k a u, fargs (act k a u) = fargs u) (l : List (Node κ)) :
    ∀ u : σ, fireBy act fargs l u = fire act (fargs u) l u := by
  induction l with
  | nil => intro u; rfl
  | cons n l ih =>
    intro u
    show fireBy act fargs l (act n.handler.fn (fargs u) u)
      = fire act (fargs u) l (act n.handler.fn (fargs u) u)
    rw [ih, hstable]

theorem invocationsBy_fst (act : κ → α → σ → σ) (fargs : σ → α) (l : List (Node κ)) :
    ∀ u : σ, (invocationsBy act fargs l u).map Prod.fst = l.map Node.ptr := by
  induction l with
  | nil => intro u; rfl
  | cons n l ih =>
    intro u
    show n.ptr :: (invocationsBy act fargs l _).map Prod.fst = n.ptr :: l.map Node.ptr
    rw [ih]

/-- When no handler changes what `fargs` reads, every handler receives the same value. -/
theorem invocationsBy_stable (act : κ → α → σ → σ) (fargs : σ → α)
    (hstable : ∀ k a u, fargs (act k a u) = fargs u) (l : List (Node κ)) :
    ∀ u : σ, invocationsBy act fargs l u = l.map (fun n => (n.ptr, fargs u)) := by
  induction l with
  | nil => intro u; rfl
  | cons n l ih =>
    intro u
    show (n.ptr, fargs u) :: invocationsBy act fargs l _ = _
    rw [ih, hstable]
    rfl

theorem triggeredBy_stable (act : κ → α → σ → σ) (fargs : σ → α)
    (hstable : ∀ k a u, fargs (act k a u) = fargs u) (w : World κ α σ) :
    triggeredBy act fargs w = triggered act (fargs w.user) w := by
  simp only [triggeredBy, triggered, fireBy_stable act fargs hstable,
    invocationsBy_stable act fargs hstable, invocations]

theorem triggerLoopRef_pure (act : κ → α → σ → σ) (fargs : σ → α) :
    ∀ (rest done : List (Node κ)) (w : World κ α σ) (fuel : Nat),
      w.eventHandlers = some { list := done ++ rest, eraseLast := false } →
      ((done ++ rest).map Node.ptr).Nodup →
      rest.length ≤ fuel →
      ExampleEventProvider.triggerLoopRef (pureInterp act) fargs fuel (lastIter done)
          (Iter.begin rest) w
        = .ok { w with eventHandlers := some { list := done ++ persistent rest, eraseLast := false },
                       user := fireBy act fargs rest w.user,
                       log := w.log ++ invocationsBy act fargs rest w.user } := by
  intro rest
  induction rest with
  | nil =>
    intro done w fuel hw _ _
    obtain ⟨eh, dq, m, np, u, lg⟩ := w
    simp only at hw
    subst hw
    cases fuel <;>
      simp [ExampleEventProvider.triggerLoopRef, Iter.begin, persistent, fireBy, invocationsBy]
  | cons e rest ih =>
    intro done w fuel hw hnd hfuel
    cases fuel with
    | zero => simp at hfuel
    | succ fuel =>
      have hfuel2 : rest.length ≤ fuel := by simpa using hfuel
      obtain ⟨eh, dq, m, np, u, lg⟩ := w
      simp only at hw
      subst hw
      obtain ⟨p, h⟩ := e
      cases h with
      | user f =>
        have hnd2 : (((done ++ [(⟨p, Handler.user f⟩ : Node κ)]) ++ rest).map Node.ptr).Nodup := by
          simpa using hnd
        have hi := ih (done ++ [⟨p, Handler.user f⟩])
          { eventHandlers := some { list := (done ++ [⟨p, Handler.user f⟩]) ++ rest, eraseLast := false },
            deferredQueue := dq, mutex := m, nextPtr := np, user := act f (fargs u) u,
            log := lg ++ [(p, fargs u)] } fuel rfl hnd2 hfuel2
        have hd := deref_mid done rest ⟨p, Handler.user f⟩ hnd
        have hn := next_lastIter done rest ⟨p, Handler.user f⟩ hnd
        have hx := nextOf_mid done rest ⟨p, Handler.user f⟩ hnd
        simp only [lastIter_concat, List.append_assoc, List.singleton_append] at hi
        dsimp only at hd hn hx
        rw [begin_cons]
        simp only [ExampleEventProvider.triggerLoopRef, hd, ExampleEventProvider.call,
          pureInterp, next_node, hn, hx, hi]
        simp [persistent, fireBy, invocationsBy, Handler.isOnce, Handler.fn]
      | lambdaCallbackWrapper f =>
        have hnd2 : ((done ++ rest).map Node.ptr).Nodup := by
          simp only [List.map_append, List.map_cons] at hnd ⊢
          exact (List.nodup_cons.mp (List.nodup_middle.mp hnd)).2
        have hi := ih done
          { eventHandlers := some { list := done ++ rest, eraseLast := false },
            deferredQueue := dq, mutex := m, nextPtr := np, user := act f (fargs u) u,
            log := lg ++ [(p, fargs u)] } fuel rfl hnd2 hfuel2
        have hd := deref_mid done rest ⟨p, Handler.lambdaCallbackWrapper f⟩ hnd
        have he := eraseAfter_lastIter done rest ⟨p, Handler.lambdaCallbackWrapper f⟩ hnd
        dsimp only at hd he
        rw [begin_cons]
        simp only [ExampleEventProvider.triggerLoopRef, hd, ExampleEventProvider.call,
          pureInterp, he, hi]
        simp [persistent, fireBy, invocationsBy, Handler.isOnce, Handler.fn]

theorem triggerExampleRef_pure (act : κ → α → σ → σ) (fuel : Nat) (fargs : σ → α)
    (w : World κ α σ) (hwf : w.WellFormed) (hfuel : w.handlers.length ≤ fuel) :
    ExampleEventProvider.triggerExampleRef (pureInterp act) fuel fargs w
      = .ok (triggeredBy act fargs w) := by
  obtain ⟨hflag, hnd, _⟩ := hwf
  obtain ⟨eh, dq, m, np, u, lg⟩ := w
  cases eh with
  | none =>
    simp [ExampleEventProvider.triggerExampleRef, triggeredBy, World.handlers, fireBy,
      invocationsBy]
  | some s =>
    obtain ⟨l, e⟩ := s
    simp only [World.eraseLast] at hflag
    subst hflag
    simp only [World.handlers] at hnd hfuel
    have := triggerLoopRef_pure act fargs l []
      { eventHandlers := some { list := l, eraseLast := false }, deferredQueue := dq, mutex := m,
        nextPtr := np, user := u, log := lg } fuel rfl (by simpa using hnd) hfuel
    simpa [ExampleEventProvider.triggerExampleRef, triggeredBy, World.handlers, lastIter_nil]
      using this

/-- On an argument pack that no variable backs, the loop is the loop on values. -/
theorem triggerLoopRef_const (interp : Interp κ α σ) (a : α) (fuel : Nat) :
    ∀ (prev i : Iter) (w : World κ α σ),
      ExampleEventProvider.triggerLoopRef interp (fun _ => a) fuel prev i w
        = ExampleEventProvider.triggerLoop interp a fuel prev i w := by
  induction fuel with
  | zero => intro prev i w; rfl
  | succ fuel ih =>
    intro prev i w
    simp only [ExampleEventProvider.triggerLoopRef, ExampleEventProvider.triggerLoop, ih]

theorem triggerExampleRef_const (interp : Interp κ α σ) (a : α) (fuel : Nat) (w : World κ α σ) :
    ExampleEventProvider.triggerExampleRef interp fuel (fun _ => a) w
      = ExampleEventProvider.triggerExample interp fuel a w := by
  simp only [ExampleEventProvider.triggerExampleRef, ExampleEventProvider.triggerExample,
    triggerLoopRef_const]

theorem length_handlers_triggered (act : κ → α → σ → σ) (a : α) (w : World κ α σ) :
    (triggered act a w).handlers.length ≤ w.handlers.length := by
  rw [handlers_triggered]
  exact (persistent_sublist _).length_le

theorem triggerAll_pure (act : κ → α → σ → σ) (fuel : Nat) (as : List α) :
    ∀ w : World κ α σ, w.WellFormed → w.handlers.length ≤ fuel →
      triggerAll (pureInterp act) fuel as w = .ok (triggeredAll act as w) := by
  induction as with
  | nil => intro w _ _; rfl
  | cons a as ih =>
    intro w hwf hfuel
    simp only [triggerAll, triggerExample_pure act fuel a w hwf hfuel, triggeredAll]
    exact ih _ (wellFormed_triggered act a w hwf)
      (le_trans (length_handlers_triggered act a w) hfuel)

theorem delivered_append (p : Nat) (l1 l2 : List (Nat × α)) :
    delivered p (l1 ++ l2) = delivered p l1 ++ delivered p l2 := by
  simp [delivered]

theorem delivered_invocations_of_not_mem (p : Nat) (a : α) (l : List (Node κ))
    (h : p ∉ l.map Node.ptr) : delivered p (invocations a l) = [] := by
  induction l with
  | nil => rfl
  | cons n l ih =>
    simp only [List.map_cons, List.mem_cons, not_or] at h
    have hne : ¬ n.ptr = p := fun hEq => h.1 hEq.symm
    have := ih h.2
    simp only [delivered, invocations, List.map_cons, List.filter_cons, hne, decide_False] at this ⊢
    simpa using this

theorem delivered_invocations_of_mem (a : α) (l : List (Node κ)) (n : Node κ)
    (hnd : (l.map Node.ptr).Nodup) (hn : n ∈ l) : delivered n.ptr (invocations a l) = [a] := by
  induction l with
  | nil => simp at hn
  | cons m l ih =>
    simp only [List.map_cons, List.nodup_cons] at hnd
    rcases List.mem_cons.mp hn with rfl | hmem
    · have := delivered_invocations_of_not_mem n.ptr a l hnd.1
      simp only [delivered, invocations, List.map_cons, List.filter_cons, decide_True] at this ⊢
      simpa using this
    · have hne : ¬ m.ptr = n.ptr := by
        intro hEq
        exact hnd.1 (hEq ▸ List.mem_map_of_mem Node.ptr hmem)
      have := ih hnd.2 hmem
      simp only [delivered, invocations, List.map_cons, List.filter_cons, hne, decide_False] at this ⊢
      simpa using this

/-- After a run of triggers the new log entries all belong to nodes that were
registered before the run. -/
theorem log_triggeredAll (act : κ → α → σ → σ) (as : List α) :
    ∀ w : World κ α σ, ∃ tail, (triggeredAll act as w).log = w.log ++ tail ∧
      ∀ e ∈ tail, e.1 ∈ w.handlers.map Node.ptr := by
  induction as with
  | nil => intro w; exact ⟨[], by simp [triggeredAll], by simp⟩
  | cons a as ih =>
    intro w
    obtain ⟨tail, h1, h2⟩ := ih (triggered act a w)
    refine ⟨invocations a w.handlers ++ tail, ?_, ?_⟩
    · rw [triggeredAll, h1]
      simp [triggered]
    · intro e he
      rcases List.mem_append.mp he with he | he
      · simp only [invocations, List.mem_map] at he ⊢
        obtain ⟨n, hn, rfl⟩ := he
        exact ⟨n, hn, rfl⟩
      · have := h2 e he
        rw [handlers_triggered] at this
        exact (((persistent_sublist w.handlers).map Node.ptr).subset) this

theorem delivered_of_not_mem (p : Nat) (tail : List (Nat × α))
    (h : ∀ e ∈ tail, e.1 ≠ p) : delivered p tail = [] := by
  simp only [delivered, List.map_eq_nil_iff, List.filter_eq_nil_iff]
  intro e he
  simpa using h e he

/-! ## Registration -/

theorem handlers_onExample (k : κ) (w : World κ α σ) :
    (ExampleEventProvider.onExample k w).1.handlers
      = { ptr := w.nextPtr, handler := .user k } :: w.handlers := by
  unfold ExampleEventProvider.onExample ExampleEventProvider.assureHandlers World.handlers
  cases w.eventHandlers <;> rfl

theorem handlers_onceExample (k : κ) (w : World κ α σ) :
    (ExampleEventProvider.onceExample k w).1.handlers
      = { ptr := w.nextPtr, handler := .lambdaCallbackWrapper k } :: w.handlers := by
  unfold ExampleEventProvider.onceExample ExampleEventProvider.assureHandlers World.handlers
  cases w.eventHandlers <;> rfl

theorem wellFormed_cons (w w1 : World κ α σ) (h : Handler κ) (hwf : w.WellFormed)
    (hflag : w1.eraseLast = w.eraseLast)
    (hl : w1.handlers = { ptr := w.nextPtr, handler := h } :: w.handlers)
    (hn : w1.nextPtr = w.nextPtr + 1) : w1.WellFormed := by
  refine ⟨hflag.trans hwf.flag, ?_, ?_⟩
  · rw [hl, List.map_cons, List.nodup_cons]
    refine ⟨?_, hwf.nodup⟩
    intro hmem
    obtain ⟨n, hn1, hn2⟩ := List.mem_map.mp hmem
    have := hwf.fresh n hn1
    simp at hn2
    omega
  · intro n hmem
    rw [hl] at hmem
    rw [hn]
    rcases List.mem_cons.mp hmem with rfl | hmem
    · simp
    · exact Nat.lt_succ_of_lt (hwf.fresh n hmem)

theorem wellFormed_onExample (k : κ) (w : World κ α σ) (hwf : w.WellFormed) :
    (ExampleEventProvider.onExample k w).1.WellFormed := by
  refine wellFormed_cons w _ _ hwf ?_ (handlers_onExample k w) rfl
  unfold ExampleEventProvider.onExample ExampleEventProvider.assureHandlers World.eraseLast
  cases w.eventHandlers <;> rfl

theorem wellFormed_onceExample (k : κ) (w : World κ α σ) (hwf : w.WellFormed) :
    (ExampleEventProvider.onceExample k w).1.WellFormed := by
  refine wellFormed_cons w _ _ hwf ?_ (handlers_onceExample k w) rfl
  unfold ExampleEventProvider.onceExample ExampleEventProvider.assureHandlers World.eraseLast
  cases w.eventHandlers <;> rfl

theorem wellFormed_init (u : σ) : (World.init u : World κ α σ).WellFormed :=
  ⟨rfl, List.nodup_nil, fun _ h => by simp [World.init, World.handlers] at h⟩

theorem registerAll_spec (regs : List (Bool × κ)) :
    ∀ w : World κ α σ, w.WellFormed →
      (registerAll regs w).1.WellFormed ∧
      (registerAll regs w).2.length = regs.length ∧
      (registerAll regs w).1.handlers.map (fun n => some n.ptr)
        = (registerAll regs w).2.reverse ++ w.handlers.map (fun n => some n.ptr) ∧
      (registerAll regs w).1.log = w.log := by
  induction regs with
  | nil => intro w hwf; simp [registerAll, hwf]
  | cons r regs ih =>
    intro w hwf
    obtain ⟨once, k⟩ := r
    cases once with
    | false =>
      obtain ⟨h1, h2, h3, h4⟩ := ih _ (wellFormed_onExample k w hwf)
      refine ⟨by simpa [registerAll] using h1, by simpa [registerAll] using h2, ?_, ?_⟩
      · simp only [registerAll, Bool.false_eq_true, if_false] at h3 ⊢
        rw [h3, handlers_onExample]
        simp [ExampleEventProvider.onExample]
      · simp only [registerAll, Bool.false_eq_true, if_false] at h4 ⊢
        rw [h4]
        rfl
    | true =>
      obtain ⟨h1, h2, h3, h4⟩ := ih _ (wellFormed_onceExample k w hwf)
      refine ⟨by simpa [registerAll] using h1, by simpa [registerAll] using h2, ?_, ?_⟩
      · simp only [registerAll, if_true] at h3 ⊢
        rw [h3, handlers_onceExample]
        simp [ExampleEventProvider.onceExample]
      · simp only [registerAll, if_true] at h4 ⊢
        rw [h4]
        rfl

/-! ## C1 -/

/-- C1, as stated, fails: two handlers registered with `onExample` on a fresh
store get the handles 0 and 1 in that order, and one `triggerExample` invokes
the handler with handle 1 first and the one with handle 0 last; the
invocation order is not the registration order. -/
theorem C1_counterexample :
    (registerAll [(false, 10), (false, 20)] (World.init () : World Nat Nat Unit)).2
        = [some 0, some 1] ∧
    (∃ w, ExampleEventProvider.triggerExample (pureInterp (fun _ _ u => u)) 2 7
            (registerAll [(false, 10), (false, 20)] (World.init () : World Nat Nat Unit)).1 = .ok w ∧
          w.log = [(1, 7), (0, 7)]) ∧
    ¬ (∃ w, ExampleEventProvider.triggerExample (pureInterp (fun _ _ u => u)) 2 7
            (registerAll [(false, 10), (false, 20)] (World.init () : World Nat Nat Unit)).1 = .ok w ∧
          w.log.map (fun e => some e.1)
            = (registerAll [(false, 10), (false, 20)] (World.init () : World Nat Nat Unit)).2) := by
  refine ⟨rfl, ⟨_, rfl, rfl⟩, ?_⟩
  rintro ⟨w, hw, hlog⟩
  have h2 : ExampleEventProvider.triggerExample (pureInterp (fun _ _ u => u)) 2 7
      (registerAll [(false, 10), (false, 20)] (World.init () : World Nat Nat Unit)).1
      = .ok { eventHandlers := some { list := [⟨1, .user 20⟩, ⟨0, .user 10⟩], eraseLast := false },
              deferredQueue := none, mutex := false, nextPtr := 2, user := (),
              log := [(1, 7), (0, 7)] } := rfl
  rw [h2] at hw
  injection hw with hw
  subst hw
  simp [registerAll, ExampleEventProvider.onExample] at hlog

/-- C1 (amended): for every sequence of handlers registered on a fresh store
with `onExample`/`onceExample`, none of them touching the store, one
`triggerExample(a)` returns and invokes each registered handler once with `a`,
in the reverse of the registration order: the handler registered last runs
first, the one registered first runs last. -/
theorem C1_trigger_reverse_registration_order (act : κ → α → σ → σ)
    (regs : List (Bool × κ)) (u : σ) (a : α) (fuel : Nat) (hfuel : regs.length ≤ fuel) :
    ∃ w, ExampleEventProvider.triggerExample (pureInterp act) fuel a
            (registerAll regs (World.init u)).1 = .ok w ∧
      w.log.map (fun e => (some e.1, e.2))
        = (registerAll regs (World.init u : World κ α σ)).2.reverse.map (fun h => (h, a)) := by
  obtain ⟨h1, h2, h3, h4⟩ := registerAll_spec regs (World.init u : World κ α σ) (wellFormed_init u)
  have hnil : (World.init u : World κ α σ).handlers = [] := rfl
  have hlog : (World.init u : World κ α σ).log = [] := rfl
  rw [hnil, List.map_nil, List.append_nil] at h3
  rw [hlog] at h4
  have hlen : (registerAll regs (World.init u : World κ α σ)).1.handlers.length = regs.length := by
    have := congrArg List.length h3
    simpa [h2] using this
  refine ⟨_, triggerExample_pure act fuel a _ h1 (by omega), ?_⟩
  rw [← h3]
  simp only [triggered, h4, List.nil_append, invocations, List.map_map]
  rfl

/-- C1 (amended), at three registrations: handles 0, 1, 2 are invoked as 2, 1, 0. -/
theorem C1_trigger_reverse_registration_order_witness :
    [(false, 10), (true, 20), (false, 30)].length ≤ 3 ∧
    ∃ w, ExampleEventProvider.triggerExample (pureInterp (fun (k : Nat) (_ : Nat) (u : List Nat) => u ++ [k])) 3 7
            (registerAll [(false, 10), (true, 20), (false, 30)] (World.init [])).1 = .ok w ∧
      w.log.map (fun e => (some e.1, e.2))
        = (registerAll [(false, 10), (true, 20), (false, 30)]
            (World.init [] : World Nat Nat (List Nat))).2.reverse.map (fun h => (h, 7)) :=
  ⟨by decide, C1_trigger_reverse_registration_order _ _ _ _ _ (by decide)⟩

/-! ## C2 -/

theorem triggeredAll_counter (k : κ) (p : Nat) (as : List α) :
    ∀ w : World κ α Nat, w.handlers = [{ ptr := p, handler := .user k }] →
      (triggeredAll (fun _ _ n => n + 1) as w).user = w.user + as.length ∧
      (triggeredAll (fun _ _ n => n + 1) as w).handlers = [{ ptr := p, handler := .user k }] := by
  induction as with
  | nil => intro w hw; exact ⟨rfl, hw⟩
  | cons a as ih =>
    intro w hw
    have h1 : (triggered (fun (_ : κ) (_ : α) (n : Nat) => n + 1) a w).handlers
        = [{ ptr := p, handler := .user k }] := by
      rw [handlers_triggered, hw]
      rfl
    obtain ⟨h2, h3⟩ := ih _ h1
    refine ⟨?_, h3⟩
    rw [triggeredAll, h2]
    simp only [triggered, hw, fire, List.foldl, List.length_cons]
    omega

/-- C2: on a fresh store holding one persistent handler (registered with
`onExample`) that increments a counter starting at `c`, a run of N
`triggerExample` calls (N the length of `args`, any arguments) returns, leaves
the counter at exactly `c + N` (at N when it starts at 0) and leaves the handler
registered. -/
theorem C2_persistent_counter (k : κ) (c : Nat) (args : List α) (fuel : Nat) :
    ∃ w, triggerAll (pureInterp (fun _ _ n => n + 1)) (fuel + 1) args
            (ExampleEventProvider.onExample k (World.init c)).1 = .ok w ∧
      w.user = c + args.length ∧
      w.handlers = [{ ptr := 0, handler := .user k }] := by
  have hwf := wellFormed_onExample k (World.init c : World κ α Nat) (wellFormed_init c)
  have hh : (ExampleEventProvider.onExample k (World.init c : World κ α Nat)).1.handlers
      = [{ ptr := 0, handler := .user k }] := rfl
  refine ⟨_, triggerAll_pure _ (fuel + 1) args _ hwf (by rw [hh]; simp), ?_⟩
  exact triggeredAll_counter k 0 args _ hh

/-! ## C3 -/

/-- C3: on every well-formed store, a handler `k` registered once with
`onceExample` gets the handle `p`; any run of one or more `triggerExample`
calls (first arguments `a`, then `as`) returns and invokes the handler at `p`
exactly once in total: the first trigger invokes it with `a` (its body runs
before those of the older handlers) and unlinks it, and the log of the whole
run holds no other invocation of `p`. -/
theorem C3_once_invoked_exactly_once (act : κ → α → σ → σ) (w : World κ α σ) (k : κ)
    (a : α) (as : List α) (fuel : Nat)
    (hwf : w.WellFormed) (hfuel : w.handlers.length < fuel) :
    (ExampleEventProvider.onceExample k w).2 = some w.nextPtr ∧
    ∃ w1, ExampleEventProvider.triggerExample (pureInterp act) fuel a
            (ExampleEventProvider.onceExample k w).1 = .ok w1 ∧
      delivered w.nextPtr w1.log = delivered w.nextPtr w.log ++ [a] ∧
      w1.user = fire act a w.handlers (act k a w.user) ∧
      w.nextPtr ∉ w1.handlers.map Node.ptr ∧
      ∃ wk, triggerAll (pureInterp act) fuel (a :: as) (ExampleEventProvider.onceExample k w).1 = .ok wk ∧
        triggerAll (pureInterp act) fuel as w1 = .ok wk ∧
        delivered w.nextPtr wk.log = delivered w.nextPtr w.log ++ [a] := by
  have hwf1 := wellFormed_onceExample k w hwf
  have hh := handlers_onceExample k w
  have hlen : (ExampleEventProvider.onceExample k w).1.handlers.length ≤ fuel := by
    rw [hh]
    simpa using hfuel
  have hnot : w.nextPtr ∉ w.handlers.map Node.ptr := by
    intro hmem
    obtain ⟨n, hn1, hn2⟩ := List.mem_map.mp hmem
    have := hwf.fresh n hn1
    omega
  have hnot1 : w.nextPtr ∉ (triggered act a (ExampleEventProvider.onceExample k w).1).handlers.map
      Node.ptr := by
    rw [handlers_triggered, hh]
    intro hmem
    apply hnot
    have hsub : (persistent ({ ptr := w.nextPtr, handler := .lambdaCallbackWrapper k } :: w.handlers)).Sublist
        w.handlers := by
      simp only [persistent, List.filter_cons, Handler.isOnce, Bool.not_true, Bool.false_eq_true,
        if_false]
      exact List.filter_sublist _
    exact (hsub.map Node.ptr).subset hmem
  have hlog1 : delivered w.nextPtr (triggered act a (ExampleEventProvider.onceExample k w).1).log
      = delivered w.nextPtr w.log ++ [a] := by
    have hl : (triggered act a (ExampleEventProvider.onceExample k w).1).log
        = w.log ++ (w.nextPtr, a) :: invocations a w.handlers := by
      simp only [triggered, hh, invocations, List.map_cons]
      rfl
    rw [hl, delivered_append]
    have h0 := delivered_invocations_of_not_mem w.nextPtr a w.handlers hnot
    simp only [delivered, List.filter_cons, decide_True, if_true, List.map_cons] at h0 ⊢
    rw [h0]
  refine ⟨rfl, _, triggerExample_pure act fuel a _ hwf1 hlen, hlog1, ?_, hnot1, ?_⟩
  · show fire act a (ExampleEventProvider.onceExample k w).1.handlers
        (ExampleEventProvider.onceExample k w).1.user = _
    rw [hh]
    rfl
  · have hwf2 := wellFormed_triggered act a _ hwf1
    have hlen2 := le_trans (length_handlers_triggered act a
      (ExampleEventProvider.onceExample k w).1) hlen
    refine ⟨_, triggerAll_pure act fuel (a :: as) _ hwf1 hlen,
      triggerAll_pure act fuel as _ hwf2 hlen2, ?_⟩
    obtain ⟨tail, ht1, ht2⟩ := log_triggeredAll act as
      (triggered act a (ExampleEventProvider.onceExample k w).1)
    show delivered w.nextPtr
      (triggeredAll act as (triggered act a (ExampleEventProvider.onceExample k w).1)).log = _
    rw [ht1, delivered_append, hlog1]
    rw [delivered_of_not_mem w.nextPtr tail, List.append_nil]
    intro e he hEq
    exact hnot1 (hEq ▸ ht2 e he)

/-- C3 at a store with one persistent handler: the one-shot handler is invoked
once over three triggers. -/
theorem C3_once_invoked_exactly_once_witness :
    (ExampleEventProvider.onExample 5 (World.init [] : World Nat Nat (List Nat))).1.handlers.length < 2 ∧
    ∃ w1, ExampleEventProvider.triggerExample
            (pureInterp (fun (k : Nat) (_ : Nat) (u : List Nat) => u ++ [k])) 2 7
            (ExampleEventProvider.onceExample 6
              (ExampleEventProvider.onExample 5 (World.init [])).1).1 = .ok w1 ∧
      delivered 1 w1.log = [7] :=
  ⟨by decide,
   by
    obtain ⟨_, w1, h1, h2, _⟩ := C3_once_invoked_exactly_once
      (fun (k : Nat) (_ : Nat) (u : List Nat) => u ++ [k])
      (ExampleEventProvider.onExample 5 (World.init [] : World Nat Nat (List Nat))).1 6 7 [8, 9] 2
      (wellFormed_onExample 5 _ (wellFormed_init [])) (by decide)
    exact ⟨w1, h1, h2⟩⟩

/-! ## C4 -/

/-- C4: on every well-formed store, whatever the positions of the persistent
and the one-shot nodes, one `triggerExample(a)` (handlers not touching the
store) returns, invokes the nodes in list order, every node exactly once
(the pass is logged as the list itself, and every node receives `a` once), and
afterwards the store holds exactly the persistent nodes in their original
relative order. -/
theorem C4_mixed_trigger (act : κ → α → σ → σ) (w : World κ α σ) (a : α) (fuel : Nat)
    (hwf : w.WellFormed) (hfuel : w.handlers.length ≤ fuel) :
    ∃ w1, ExampleEventProvider.triggerExample (pureInterp act) fuel a w = .ok w1 ∧
      w1.log = w.log ++ w.handlers.map (fun n => (n.ptr, a)) ∧
      (∀ n ∈ w.handlers, delivered n.ptr w1.log = delivered n.ptr w.log ++ [a]) ∧
      w1.handlers = w.handlers.filter (fun n => !n.handler.isOnce) ∧
      w1.user = w.handlers.foldl (fun u n => act n.handler.fn a u) w.user := by
  refine ⟨_, triggerExample_pure act fuel a w hwf hfuel, rfl, ?_, handlers_triggered act a w, rfl⟩
  intro n hn
  simp only [triggered]
  rw [delivered_append, delivered_invocations_of_mem a w.handlers n hwf.nodup hn]

/-- C4 at the list once, persistent, once, persistent. -/
theorem C4_mixed_trigger_witness :
    ∃ w1, ExampleEventProvider.triggerExample
            (pureInterp (fun (k : Nat) (_ : Nat) (u : List Nat) => u ++ [k])) 4 7
            (registerAll [(false, 10), (true, 20), (false, 30), (true, 40)] (World.init [])).1 = .ok w1 ∧
      w1.log = [(3, 7), (2, 7), (1, 7), (0, 7)] ∧
      w1.handlers = [{ ptr := 2, handler := .user 30 }, { ptr := 0, handler := .user 10 }] ∧
      w1.user = [40, 30, 20, 10] := by
  obtain ⟨w1, h1, h2, _, h4, h5⟩ := C4_mixed_trigger
    (fun (k : Nat) (_ : Nat) (u : List Nat) => u ++ [k])
    (registerAll [(false, 10), (true, 20), (false, 30), (true, 40)] (World.init [])).1 7 4
    (registerAll_spec _ _ (wellFormed_init [])).1 (by decide)
  exact ⟨w1, h1, h2, h4, h5⟩

/-! ## C5, C6 : removeExampleHandler -/

theorem removeLoop_split (l1 l2 : List (Node κ)) (n : Node κ)
    (h : ∀ m ∈ l1, m.ptr ≠ n.ptr) :
    ExampleEventProvider.removeLoop (some n.ptr) (l1 ++ n :: l2) = some (l1 ++ l2) := by
  induction l1 with
  | nil => simp [ExampleEventProvider.removeLoop]
  | cons m l1 ih =>
    have hm : m.ptr ≠ n.ptr := h m (List.mem_cons_self _ _)
    have := ih (fun x hx => h x (List.mem_cons_of_mem _ hx))
    simp [ExampleEventProvider.removeLoop, hm, this]

theorem removeLoop_none (hp : HandlerPtr) (l : List (Node κ))
    (h : ∀ m ∈ l, some m.ptr ≠ hp) : ExampleEventProvider.removeLoop hp l = none := by
  induction l with
  | nil => rfl
  | cons m l ih =>
    have hm : some m.ptr ≠ hp := h m (List.mem_cons_self _ _)
    have := ih (fun x hx => h x (List.mem_cons_of_mem _ hx))
    simp [ExampleEventProvider.removeLoop, hm, this]

theorem removeExampleHandler_absent (hp : HandlerPtr) (w : World κ α σ)
    (h : ∀ m ∈ w.handlers, some m.ptr ≠ hp) :
    ExampleEventProvider.removeExampleHandler hp w = (w, none) := by
  unfold ExampleEventProvider.removeExampleHandler
  cases heh : w.eventHandlers with
  | none => rfl
  | some s =>
    have : ExampleEventProvider.removeLoop hp s.list = none := by
      apply removeLoop_none
      simpa [World.handlers, heh] using h
    simp [this]

theorem removeExampleHandler_present (w : World κ α σ) (l1 l2 : List (Node κ)) (n : Node κ)
    (hwf : w.WellFormed) (hsplit : w.handlers = l1 ++ n :: l2) :
    ExampleEventProvider.removeExampleHandler (some n.ptr) w
      = ({ w with eventHandlers := some { list := l1 ++ l2, eraseLast := false } }, some n.ptr) := by
  have hnd := hwf.nodup
  rw [hsplit] at hnd
  have hl1 : ∀ m ∈ l1, m.ptr ≠ n.ptr := by
    intro m hm hEq
    simp only [List.map_append, List.map_cons] at hnd
    have h1 := (List.nodup_cons.mp (List.nodup_middle.mp hnd)).1
    apply h1
    rw [← hEq]
    exact List.mem_append_left _ (List.mem_map_of_mem Node.ptr hm)
  have hflag := hwf.flag
  unfold ExampleEventProvider.removeExampleHandler
  cases heh : w.eventHandlers with
  | none => simp [World.handlers, heh] at hsplit
  | some s =>
    obtain ⟨l, e⟩ := s
    simp only [World.handlers, heh] at hsplit
    simp only [World.eraseLast, heh] at hflag
    subst hsplit hflag
    simp [removeLoop_split l1 l2 n hl1]

theorem not_mem_of_split (l1 l2 : List (Node κ)) (n : Node κ)
    (hnd : ((l1 ++ n :: l2).map Node.ptr).Nodup) : n.ptr ∉ (l1 ++ l2).map Node.ptr := by
  simp only [List.map_append, List.map_cons] at hnd ⊢
  exact (List.nodup_cons.mp (List.nodup_middle.mp hnd)).1

theorem wellFormed_removed (w : World κ α σ) (l1 l2 : List (Node κ)) (n : Node κ)
    (hwf : w.WellFormed) (hsplit : w.handlers = l1 ++ n :: l2) :
    ({ w with eventHandlers := some { list := l1 ++ l2, eraseLast := false } } :
      World κ α σ).WellFormed := by
  have hnd := hwf.nodup
  rw [hsplit] at hnd
  refine ⟨rfl, ?_, ?_⟩
  · simp only [World.handlers, List.map_append, List.map_cons] at hnd ⊢
    exact (List.nodup_cons.mp (List.nodup_middle.mp hnd)).2
  · intro m hm
    have : m ∈ w.handlers := by
      rw [hsplit]
      simp only [World.handlers, List.mem_append] at hm
      rcases hm with hm | hm
      · exact List.mem_append_left _ hm
      · exact List.mem_append_right _ (List.mem_cons_of_mem _ hm)
    exact hwf.fresh m this

/-- C5: on every well-formed store whose handler list is `l1 ++ n :: l2`,
`removeExampleHandler` called with the handle of `n` returns that same handle
and changes nothing but the handler list, which becomes `l1 ++ l2` (the one
node deleted, all others kept in order); any later run of `triggerExample`
calls (handlers not touching the store) returns without invoking the removed
handler. -/
theorem C5_remove_registered (act : κ → α → σ → σ) (w : World κ α σ)
    (l1 l2 : List (Node κ)) (n : Node κ) (as : List α) (fuel : Nat)
    (hwf : w.WellFormed) (hsplit : w.handlers = l1 ++ n :: l2)
    (hfuel : w.handlers.length ≤ fuel) :
    ExampleEventProvider.removeExampleHandler (some n.ptr) w
      = ({ w with eventHandlers := some { list := l1 ++ l2, eraseLast := false } }, some n.ptr) ∧
    (ExampleEventProvider.removeExampleHandler (some n.ptr) w).1.handlers = l1 ++ l2 ∧
    ∃ wk, triggerAll (pureInterp act) fuel as
            (ExampleEventProvider.removeExampleHandler (some n.ptr) w).1 = .ok wk ∧
      delivered n.ptr wk.log = delivered n.ptr w.log := by
  have hrm := removeExampleHandler_present w l1 l2 n hwf hsplit
  have hwf1 := wellFormed_removed w l1 l2 n hwf hsplit
  have hnd := hwf.nodup
  rw [hsplit] at hnd
  have hnot := not_mem_of_split l1 l2 n hnd
  rw [hrm]
  refine ⟨rfl, rfl, _, triggerAll_pure act fuel as _ hwf1 ?_, ?_⟩
  · rw [hsplit] at hfuel
    simp only [World.handlers, List.length_append, List.length_cons] at hfuel ⊢
    omega
  · obtain ⟨tail, ht1, ht2⟩ := log_triggeredAll act as
      ({ w with eventHandlers := some { list := l1 ++ l2, eraseLast := false } } : World κ α σ)
    rw [ht1, delivered_append, delivered_of_not_mem n.ptr tail, List.append_nil]
    intro e he hEq
    exact hnot (hEq ▸ ht2 e he)

/-- C5 at a store with three handlers: removing the middle one. -/
theorem C5_remove_registered_witness :
    (ExampleEventProvider.removeExampleHandler (some 1)
        (registerAll [(false, 10), (true, 20), (false, 30)]
          (World.init [] : World Nat Nat (List Nat))).1).2 = some 1 ∧
    (ExampleEventProvider.removeExampleHandler (some 1)
        (registerAll [(false, 10), (true, 20), (false, 30)]
          (World.init [] : World Nat Nat (List Nat))).1).1.handlers
      = [{ ptr := 2, handler := .user 30 }, { ptr := 0, handler := .user 10 }] := by
  obtain ⟨h1, h2, _⟩ := C5_remove_registered
    (fun (k : Nat) (_ : Nat) (u : List Nat) => u ++ [k])
    (registerAll [(false, 10), (true, 20), (false, 30)] (World.init [])).1
    [{ ptr := 2, handler := .user 30 }] [{ ptr := 0, handler := .user 10 }]
    { ptr := 1, handler := .lambdaCallbackWrapper 20 } [7, 8] 3
    (registerAll_spec _ _ (wellFormed_init [])).1 rfl (by decide)
  exact ⟨congrArg Prod.snd h1, h2⟩

/-- C6: on every store, `removeExampleHandler` called with a handle that no
registered node has (the empty handle, a handle never registered here, one
already removed, or any handle when the store never had a handler) returns the
empty handle and leaves the whole state unchanged; hence on a well-formed store
removing a registered handle twice returns the handle the first time and the
empty handle, with no further change, the second time. -/
theorem C6_remove_unregistered :
    (∀ (w : World κ α σ) (hp : HandlerPtr), (∀ m ∈ w.handlers, some m.ptr ≠ hp) →
      ExampleEventProvider.removeExampleHandler hp w = (w, none)) ∧
    (∀ (w : World κ α σ) (hp : HandlerPtr), w.eventHandlers = none →
      ExampleEventProvider.removeExampleHandler hp w = (w, none)) ∧
    (∀ (w : World κ α σ) (n : Node κ), w.WellFormed → n ∈ w.handlers →
      (ExampleEventProvider.removeExampleHandler (some n.ptr) w).2 = some n.ptr ∧
      ExampleEventProvider.removeExampleHandler (some n.ptr)
          (ExampleEventProvider.removeExampleHandler (some n.ptr) w).1
        = ((ExampleEventProvider.removeExampleHandler (some n.ptr) w).1, none)) := by
  refine ⟨fun w hp h => removeExampleHandler_absent hp w h, ?_, ?_⟩
  · intro w hp h
    simp [ExampleEventProvider.removeExampleHandler, h]
  · intro w n hwf hn
    obtain ⟨l1, l2, hsplit⟩ := List.append_of_mem hn
    have hrm := removeExampleHandler_present w l1 l2 n hwf hsplit
    have hnd := hwf.nodup
    rw [hsplit] at hnd
    have hnot := not_mem_of_split l1 l2 n hnd
    rw [hrm]
    refine ⟨rfl, ?_⟩
    apply removeExampleHandler_absent
    intro m hm hEq
    apply hnot
    have hp : m.ptr = n.ptr := Option.some.inj hEq
    rw [← hp]
    exact List.mem_map_of_mem Node.ptr hm

/-- C6 at concrete stores: an unknown handle, the empty handle, a store without
container, and a double removal. -/
theorem C6_remove_unregistered_witness :
    (ExampleEventProvider.removeExampleHandler (some 9)
        (registerAll [(false, 10), (true, 20)] (World.init () : World Nat Nat Unit)).1).2 = none ∧
    (ExampleEventProvider.removeExampleHandler none
        (registerAll [(false, 10), (true, 20)] (World.init () : World Nat Nat Unit)).1).2 = none ∧
    (ExampleEventProvider.removeExampleHandler (some 0)
        (World.init () : World Nat Nat Unit)).2 = none ∧
    (ExampleEventProvider.removeExampleHandler (some 0)
        (registerAll [(false, 10), (true, 20)] (World.init () : World Nat Nat Unit)).1).2 = some 0 ∧
    (ExampleEventProvider.removeExampleHandler (some 0)
        (ExampleEventProvider.removeExampleHandler (some 0)
          (registerAll [(false, 10), (true, 20)] (World.init () : World Nat Nat Unit)).1).1).2
      = none := by
  have hwf := (registerAll_spec [(false, 10), (true, 20)] (World.init () : World Nat Nat Unit)
    (wellFormed_init ())).1
  refine ⟨?_, ?_, ?_, ?_, ?_⟩
  · exact congrArg Prod.snd (C6_remove_unregistered.1 _ (some 9) (by decide))
  · exact congrArg Prod.snd (C6_remove_unregistered.1 _ none (by decide))
  · exact congrArg Prod.snd (C6_remove_unregistered.2.1 _ (some 0) rfl)
  · exact (C6_remove_unregistered.2.2 _ { ptr := 0, handler := .user 10 } hwf (by decide)).1
  · exact congrArg Prod.snd
      (C6_remove_unregistered.2.2 _ { ptr := 0, handler := .user 10 } hwf (by decide)).2

/-! ## DeferredBase and the deferred provider -/

theorem wellFormed_congr {w w1 : World κ α σ} (hwf : w.WellFormed)
    (h1 : w1.eventHandlers = w.eventHandlers) (h2 : w1.nextPtr = w.nextPtr) :
    w1.WellFormed := by
  obtain ⟨hf, hn, hfr⟩ := hwf
  refine ⟨?_, ?_, ?_⟩
  · simpa [World.eraseLast, h1] using hf
  · simpa [World.handlers, h1] using hn
  · simpa [World.handlers, h1, h2] using hfr

theorem runDeferredPush_free (f : BoundArgs α σ) (w : World κ α σ) (h : w.mutex = false) :
    DeferredBase.runDeferredPush f w = .ok { w with deferredQueue := some (w.queue ++ [f]) } := by
  obtain ⟨eh, dq, m, np, u, lg⟩ := w
  simp only at h
  subst h
  cases dq <;>
    simp [DeferredBase.runDeferredPush, DeferredBase.lock, DeferredBase.assureContainer,
      DeferredBase.unlock, World.queue]

theorem clearDeferred_free (w : World κ α σ) (h : w.mutex = false) :
    DeferredBase.clearDeferred w = .ok { w with deferredQueue := some [] } := by
  obtain ⟨eh, dq, m, np, u, lg⟩ := w
  simp only at h
  subst h
  cases dq <;>
    simp [DeferredBase.clearDeferred, DeferredBase.lock, DeferredBase.assureContainer,
      DeferredBase.unlock]

theorem runDeferred_empty (interp : Interp κ α σ) (fuel : Nat) (w : World κ α σ)
    (h : w.mutex = false) (hq : w.queue = []) :
    DeferredBase.runDeferred interp fuel w = .ok ({ w with deferredQueue := some [] }, false) := by
  obtain ⟨eh, dq, m, np, u, lg⟩ := w
  simp only at h
  subst h
  cases dq with
  | none =>
    simp [DeferredBase.runDeferred, DeferredBase.lock, DeferredBase.assureContainer,
      DeferredBase.unlock, World.queue]
  | some q =>
    simp only [World.queue] at hq
    subst hq
    simp [DeferredBase.runDeferred, DeferredBase.lock, DeferredBase.assureContainer,
      DeferredBase.unlock, World.queue]

theorem runDeferred_cons (act : κ → α → σ → σ) (fuel : Nat) (w : World κ α σ)
    (f : BoundArgs α σ) (q : List (BoundArgs α σ))
    (hwf : w.WellFormed) (h : w.mutex = false) (hq : w.deferredQueue = some (f :: q))
    (hfuel : w.handlers.length ≤ fuel) :
    DeferredBase.runDeferred (pureInterp act) fuel w
      = .ok ({ triggeredBy act (DeferredBase.boundValue f) w with deferredQueue := some q },
             decide (q.length ≠ 0)) := by
  obtain ⟨eh, dq, m, np, u, lg⟩ := w
  simp only at h hq
  subst h hq
  have hwf2 : World.WellFormed
      ({ eventHandlers := eh, deferredQueue := some (f :: q), mutex := true, nextPtr := np,
         user := u, log := lg } : World κ α σ) :=
    wellFormed_congr hwf rfl rfl
  have ht := triggerExampleRef_pure act fuel (DeferredBase.boundValue f) _ hwf2 hfuel
  simp only [DeferredBase.runDeferred, DeferredBase.lock, DeferredBase.assureContainer,
    DeferredBase.unlock, World.queue, DeferredBase.callDeferred, Bool.false_eq_true, if_false, ht]
  simp [triggeredBy, World.handlers]

theorem boundValue_value (v : α) :
    DeferredBase.boundValue (BoundArgs.value v : BoundArgs α σ) = fun _ => v := rfl

theorem runDeferred_cons_value (act : κ → α → σ → σ) (fuel : Nat) (w : World κ α σ)
    (v : α) (q : List (BoundArgs α σ))
    (hwf : w.WellFormed) (h : w.mutex = false) (hq : w.deferredQueue = some (.value v :: q))
    (hfuel : w.handlers.length ≤ fuel) :
    DeferredBase.runDeferred (pureInterp act) fuel w
      = .ok ({ triggered act v w with deferredQueue := some q }, decide (q.length ≠ 0)) := by
  rw [runDeferred_cons act fuel w (.value v) q hwf h hq hfuel, boundValue_value,
    triggeredBy_const]

theorem triggered_withQueue (act : κ → α → σ → σ) (a : α) (w : World κ α σ)
    (d : Option (List (BoundArgs α σ))) :
    triggered act a { w with deferredQueue := d }
      = { triggered act a w with deferredQueue := d } := rfl

theorem triggeredAll_withQueue (act : κ → α → σ → σ) (as : List α) :
    ∀ (w : World κ α σ) (d : Option (List (BoundArgs α σ))),
      triggeredAll act as { w with deferredQueue := d }
        = { triggeredAll act as w with deferredQueue := d } := by
  induction as with
  | nil => intro w d; rfl
  | cons a as ih =>
    intro w d
    show triggeredAll act as (triggered act a { w with deferredQueue := d }) = _
    rw [triggered_withQueue, ih]
    rfl

theorem runAllDeferred_values (act : κ → α → σ → σ) (fuel : Nat) (as : List α) :
    ∀ (w : World κ α σ) (rounds : Nat), w.WellFormed → w.mutex = false →
      w.queue = as.map BoundArgs.value → as.length < rounds → w.handlers.length ≤ fuel →
      DeferredBase.runAllDeferred (pureInterp act) fuel rounds w
        = .ok { triggeredAll act as w with deferredQueue := some [] } := by
  induction as with
  | nil =>
    intro w rounds _ hm hq hr _
    cases rounds with
    | zero => simp at hr
    | succ rounds =>
      have hstep := runDeferred_empty (pureInterp act) fuel w hm (by simpa using hq)
      simp only [DeferredBase.runAllDeferred, hstep, triggeredAll]
  | cons a as ih =>
    intro w rounds hwf hm hq hr hfuel
    cases rounds with
    | zero => simp at hr
    | succ rounds =>
      have hdq : w.deferredQueue = some (BoundArgs.value a :: as.map BoundArgs.value) := by
        cases hd : w.deferredQueue with
        | none => simp [World.queue, hd] at hq
        | some q => simpa [World.queue, hd] using hq
      have hstep := runDeferred_cons_value act fuel w a (as.map BoundArgs.value)
        hwf hm hdq hfuel
      simp only [DeferredBase.runAllDeferred, hstep]
      cases as with
      | nil => simp [triggeredAll]
      | cons b as =>
        have hwf1 : ({ triggered act a w with
            deferredQueue := some ((b :: as).map BoundArgs.value) } : World κ α σ).WellFormed :=
          wellFormed_congr (wellFormed_triggered act a w hwf) rfl rfl
        have hi := ih { triggered act a w with
            deferredQueue := some ((b :: as).map BoundArgs.value) } rounds hwf1 hm rfl
          (by simpa using hr) (le_trans (length_handlers_triggered act a w) hfuel)
        simp only [List.map_cons, List.length_cons, ne_eq, Nat.add_one_ne_zero, not_false_eq_true,
          decide_True] at hi ⊢
        rw [hi, triggeredAll_withQueue]
        rfl

theorem deferAll_free (as : List α) :
    ∀ w : World κ α σ, w.mutex = false →
      ∃ d, deferAll as w = .ok { w with deferredQueue := d } ∧
        ({ w with deferredQueue := d } : World κ α σ).queue = w.queue ++ as.map BoundArgs.value := by
  induction as with
  | nil => intro w _; exact ⟨w.deferredQueue, rfl, by simp⟩
  | cons a as ih =>
    intro w hm
    obtain ⟨d, h1, h2⟩ := ih { w with deferredQueue := some (w.queue ++ [BoundArgs.value a]) } hm
    refine ⟨d, ?_, ?_⟩
    · simp only [deferAll, ExampleDeferredEventProvider.triggerExample,
        runDeferredPush_free _ w hm]
      exact h1
    · simpa [World.queue] using h2

/-- C7: in every state of a deferred provider in which the queue mutex is free,
the deferred `triggerExample(fargs)` returns and changes nothing but the
deferred queue, to which exactly the one new closure is appended at the back:
the handler list, the environment and the invocation log are as before (no
handler is invoked), the earlier queue entries are unchanged and in the same
order. -/
theorem C7_deferred_trigger_enqueues (w : World κ α σ) (fargs : BoundArgs α σ)
    (hm : w.mutex = false) :
    ExampleDeferredEventProvider.triggerExample fargs w
      = .ok { w with deferredQueue := some (w.queue ++ [fargs]) } ∧
    ∃ w1, ExampleDeferredEventProvider.triggerExample fargs w = .ok w1 ∧
      w1.queue = w.queue ++ [fargs] ∧ w1.log = w.log ∧ w1.user = w.user ∧
      w1.eventHandlers = w.eventHandlers :=
  ⟨runDeferredPush_free fargs w hm, _, runDeferredPush_free fargs w hm, rfl, rfl, rfl, rfl⟩

/-- C7 at a provider with one handler and one queued closure. -/
theorem C7_deferred_trigger_enqueues_witness :
    ∃ w1, ExampleDeferredEventProvider.triggerExample (.value 8)
        ({ (ExampleEventProvider.onExample 10 (World.init [])).1 with
            deferredQueue := some [.value 7] } : World Nat Nat (List Nat)) = .ok w1 ∧
      w1.queue.map (fun b => DeferredBase.boundValue b []) = [7, 8] ∧ w1.log = [] := by
  obtain ⟨_, w1, h1, h2, h3, _⟩ := C7_deferred_trigger_enqueues
    ({ (ExampleEventProvider.onExample 10 (World.init [])).1 with
        deferredQueue := some [.value 7] } : World Nat Nat (List Nat)) (.value 8) rfl
  exact ⟨w1, h1, by rw [h2]; rfl, h3⟩

/-! ## C8 -/

/-- C8: with the queue mutex free and handlers that do not touch the provider,
`runDeferred()` on a queue `f :: q` returns; the state it leaves is the one the
call of the front closure `f` alone leads to, with the queue reduced to `q`:
exactly the front entry is removed; the result is true if and only if `q` is
not empty.  The call of the closure invokes every handler once, in list order,
each with the value the bound arguments have when that handler is called; when
no handler changes what the bound arguments read (always so for arguments
bound by value) that is the value they have at the start of the drain.  On an
empty queue (allocated or not) `runDeferred()` returns false, invokes nothing
and leaves an empty queue, whatever the handlers are. -/
theorem C8_runDeferred_front :
    (∀ (act : κ → α → σ → σ) (fuel : Nat) (w : World κ α σ) (f : BoundArgs α σ)
        (q : List (BoundArgs α σ)),
        w.WellFormed → w.mutex = false → w.deferredQueue = some (f :: q) →
        w.handlers.length ≤ fuel →
        ∃ w3 ret, DeferredBase.callDeferred (pureInterp act) fuel f w = .ok w3 ∧
          DeferredBase.runDeferred (pureInterp act) fuel w
            = .ok ({ w3 with deferredQueue := some q }, ret) ∧
          (ret = true ↔ q ≠ []) ∧
          w3.log = w.log ++ invocationsBy act (DeferredBase.boundValue f) w.handlers w.user ∧
          w3.log.map Prod.fst = w.log.map Prod.fst ++ w.handlers.map Node.ptr ∧
          ((∀ k a u, DeferredBase.boundValue f (act k a u) = DeferredBase.boundValue f u) →
            w3.log = w.log ++
              w.handlers.map (fun n => (n.ptr, DeferredBase.boundValue f w.user)))) ∧
    (∀ (interp : Interp κ α σ) (fuel : Nat) (w : World κ α σ),
        w.mutex = false → w.queue = [] →
        DeferredBase.runDeferred interp fuel w = .ok ({ w with deferredQueue := some [] }, false)) := by
  refine ⟨?_, fun interp fuel w hm hq => runDeferred_empty interp fuel w hm hq⟩
  intro act fuel w f q hwf hm hq hfuel
  refine ⟨_, _, triggerExampleRef_pure act fuel _ w hwf hfuel,
    runDeferred_cons act fuel w f q hwf hm hq hfuel, ?_, rfl, ?_, ?_⟩
  · cases q <;> simp
  · show (w.log ++ invocationsBy act (DeferredBase.boundValue f) w.handlers w.user).map Prod.fst = _
    rw [List.map_append, invocationsBy_fst]
  · intro hstable
    show w.log ++ invocationsBy act (DeferredBase.boundValue f) w.handlers w.user = _
    rw [invocationsBy_stable act _ hstable]

/-- C8 at a queue of two closures and at an empty queue. -/
theorem C8_runDeferred_front_witness :
    (∃ w1, DeferredBase.runDeferred (pureInterp (fun (k : Nat) (a : Nat) (u : List Nat) => u ++ [k + a])) 1
        ({ (ExampleEventProvider.onExample 10 (World.init [])).1 with
            deferredQueue := some [.value 7, .value 8] } : World Nat Nat (List Nat)) = .ok (w1, true) ∧
      w1.log = [(0, 7)] ∧ w1.user = [17] ∧
      w1.queue.map (fun b => DeferredBase.boundValue b []) = [8]) ∧
    DeferredBase.runDeferred (pureInterp (fun (k : Nat) (a : Nat) (u : List Nat) => u ++ [k + a])) 1
        (World.init [] : World Nat Nat (List Nat))
      = .ok ({ (World.init [] : World Nat Nat (List Nat)) with deferredQueue := some [] }, false) := by
  refine ⟨?_, C8_runDeferred_front.2 _ 1 (World.init []) rfl rfl⟩
  obtain ⟨w3, ret, h1, h2, h3, _⟩ := C8_runDeferred_front.1
    (fun (k : Nat) (a : Nat) (u : List Nat) => u ++ [k + a]) 1
    ({ (ExampleEventProvider.onExample 10 (World.init [])).1 with
        deferredQueue := some [.value 7, .value 8] } : World Nat Nat (List Nat))
    (.value 7) [.value 8]
    (wellFormed_congr (wellFormed_onExample 10 _ (wellFormed_init [])) rfl rfl) rfl rfl
    (by decide)
  have hret : ret = true := h3.mpr (by simp)
  subst hret
  have hw3 : w3 = triggered (fun (k : Nat) (a : Nat) (u : List Nat) => u ++ [k + a]) 7
      ({ (ExampleEventProvider.onExample 10 (World.init [])).1 with
        deferredQueue := some [.value 7, .value 8] } : World Nat Nat (List Nat)) := by
    have h5 : DeferredBase.callDeferred
        (pureInterp (fun (k : Nat) (a : Nat) (u : List Nat) => u ++ [k + a])) 1 (.value 7)
        ({ (ExampleEventProvider.onExample 10 (World.init [])).1 with
          deferredQueue := some [.value 7, .value 8] } : World Nat Nat (List Nat)) = .ok _ := rfl
    rw [h5] at h1
    injection h1 with h1
    exact h1.symm
  subst hw3
  exact ⟨_, h2, rfl, rfl, rfl⟩

/-! ## C9 -/

theorem delivered_triggeredAll_persistent (act : κ → α → σ → σ) (n : Node κ) (as : List α) :
    ∀ w : World κ α σ, w.WellFormed → n ∈ w.handlers → n.handler.isOnce = false →
      delivered n.ptr (triggeredAll act as w).log = delivered n.ptr w.log ++ as := by
  induction as with
  | nil => intro w _ _ _; simp [triggeredAll]
  | cons a as ih =>
    intro w hwf hn hp
    have hn1 : n ∈ (triggered act a w).handlers := by
      rw [handlers_triggered]
      simp [persistent, hn, hp]
    rw [triggeredAll, ih _ (wellFormed_triggered act a w hwf) hn1 hp]
    simp only [triggered]
    rw [delivered_append, delivered_invocations_of_mem a w.handlers n hwf.nodup hn]
    simp

/-- C9: on a well-formed provider with free mutex and empty queue, and with
handlers that do not touch the provider (so none enqueues further events), a
run of k deferred `triggerExample` calls with the argument values a1..ak
delivers nothing yet and queues k closures; `runAllDeferred()` then returns,
leaves the queue empty, and has delivered exactly as k immediate
`triggerExample` calls with a1, ..., ak in that order would have: same log, same
environment, same handler list.  Every persistent handler receives exactly
a1, ..., ak, in that order, each once. -/
theorem C9_runAllDeferred_fifo (act : κ → α → σ → σ) (w : World κ α σ) (as : List α)
    (fuel rounds : Nat) (hwf : w.WellFormed) (hm : w.mutex = false) (hq : w.queue = [])
    (hfuel : w.handlers.length ≤ fuel) (hrounds : as.length < rounds) :
    ∃ wq w1 wk, deferAll as w = .ok wq ∧ wq.log = w.log ∧ wq.queue = as.map BoundArgs.value ∧
      DeferredBase.runAllDeferred (pureInterp act) fuel rounds wq = .ok w1 ∧
      w1.queue = [] ∧
      triggerAll (pureInterp act) fuel as w = .ok wk ∧
      w1.log = wk.log ∧ w1.user = wk.user ∧ w1.handlers = wk.handlers ∧
      ∀ n ∈ w.handlers, n.handler.isOnce = false →
        delivered n.ptr w1.log = delivered n.ptr w.log ++ as := by
  obtain ⟨d, hd1, hd2⟩ := deferAll_free as w hm
  rw [hq, List.nil_append] at hd2
  have hwfq : World.WellFormed ({ w with deferredQueue := d } : World κ α σ) :=
    wellFormed_congr hwf rfl rfl
  have hrun := runAllDeferred_values act fuel as { w with deferredQueue := d } rounds hwfq hm hd2
    hrounds hfuel
  rw [triggeredAll_withQueue] at hrun
  refine ⟨_, _, _, hd1, rfl, hd2, hrun, rfl, triggerAll_pure act fuel as w hwf hfuel, rfl, rfl,
    rfl, ?_⟩
  intro n hn hp
  exact delivered_triggeredAll_persistent act n as w hwf hn hp

/-- C9 at three deferred triggers on a provider with a persistent and a
one-shot handler. -/
theorem C9_runAllDeferred_fifo_witness :
    ∃ wq w1, deferAll [7, 8, 9] (registerAll [(false, 10), (true, 20)]
        (World.init [] : World Nat Nat (List Nat))).1 = .ok wq ∧
      DeferredBase.runAllDeferred (pureInterp (fun (k : Nat) (a : Nat) (u : List Nat) => u ++ [k + a]))
        2 4 wq = .ok w1 ∧
      w1.queue = [] ∧ delivered 0 w1.log = [7, 8, 9] := by
  obtain ⟨wq, w1, _, h1, _, _, h4, h5, _, _, _, _, h10⟩ := C9_runAllDeferred_fifo
    (fun (k : Nat) (a : Nat) (u : List Nat) => u ++ [k + a])
    (registerAll [(false, 10), (true, 20)] (World.init [] : World Nat Nat (List Nat))).1
    [7, 8, 9] 2 4 (registerAll_spec _ _ (wellFormed_init [])).1 rfl rfl (by decide) (by decide)
  exact ⟨wq, w1, h1, h4, h5, h10 { ptr := 0, handler := .user 10 } (by decide) rfl⟩

/-! ## C10 -/

/-- C10: with the queue mutex free, `clearDeferred()` returns and changes
nothing but the deferred queue, which it leaves empty: no queued closure is
called (log and environment are as before).  A following `runDeferred()` returns
false and a following `runAllDeferred()` returns, both without any change of
state, so no handler is invoked, whatever the handlers are. -/
theorem C10_clearDeferred (interp : Interp κ α σ) (fuel rounds : Nat) (w : World κ α σ)
    (hm : w.mutex = false) :
    ∃ w1, DeferredBase.clearDeferred w = .ok w1 ∧
      w1 = { w with deferredQueue := some [] } ∧
      w1.queue = [] ∧ w1.log = w.log ∧ w1.user = w.user ∧
      DeferredBase.runDeferred interp fuel w1 = .ok (w1, false) ∧
      DeferredBase.runAllDeferred interp fuel (rounds + 1) w1 = .ok w1 := by
  have hrun : DeferredBase.runDeferred interp fuel ({ w with deferredQueue := some [] } : World κ α σ)
      = .ok ({ w with deferredQueue := some [] }, false) :=
    runDeferred_empty interp fuel _ hm rfl
  refine ⟨_, clearDeferred_free w hm, rfl, rfl, rfl, rfl, hrun, ?_⟩
  simp only [DeferredBase.runAllDeferred, hrun]

/-- C10 at a queue of two closures. -/
theorem C10_clearDeferred_witness :
    ∃ w1, DeferredBase.clearDeferred
        ({ (ExampleEventProvider.onExample 10 (World.init [])).1 with
            deferredQueue := some [.value 7, .value 8] } : World Nat Nat (List Nat)) = .ok w1 ∧
      w1.queue = [] ∧ w1.log = [] ∧
      DeferredBase.runDeferred (pureInterp (fun (k : Nat) (a : Nat) (u : List Nat) => u ++ [k + a])) 1 w1
        = .ok (w1, false) := by
  obtain ⟨w1, h1, _, h3, h4, _, h6, _⟩ := C10_clearDeferred
    (pureInterp (fun (k : Nat) (a : Nat) (u : List Nat) => u ++ [k + a])) 1 0
    ({ (ExampleEventProvider.onExample 10 (World.init [])).1 with
        deferredQueue := some [.value 7, .value 8] } : World Nat Nat (List Nat)) rfl
  exact ⟨w1, h1, h3, h4, h6⟩

/-! ## C12 -/

/-- C12 fails on the code: a provider with one persistent handler whose body
calls the deferred `triggerExample(8)`, and one queued closure.  `runDeferred()`
holds `DeferredBase::mutex` while it calls the closure, the handler's
`triggerExample` locks the same mutex again, and the call does not complete:
for no iteration bound does `runDeferred()` return, and with any positive bound
the fault is the second lock. -/
theorem C12_reentrant_deferred_trigger_deadlocks :
    ∃ w, ExampleDeferredEventProvider.triggerExample (.value 7)
          (ExampleEventProvider.onExample (Script.deferTrigger 8) (World.init [])).1 = .ok w ∧
      w.mutex = false ∧
      (∀ fuel, DeferredBase.runDeferred Script.run (fuel + 1) w = .error .deadlock) ∧
      (∀ fuel r, DeferredBase.runDeferred Script.run fuel w ≠ .ok r) := by
  refine ⟨_, rfl, rfl, ?_, ?_⟩
  · intro fuel
    rfl
  · intro fuel r
    cases fuel with
    | zero => intro h; cases h
    | succ fuel => intro h; cases h

/-! ## C19 -/

theorem triggerLoop_front_once_registering (fuel : Nat) :
    ∀ (dq : Option (List (BoundArgs Nat (List Nat)))) (m : Bool) (np : Nat) (u : List Nat)
      (lg : List (Nat × Nat)),
      ExampleEventProvider.triggerLoop Script.run 7 fuel .beforeBegin (.node 1)
        { eventHandlers := some { list := [{ ptr := 1, handler := .lambdaCallbackWrapper (.onExample 5) },
                                           { ptr := 0, handler := .user (.note 10) }],
                                  eraseLast := false },
          deferredQueue := dq, mutex := m, nextPtr := np, user := u, log := lg }
        = .error .outOfFuel := by
  induction fuel with
  | zero => intro dq m np u lg; rfl
  | succ fuel ih =>
    intro dq m np u lg
    have h := ih dq m (np + 1) u (lg ++ [(1, 7)])
    simpa [ExampleEventProvider.triggerLoop, Iter.deref, ExampleEventProvider.call, Script.run,
      ExampleEventProvider.onExample, ExampleEventProvider.assureHandlers, eraseAfter,
      Iter.begin] using h

/-- C19 fails on the code when a handler registers during a trigger.
First store (front first): a persistent handler (handle 2) whose body calls
`onExample`, a one-shot handler (handle 1), a persistent handler (handle 0).
One `triggerExample(7)` invokes the one-shot handler twice and unlinks the
persistent handler 2 (the new node 3 and node 0 remain).
Second store: a one-shot handler (handle 1) whose body calls `onExample`, in
front of a persistent one.  `triggerExample(7)` does not terminate: it runs out
of every iteration bound. -/
theorem C19_registration_during_trigger_breaks_once :
    (∃ w, ExampleEventProvider.triggerExample Script.run 4 7
            (registerAll [(false, Script.note 10), (true, Script.note 20), (false, Script.onExample 5)]
              (World.init [])).1 = .ok w ∧
        w.log = [(2, 7), (1, 7), (1, 7), (0, 7)] ∧
        delivered 1 w.log = [7, 7] ∧
        w.user = [20, 20, 10] ∧
        w.handlers = [{ ptr := 3, handler := .user (.note 5) },
                      { ptr := 0, handler := .user (.note 10) }]) ∧
    (∀ fuel, ExampleEventProvider.triggerExample Script.run fuel 7
        (registerAll [(false, Script.note 10), (true, Script.onExample 5)] (World.init [])).1
          = .error .outOfFuel) := by
  refine ⟨⟨_, rfl, rfl, rfl, rfl, rfl⟩, ?_⟩
  intro fuel
  exact triggerLoop_front_once_registering fuel none false 2 [] []

/-! ## C11 -/

theorem deferred_then_drain (act : κ → α → σ → σ) (w : World κ α σ) (fargs : BoundArgs α σ)
    (u1 : σ) (fuel : Nat) (hwf : w.WellFormed) (hm : w.mutex = false) (hq : w.queue = [])
    (hfuel : w.handlers.length ≤ fuel) :
    ∃ w1 w2, ExampleDeferredEventProvider.triggerExample fargs w = .ok w1 ∧
      w1.log = w.log ∧
      DeferredBase.runDeferred (pureInterp act) fuel { w1 with user := u1 } = .ok (w2, false) ∧
      w2.log = w.log ++ invocationsBy act (DeferredBase.boundValue fargs) w.handlers u1 := by
  have h1 := runDeferredPush_free fargs w hm
  rw [hq, List.nil_append] at h1
  have hwf1 : World.WellFormed
      ({ w with deferredQueue := some [fargs], user := u1 } : World κ α σ) :=
    wellFormed_congr hwf rfl rfl
  have h2 := runDeferred_cons act fuel
    ({ w with deferredQueue := some [fargs], user := u1 } : World κ α σ) fargs [] hwf1 hm rfl hfuel
  exact ⟨_, _, h1, rfl, h2, rfl⟩

/-- C11, as stated, fails for an argument passed as a named variable.  The
environment is the caller's variable `x`, equal to 1 when `triggerExample(x)` is
called on a deferred provider with one handler; `forward_as_ref` binds the
variable through a `reference_wrapper`; the caller then sets `x` to 2 and
drains: the handler receives 2, not the value 1 the variable had at the
trigger call. -/
theorem C11_counterexample :
    ∃ w1 w2, ExampleDeferredEventProvider.triggerExample
          (forward_as_ref (CallArgs.lvalue (fun x => x)))
          (ExampleEventProvider.onExample 0 (World.init 1 : World Nat Nat Nat)).1 = .ok w1 ∧
      w1.user = 1 ∧
      DeferredBase.runDeferred (pureInterp (fun _ _ x => x)) 1 { w1 with user := 2 }
        = .ok (w2, false) ∧
      delivered 0 w2.log = [2] ∧ delivered 0 w2.log ≠ [1] :=
  ⟨_, _, rfl, rfl, rfl, rfl, by decide⟩

/-- C11 (amended): on a well-formed deferred provider with free mutex and empty
queue, with handlers that do not touch the provider, whatever the caller does
to the environment between the trigger and the drain (it is `u1` at the drain).
An argument passed as a temporary is captured by value: every handler receives
at the drain the value `v` given at the trigger call.  An argument passed as a
named variable is captured by reference: each handler receives the value the
variable has at the moment that handler is called, the first one `var u1`, a
later one the value left by the handlers that ran before it; when no handler
changes the variable, all of them receive `var u1`. -/
theorem C11_capture_by_value_or_reference (act : κ → α → σ → σ) (w : World κ α σ)
    (u1 : σ) (fuel : Nat) (hwf : w.WellFormed) (hm : w.mutex = false) (hq : w.queue = [])
    (hfuel : w.handlers.length ≤ fuel) :
    (∀ v : α, ∃ w1 w2,
      ExampleDeferredEventProvider.triggerExample (forward_as_ref (CallArgs.rvalue v)) w
        = .ok w1 ∧
      DeferredBase.runDeferred (pureInterp act) fuel { w1 with user := u1 } = .ok (w2, false) ∧
      w2.log = w.log ++ w.handlers.map (fun n => (n.ptr, v))) ∧
    (∀ var : σ → α, ∃ w1 w2,
      ExampleDeferredEventProvider.triggerExample (forward_as_ref (CallArgs.lvalue var)) w
        = .ok w1 ∧
      DeferredBase.runDeferred (pureInterp act) fuel { w1 with user := u1 } = .ok (w2, false) ∧
      w2.log = w.log ++ invocationsBy act var w.handlers u1 ∧
      (∀ (n : Node κ) (l : List (Node κ)), w.handlers = n :: l →
        w2.log = w.log ++ (n.ptr, var u1)
          :: invocationsBy act var l (act n.handler.fn (var u1) u1)) ∧
      ((∀ k a u, var (act k a u) = var u) →
        w2.log = w.log ++ w.handlers.map (fun n => (n.ptr, var u1)))) := by
  constructor
  · intro v
    obtain ⟨w1, w2, h1, _, h2, h3⟩ :=
      deferred_then_drain act w (forward_as_ref (CallArgs.rvalue v)) u1 fuel hwf hm hq hfuel
    refine ⟨w1, w2, h1, h2, ?_⟩
    rw [h3]
    show w.log ++ invocationsBy act (fun _ => v) w.handlers u1 = _
    rw [invocationsBy_const]
    rfl
  · intro var
    obtain ⟨w1, w2, h1, _, h2, h3⟩ :=
      deferred_then_drain act w (forward_as_ref (CallArgs.lvalue var)) u1 fuel hwf hm hq hfuel
    have h4 : w2.log = w.log ++ invocationsBy act var w.handlers u1 := h3
    refine ⟨w1, w2, h1, h2, h4, ?_, ?_⟩
    · intro n l hl
      rw [h4, hl]
      rfl
    · intro hstable
      rw [h4, invocationsBy_stable act var hstable]

/-- C11 (amended) at a provider with two handlers, each adding 100 to the caller's
variable, which is 1 at the drain: the temporary 1 arrives as 1 at both
handlers; the variable arrives as 1 at the first handler and as 101 at the
second. -/
theorem C11_capture_by_value_or_reference_witness :
    (∃ w1 w2, ExampleDeferredEventProvider.triggerExample (forward_as_ref (CallArgs.rvalue 1))
          (registerAll [(false, 10), (false, 20)] (World.init 0 : World Nat Nat Nat)).1 = .ok w1 ∧
      DeferredBase.runDeferred (pureInterp (fun _ _ x => x + 100)) 2 { w1 with user := 1 }
        = .ok (w2, false) ∧
      w2.log = [(1, 1), (0, 1)]) ∧
    (∃ w1 w2, ExampleDeferredEventProvider.triggerExample
          (forward_as_ref (CallArgs.lvalue (fun x => x)))
          (registerAll [(false, 10), (false, 20)] (World.init 0 : World Nat Nat Nat)).1 = .ok w1 ∧
      DeferredBase.runDeferred (pureInterp (fun _ _ x => x + 100)) 2 { w1 with user := 1 }
        = .ok (w2, false) ∧
      w2.log = [(1, 1), (0, 101)]) := by
  have h := C11_capture_by_value_or_reference (fun (_ : Nat) (_ : Nat) (x : Nat) => x + 100)
    (registerAll [(false, 10), (false, 20)] (World.init 0 : World Nat Nat Nat)).1 1 2
    (registerAll_spec _ _ (wellFormed_init 0)).1 rfl rfl (by decide)
  obtain ⟨w1, w2, h1, h2, h3⟩ := h.1 1
  obtain ⟨w3, w4, h4, h5, h6, _⟩ := h.2 (fun x => x)
  exact ⟨⟨w1, w2, h1, h2, h3⟩, ⟨w3, w4, h4, h5, h6⟩⟩

/-! ## C20 -/

/-- C20: with the queue mutex free and handlers that do not touch the provider,
draining a closure is the immediate `triggerExample` of the base class with the
bound arguments on the state found at the drain, followed by the removal of the
queue entry (for arguments bound to variables it is the immediate call on the
same variables; it is the call with their value at the drain when no handler
changes them, as always when they are bound by value).  So on a well-formed
provider `w` with empty queue, after a deferred `triggerExample(a)`: a handler
registered before `runDeferred()` (it gets the handle `w.nextPtr`) is invoked
with `a`, ahead of the older handlers; and a handler removed before
`runDeferred()` is not invoked, the others are. -/
theorem C20_drain_uses_current_handlers (act : κ → α → σ → σ) (w : World κ α σ) (a : α)
    (fuel : Nat) (hwf : w.WellFormed) (hm : w.mutex = false) (hq : w.queue = [])
    (hfuel : w.handlers.length < fuel) :
    (∀ (w2 : World κ α σ) (f : BoundArgs α σ) (q : List (BoundArgs α σ)),
      w2.WellFormed → w2.mutex = false → w2.deferredQueue = some (f :: q) →
      w2.handlers.length ≤ fuel →
      ∃ w3, ExampleEventProvider.triggerExampleRef (pureInterp act) fuel
              (DeferredBase.boundValue f) w2 = .ok w3 ∧
        ((∀ k a u, DeferredBase.boundValue f (act k a u) = DeferredBase.boundValue f u) →
          ExampleEventProvider.triggerExample (pureInterp act) fuel
              (DeferredBase.boundValue f w2.user) w2 = .ok w3) ∧
        DeferredBase.runDeferred (pureInterp act) fuel w2
          = .ok ({ w3 with deferredQueue := some q }, decide (q.length ≠ 0))) ∧
    (∃ w1, ExampleDeferredEventProvider.triggerExample (.value a) w = .ok w1 ∧
      (∀ h : κ, ∃ w3, DeferredBase.runDeferred (pureInterp act) fuel
            (ExampleEventProvider.onExample h w1).1 = .ok (w3, false) ∧
          w3.log = w.log ++ (w.nextPtr, a) :: w.handlers.map (fun n => (n.ptr, a))) ∧
      (∀ (l1 l2 : List (Node κ)) (n : Node κ), w.handlers = l1 ++ n :: l2 →
        ∃ w3, DeferredBase.runDeferred (pureInterp act) fuel
            (ExampleEventProvider.removeExampleHandler (some n.ptr) w1).1 = .ok (w3, false) ∧
          w3.log = w.log ++ (l1 ++ l2).map (fun m => (m.ptr, a)) ∧
          n.ptr ∉ (l1 ++ l2).map Node.ptr)) := by
  refine ⟨?_, ?_⟩
  · intro w2 f q hwf2 hm2 hq2 hfuel2
    refine ⟨_, triggerExampleRef_pure act fuel _ w2 hwf2 hfuel2, ?_,
      runDeferred_cons act fuel w2 f q hwf2 hm2 hq2 hfuel2⟩
    intro hstable
    rw [triggerExample_pure act fuel _ w2 hwf2 hfuel2]
    exact congrArg Except.ok (triggeredBy_stable act _ hstable w2).symm
  · have h1 := runDeferredPush_free (BoundArgs.value a) w hm
    rw [hq, List.nil_append] at h1
    have hwf1 : World.WellFormed
        ({ w with deferredQueue := some [BoundArgs.value a] } : World κ α σ) :=
      wellFormed_congr hwf rfl rfl
    refine ⟨_, h1, ?_, ?_⟩
    · intro h
      have hwf2 := wellFormed_onExample h _ hwf1
      have hh := handlers_onExample h
        ({ w with deferredQueue := some [BoundArgs.value a] } : World κ α σ)
      have hlen : (ExampleEventProvider.onExample h
          ({ w with deferredQueue := some [BoundArgs.value a] } : World κ α σ)).1.handlers.length
            ≤ fuel := by
        rw [hh]
        exact hfuel
      have h2 := runDeferred_cons_value act fuel _ a [] hwf2 hm rfl hlen
      refine ⟨_, h2, ?_⟩
      show _ ++ invocations a (ExampleEventProvider.onExample h
          ({ w with deferredQueue := some [BoundArgs.value a] } : World κ α σ)).1.handlers = _
      rw [hh]
      rfl
    · intro l1 l2 n hsplit
      have hsplit1 : ({ w with deferredQueue := some [BoundArgs.value a] } :
          World κ α σ).handlers = l1 ++ n :: l2 := hsplit
      have hrm := removeExampleHandler_present _ l1 l2 n hwf1 hsplit1
      have hwf2 := wellFormed_removed _ l1 l2 n hwf1 hsplit1
      have hnd := hwf.nodup
      rw [hsplit] at hnd
      have hlen : (l1 ++ l2).length ≤ fuel := by
        rw [hsplit] at hfuel
        simp only [List.length_append, List.length_cons] at hfuel ⊢
        omega
      have h2 := runDeferred_cons_value act fuel _ a [] hwf2 hm rfl hlen
      rw [hrm]
      exact ⟨_, h2, rfl, not_mem_of_split l1 l2 n hnd⟩

/-- C20 at a provider with two handlers: one more registered, or one removed,
between the deferred trigger and the drain. -/
theorem C20_drain_uses_current_handlers_witness :
    ∃ w1, ExampleDeferredEventProvider.triggerExample (.value 7)
        (registerAll [(false, 10), (false, 20)] (World.init [] : World Nat Nat (List Nat))).1
          = .ok w1 ∧
      (∃ w3, DeferredBase.runDeferred (pureInterp (fun (k : Nat) (a : Nat) (u : List Nat) => u ++ [k + a])) 3
            (ExampleEventProvider.onExample 30 w1).1 = .ok (w3, false) ∧
          w3.log = [(2, 7), (1, 7), (0, 7)]) ∧
      (∃ w3, DeferredBase.runDeferred (pureInterp (fun (k : Nat) (a : Nat) (u : List Nat) => u ++ [k + a])) 3
            (ExampleEventProvider.removeExampleHandler (some 1) w1).1 = .ok (w3, false) ∧
          w3.log = [(0, 7)]) := by
  obtain ⟨_, w1, h1, h2, h3⟩ := C20_drain_uses_current_handlers
    (fun (k : Nat) (a : Nat) (u : List Nat) => u ++ [k + a])
    (registerAll [(false, 10), (false, 20)] (World.init [] : World Nat Nat (List Nat))).1 7 3
    (registerAll_spec _ _ (wellFormed_init [])).1 rfl rfl (by decide)
  obtain ⟨w3, h4, h5⟩ := h2 30
  obtain ⟨w4, h6, h7, _⟩ := h3 [] [{ ptr := 0, handler := .user 10 }]
    { ptr := 1, handler := .user 20 } rfl
  exact ⟨w1, h1, ⟨w3, h4, h5⟩, ⟨w4, h6, h7⟩⟩

/-! ## The dispatcher -/

section Dispatcher

variable {τ ρ : Type} [LinearOrder τ]

theorem equal_range_split (first : τ) :
    ∀ m : List (τ × Node κ), (m.map Prod.fst).Pairwise (fun a b => a ≤ b) →
      ∃ lo mid hi, m = lo ++ mid ++ hi ∧ (∀ e ∈ lo, e.1 < first) ∧ (∀ e ∈ mid, e.1 = first) ∧
        (∀ e ∈ hi, first < e.1) ∧
        ExampleEventDispatcher.lowerBound first m = Iter.begin ((mid ++ hi).map Prod.snd) ∧
        ExampleEventDispatcher.upperBound first m = Iter.begin (hi.map Prod.snd) := by
  intro m
  induction m with
  | nil =>
    intro _
    exact ⟨[], [], [], rfl, by simp, by simp, by simp, rfl, rfl⟩
  | cons e m ih =>
    intro hs
    simp only [List.map_cons, List.pairwise_cons] at hs
    obtain ⟨lo, mid, hi, hm, hlo, hmid, hhi, hlb, hub⟩ := ih hs.2
    have hge : ∀ x ∈ m, e.1 ≤ x.1 := fun x hx => hs.1 x.1 (List.mem_map_of_mem Prod.fst hx)
    rcases lt_trichotomy e.1 first with hlt | heq | hgt
    · refine ⟨e :: lo, mid, hi, by simp [hm], ?_, hmid, hhi, ?_, ?_⟩
      · intro x hx
        rcases List.mem_cons.mp hx with rfl | hx
        · exact hlt
        · exact hlo x hx
      · simp [ExampleEventDispatcher.lowerBound, hlt, hlb]
      · simp [ExampleEventDispatcher.upperBound, not_lt_of_gt hlt, hub]
    · have hlonil : lo = [] := by
        cases lo with
        | nil => rfl
        | cons x lo =>
          have h1 := hlo x (List.mem_cons_self _ _)
          have h2 := hge x (by rw [hm]; simp)
          exact absurd (lt_of_le_of_lt h2 h1) (by rw [heq]; exact lt_irrefl _)
      subst hlonil
      refine ⟨[], e :: mid, hi, by simp [hm], by simp, ?_, hhi, ?_, ?_⟩
      · intro x hx
        rcases List.mem_cons.mp hx with rfl | hx
        · exact heq
        · exact hmid x hx
      · simp [ExampleEventDispatcher.lowerBound, heq, Iter.begin]
      · simp [ExampleEventDispatcher.upperBound, heq, hub]
    · refine ⟨[], [], e :: m, by simp, by simp, by simp, ?_, ?_, ?_⟩
      · intro x hx
        rcases List.mem_cons.mp hx with rfl | hx
        · exact hgt
        · exact lt_of_lt_of_le hgt (hge x hx)
      · simp [ExampleEventDispatcher.lowerBound, not_lt_of_gt hgt, Iter.begin]
      · simp [ExampleEventDispatcher.upperBound, hgt, Iter.begin]

theorem filter_of_split (first : τ) (lo mid hi : List (τ × Node κ))
    (hlo : ∀ e ∈ lo, e.1 < first) (hmid : ∀ e ∈ mid, e.1 = first) (hhi : ∀ e ∈ hi, first < e.1) :
    (lo ++ mid ++ hi).filter (fun e => decide (e.1 = first)) = mid := by
  have h1 : lo.filter (fun e => decide (e.1 = first)) = [] := by
    rw [List.filter_eq_nil_iff]
    intro e he
    simpa using ne_of_lt (hlo e he)
  have h2 : hi.filter (fun e => decide (e.1 = first)) = [] := by
    rw [List.filter_eq_nil_iff]
    intro e he
    simpa using ne_of_gt (hhi e he)
  have h3 : mid.filter (fun e => decide (e.1 = first)) = mid := by
    rw [List.filter_eq_self]
    intro e he
    simpa using hmid e he
  simp [List.filter_append, h1, h2, h3]

end Dispatcher

section DispatcherLoop

variable {τ ρ : Type}

theorem dispatchLoop_pure (act : κ → ρ → σ → σ) (fargs : ρ) :
    ∀ (rest done hi : List (τ × Node κ)) (w : DWorld τ κ ρ σ) (fuel : Nat),
      w.user.map = done ++ rest ++ hi →
      w.user.eraseLast = false →
      ((done ++ rest ++ hi).map (fun e => e.2.ptr)).Nodup →
      (∀ e ∈ rest, e.2.handler.isOnce = false) →
      rest.length ≤ fuel →
      ExampleEventDispatcher.dispatchLoop (ExampleEventDispatcher.pureInterp act) fargs fuel
          (Iter.begin ((rest ++ hi).map Prod.snd)) (Iter.begin (hi.map Prod.snd)) w
        = .ok { w with user := { w.user with
                  log := w.user.log ++ rest.map (fun e => (e.2.ptr, fargs)),
                  env := rest.foldl (fun u e => act e.2.handler.fn fargs u) w.user.env } } := by
  intro rest
  induction rest with
  | nil =>
    intro done hi w fuel _ _ _ _ _
    obtain ⟨eh, dq, m, np, ⟨mp, el, lg, env⟩, blg⟩ := w
    cases fuel <;> simp [ExampleEventDispatcher.dispatchLoop]
  | cons e rest ih =>
    intro done hi w fuel hmap hflag hnd hpers hfuel
    cases fuel with
    | zero => simp at hfuel
    | succ fuel =>
      have hfuel2 : rest.length ≤ fuel := by simpa using hfuel
      obtain ⟨eh, dq, m, np, ⟨mp, el, lg, env⟩, blg⟩ := w
      simp only at hmap hflag
      subst hmap hflag
      obtain ⟨key, p, h⟩ := e
      have hp : h.isOnce = false := hpers (key, ⟨p, h⟩) (List.mem_cons_self _ _)
      cases h with
      | lambdaCallbackWrapper f => simp [Handler.isOnce] at hp
      | user f =>
        have hnodes : (done ++ (key, (⟨p, Handler.user f⟩ : Node κ)) :: rest ++ hi).map Prod.snd
            = done.map Prod.snd ++ ⟨p, Handler.user f⟩ :: (rest ++ hi).map Prod.snd := by
          simp
        have hnd1 : ((done.map Prod.snd ++ (⟨p, Handler.user f⟩ : Node κ)
            :: (rest ++ hi).map Prod.snd).map Node.ptr).Nodup := by
          rw [← hnodes, List.map_map]
          exact hnd
        have hd := deref_mid (done.map Prod.snd) ((rest ++ hi).map Prod.snd) ⟨p, Handler.user f⟩ hnd1
        have hx := nextOf_mid (done.map Prod.snd) ((rest ++ hi).map Prod.snd) ⟨p, Handler.user f⟩ hnd1
        have hne : Iter.begin (((key, (⟨p, Handler.user f⟩ : Node κ)) :: rest ++ hi).map Prod.snd)
            ≠ Iter.begin (hi.map Prod.snd) := by
          cases hi with
          | nil => simp [Iter.begin]
          | cons x hi =>
            simp only [List.cons_append, List.map_cons, Iter.begin, ne_eq, Iter.node.injEq]
            intro hEq
            simp only [List.map_append, List.map_cons, List.append_assoc, List.cons_append] at hnd
            have h1 := (List.nodup_cons.mp (List.nodup_middle.mp hnd)).1
            apply h1
            rw [hEq]
            simp
        have hnd2 : (((done ++ [(key, (⟨p, Handler.user f⟩ : Node κ))]) ++ rest ++ hi).map
            (fun e => e.2.ptr)).Nodup := by
          simpa using hnd
        have hi2 := ih (done ++ [(key, (⟨p, Handler.user f⟩ : Node κ))]) hi
          { eventHandlers := eh, deferredQueue := dq, mutex := m, nextPtr := np,
            user := { map := (done ++ [(key, (⟨p, Handler.user f⟩ : Node κ))]) ++ rest ++ hi,
                      eraseLast := false, log := lg ++ [(p, fargs)], env := act f fargs env },
            log := blg } fuel rfl rfl hnd2
          (fun x hx => hpers x (List.mem_cons_of_mem _ hx)) hfuel2
        dsimp only at hd hx
        have hmapeq : (done ++ [(key, (⟨p, Handler.user f⟩ : Node κ))]) ++ rest ++ hi
            = done ++ (key, ⟨p, Handler.user f⟩) :: rest ++ hi := by simp
        rw [hmapeq] at hi2
        rw [ExampleEventDispatcher.dispatchLoop, if_neg hne]
        simp only [hnodes, List.cons_append, List.map_cons, begin_cons, hd,
          ExampleEventDispatcher.call, ExampleEventDispatcher.pureInterp, Bool.false_eq_true,
          if_false, next_node, hx]
        simp only [List.cons_append] at hi2
        rw [hi2]
        simp [Handler.fn]

end DispatcherLoop

theorem triggerLoop_pastEnd (interp : Interp κ α σ) (a : α) (fuel : Nat) (prev : Iter)
    (w : World κ α σ) :
    ExampleEventProvider.triggerLoop interp a fuel prev .pastEnd w = .ok w := by
  cases fuel <;> simp [ExampleEventProvider.triggerLoop]

section DispatcherTrigger

variable {τ ρ : Type} [LinearOrder τ]

theorem dispatcher_trigger_pure (act : κ → ρ → σ → σ) (first : τ) (fargs : ρ) (fuel : Nat)
    (w : DWorld τ κ ρ σ) (hwf : ExampleEventDispatcher.WellFormed w)
    (hpers : ∀ e ∈ w.user.map, e.1 = first → e.2.handler.isOnce = false)
    (hfuel : (w.user.map.filter (fun e => decide (e.1 = first))).length < fuel) :
    ∃ w1, ExampleEventDispatcher.triggerExample (ExampleEventDispatcher.pureInterp act) fuel
            first fargs w = .ok w1 ∧
      w1.user = { w.user with
        log := w.user.log ++
          (w.user.map.filter (fun e => decide (e.1 = first))).map (fun e => (e.2.ptr, fargs)),
        env := (w.user.map.filter (fun e => decide (e.1 = first))).foldl
          (fun u e => act e.2.handler.fn fargs u) w.user.env } ∧
      w1.eventHandlers = w.eventHandlers ∧ w1.nextPtr = w.nextPtr := by
  obtain ⟨⟨p, hbase⟩, hsorted, hnd, _, hflag⟩ := hwf
  obtain ⟨lo, mid, hi, hm, hlo, hmid, hhi, hlb, hub⟩ := equal_range_split first w.user.map hsorted
  have hfilter : w.user.map.filter (fun e => decide (e.1 = first)) = mid := by
    rw [hm]
    exact filter_of_split first lo mid hi hlo hmid hhi
  rw [hfilter] at hfuel ⊢
  have hpers2 : ∀ e ∈ mid, e.2.handler.isOnce = false := by
    intro e he
    apply hpers e _ (hmid e he)
    rw [hm]
    simp [he]
  cases fuel with
  | zero => simp at hfuel
  | succ fuel =>
    obtain ⟨eh, dq, m, np, ⟨mp, el, lg, env⟩, blg⟩ := w
    simp only at hbase hm hflag hnd hlb hub
    subst hbase hflag
    have hloop := dispatchLoop_pure act fargs mid lo hi
      { eventHandlers := some { list := [{ ptr := p, handler := Handler.user () }], eraseLast := false },
        deferredQueue := dq, mutex := m, nextPtr := np,
        user := { map := mp, eraseLast := false, log := lg, env := env },
        log := blg ++ [(p, (first, fargs))] } (fuel + 1) hm rfl (by rw [← hm]; exact hnd) hpers2
      (by omega)
    refine ⟨{ eventHandlers := some ⟨[{ ptr := p, handler := Handler.user () }], false⟩,
              deferredQueue := dq, mutex := m, nextPtr := np,
              user := { map := mp, eraseLast := false,
                        log := lg ++ mid.map (fun e => (e.2.ptr, fargs)),
                        env := mid.foldl (fun u e => act e.2.handler.fn fargs u) env },
              log := blg ++ [(p, (first, fargs))] }, ?_, rfl, rfl, rfl⟩
    simp only [ExampleEventDispatcher.triggerExample, ExampleEventProvider.triggerExample,
      begin_cons, ExampleEventProvider.triggerLoop, Iter.deref, List.find?, decide_True,
      ExampleEventProvider.call, ExampleEventDispatcher.dispatchLambda, hlb, hub, hloop]
    simp [Iter.next, nextOf, Iter.begin, triggerLoop_pastEnd]

end DispatcherTrigger

section DispatcherRegistration

variable {τ ρ : Type} [LinearOrder τ]

theorem mapInsert_perm (first : τ) (v : Node κ) (m : List (τ × Node κ)) :
    (ExampleEventDispatcher.mapInsert first v m).Perm ((first, v) :: m) := by
  induction m with
  | nil => exact List.Perm.refl _
  | cons e m ih =>
    by_cases h : first < e.1
    · simp [ExampleEventDispatcher.mapInsert, h]
    · simp only [ExampleEventDispatcher.mapInsert, h, if_false]
      exact (List.Perm.cons e ih).trans (List.Perm.swap _ _ _)

theorem mapInsert_sorted (first : τ) (v : Node κ) (m : List (τ × Node κ))
    (hs : (m.map Prod.fst).Pairwise (fun a b => a ≤ b)) :
    ((ExampleEventDispatcher.mapInsert first v m).map Prod.fst).Pairwise (fun a b => a ≤ b) := by
  induction m with
  | nil => simp [ExampleEventDispatcher.mapInsert]
  | cons e m ih =>
    simp only [List.map_cons, List.pairwise_cons] at hs
    by_cases h : first < e.1
    · simp only [ExampleEventDispatcher.mapInsert, h, if_true, List.map_cons, List.pairwise_cons]
      refine ⟨?_, hs⟩
      intro x hx
      rcases List.mem_cons.mp hx with rfl | hx
      · exact le_of_lt h
      · exact le_trans (le_of_lt h) (hs.1 x hx)
    · simp only [ExampleEventDispatcher.mapInsert, h, if_false, List.map_cons, List.pairwise_cons]
      refine ⟨?_, ih hs.2⟩
      intro x hx
      have hx2 : x ∈ ((first, v) :: m).map Prod.fst :=
        ((mapInsert_perm first v m).map Prod.fst).subset hx
      rcases List.mem_cons.mp hx2 with rfl | hx2
      · exact not_lt.mp h
      · exact hs.1 x hx2

theorem filter_mapInsert (first key : τ) (v : Node κ) (m : List (τ × Node κ))
    (hs : (m.map Prod.fst).Pairwise (fun a b => a ≤ b)) :
    (ExampleEventDispatcher.mapInsert key v m).filter (fun e => decide (e.1 = first))
      = m.filter (fun e => decide (e.1 = first)) ++ (if key = first then [(key, v)] else []) := by
  induction m with
  | nil =>
    by_cases hk : key = first <;> simp [ExampleEventDispatcher.mapInsert, hk]
  | cons e m ih =>
    simp only [List.map_cons, List.pairwise_cons] at hs
    by_cases h : key < e.1
    · simp only [ExampleEventDispatcher.mapInsert, h, if_true]
      by_cases hk : key = first
      · have hnil : (e :: m).filter (fun x => decide (x.1 = first)) = [] := by
          rw [List.filter_eq_nil_iff]
          intro x hx
          have hle : e.1 ≤ x.1 := by
            rcases List.mem_cons.mp hx with rfl | hx
            · exact le_refl _
            · exact hs.1 x.1 (List.mem_map_of_mem Prod.fst hx)
          have : first < x.1 := hk ▸ lt_of_lt_of_le h hle
          simpa using ne_of_gt this
        rw [List.filter_cons, hnil]
        simp [hk]
      · rw [List.filter_cons]
        simp [hk]
    · simp only [ExampleEventDispatcher.mapInsert, h, if_false, List.filter_cons, ih hs.2]
      by_cases he : e.1 = first <;> simp [he]

theorem wellFormed_dispatcher_new (u : σ) :
    ExampleEventDispatcher.WellFormed (ExampleEventDispatcher.new u : DWorld τ κ ρ σ) :=
  ⟨⟨0, rfl⟩, List.Pairwise.nil, List.nodup_nil,
    fun _ h => by simp [ExampleEventDispatcher.new, ExampleEventProvider.onExample, World.init] at h,
    rfl⟩

theorem wellFormed_dispatcher_insert (w w1 : DWorld τ κ ρ σ) (first : τ) (h : Handler κ)
    (hwf : ExampleEventDispatcher.WellFormed w)
    (hbase : w1.eventHandlers = w.eventHandlers)
    (hmap : w1.user.map = ExampleEventDispatcher.mapInsert first { ptr := w.nextPtr, handler := h }
      w.user.map)
    (hnext : w1.nextPtr = w.nextPtr + 1) (hflag : w1.user.eraseLast = w.user.eraseLast) :
    ExampleEventDispatcher.WellFormed w1 := by
  obtain ⟨hb, hs, hnd, hfr, hfl⟩ := hwf
  have hperm := mapInsert_perm first ({ ptr := w.nextPtr, handler := h } : Node κ) w.user.map
  refine ⟨by rw [hbase]; exact hb, by rw [hmap]; exact mapInsert_sorted _ _ _ hs, ?_, ?_,
    hflag.trans hfl⟩
  · rw [hmap, (hperm.map (fun e => e.2.ptr)).nodup_iff, List.map_cons, List.nodup_cons]
    refine ⟨?_, hnd⟩
    intro hmem
    obtain ⟨e, he1, he2⟩ := List.mem_map.mp hmem
    have := hfr e he1
    simp only at he2
    omega
  · intro e he
    rw [hmap] at he
    rw [hnext]
    rcases List.mem_cons.mp (hperm.subset he) with rfl | he
    · simp
    · exact Nat.lt_succ_of_lt (hfr e he)

theorem dispatcher_registerAll_spec (first : τ) (regs : List (Bool × τ × κ)) :
    ∀ w : DWorld τ κ ρ σ, ExampleEventDispatcher.WellFormed w →
      (∀ r ∈ regs, r.2.1 = first → r.1 = false) →
      (∀ e ∈ w.user.map, e.1 = first → e.2.handler.isOnce = false) →
      ExampleEventDispatcher.WellFormed (ExampleEventDispatcher.registerAll regs w).1 ∧
      (ExampleEventDispatcher.registerAll regs w).2.length = regs.length ∧
      (∀ e ∈ (ExampleEventDispatcher.registerAll regs w).1.user.map,
        e.1 = first → e.2.handler.isOnce = false) ∧
      ((ExampleEventDispatcher.registerAll regs w).1.user.map.filter
          (fun e => decide (e.1 = first))).map (fun e => some e.2.ptr)
        = (w.user.map.filter (fun e => decide (e.1 = first))).map (fun e => some e.2.ptr)
          ++ ((regs.zip (ExampleEventDispatcher.registerAll regs w).2).filter
                (fun x => decide (x.1.2.1 = first))).map Prod.snd ∧
      (ExampleEventDispatcher.registerAll regs w).1.user.log = w.user.log ∧
      (ExampleEventDispatcher.registerAll regs w).1.user.env = w.user.env ∧
      (ExampleEventDispatcher.registerAll regs w).1.log = w.log := by
  induction regs with
  | nil =>
    intro w hwf _ hp
    exact ⟨hwf, rfl, hp, by simp [ExampleEventDispatcher.registerAll], rfl, rfl, rfl⟩
  | cons r regs ih =>
    intro w hwf hregs hp
    obtain ⟨once, key, k⟩ := r
    have hregs2 : ∀ r ∈ regs, r.2.1 = first → r.1 = false :=
      fun r hr => hregs r (List.mem_cons_of_mem _ hr)
    have honce : key = first → once = false := hregs (once, key, k) (List.mem_cons_self _ _)
    -- the state after this registration
    have key_step : ∀ (w1 : DWorld τ κ ρ σ) (h : Handler κ), h.isOnce = once →
        w1.eventHandlers = w.eventHandlers →
        w1.user.map = ExampleEventDispatcher.mapInsert key { ptr := w.nextPtr, handler := h }
          w.user.map →
        w1.nextPtr = w.nextPtr + 1 → w1.user.eraseLast = w.user.eraseLast →
        w1.user.log = w.user.log → w1.user.env = w.user.env → w1.log = w.log →
        ExampleEventDispatcher.WellFormed (ExampleEventDispatcher.registerAll regs w1).1 ∧
        (ExampleEventDispatcher.registerAll regs w1).2.length = regs.length ∧
        (∀ e ∈ (ExampleEventDispatcher.registerAll regs w1).1.user.map,
          e.1 = first → e.2.handler.isOnce = false) ∧
        ((ExampleEventDispatcher.registerAll regs w1).1.user.map.filter
            (fun e => decide (e.1 = first))).map (fun e => some e.2.ptr)
          = (w.user.map.filter (fun e => decide (e.1 = first))).map (fun e => some e.2.ptr)
            ++ ((if key = first then [some w.nextPtr] else [])
            ++ ((regs.zip (ExampleEventDispatcher.registerAll regs w1).2).filter
                  (fun x => decide (x.1.2.1 = first))).map Prod.snd) ∧
        (ExampleEventDispatcher.registerAll regs w1).1.user.log = w.user.log ∧
        (ExampleEventDispatcher.registerAll regs w1).1.user.env = w.user.env ∧
        (ExampleEventDispatcher.registerAll regs w1).1.log = w.log := by
      intro w1 h hh hbase hmap hnext hflag hlog henv hblog
      have hwf1 := wellFormed_dispatcher_insert w w1 key h hwf hbase hmap hnext hflag
      have hp1 : ∀ e ∈ w1.user.map, e.1 = first → e.2.handler.isOnce = false := by
        intro e he hk
        rw [hmap] at he
        rcases List.mem_cons.mp ((mapInsert_perm key _ w.user.map).subset he) with rfl | he
        · simp only at hk ⊢
          rw [hh]
          exact honce hk
        · exact hp e he hk
      obtain ⟨h1, h2, h3, h4, h5, h6, h7⟩ := ih w1 hwf1 hregs2 hp1
      refine ⟨h1, h2, h3, ?_, h5.trans hlog, h6.trans henv, h7.trans hblog⟩
      rw [h4, hmap, filter_mapInsert first key _ _ hwf.sorted]
      by_cases hk : key = first <;> simp [hk]
    cases once with
    | false =>
      obtain ⟨h1, h2, h3, h4, h5, h6, h7⟩ := key_step (ExampleEventDispatcher.onExample key k w).1
        (.user k) rfl rfl rfl rfl rfl rfl rfl rfl
      refine ⟨by simpa [ExampleEventDispatcher.registerAll] using h1,
        by simpa [ExampleEventDispatcher.registerAll] using h2,
        by simpa [ExampleEventDispatcher.registerAll] using h3, ?_,
        by simpa [ExampleEventDispatcher.registerAll] using h5,
        by simpa [ExampleEventDispatcher.registerAll] using h6,
        by simpa [ExampleEventDispatcher.registerAll] using h7⟩
      simp only [ExampleEventDispatcher.registerAll, Bool.false_eq_true, if_false] at h4 ⊢
      rw [h4]
      by_cases hk : key = first <;>
        simp [hk, List.filter_cons, ExampleEventDispatcher.onExample]
    | true =>
      obtain ⟨h1, h2, h3, h4, h5, h6, h7⟩ := key_step (ExampleEventDispatcher.onceExample key k w).1
        (.lambdaCallbackWrapper k) rfl rfl rfl rfl rfl rfl rfl rfl
      refine ⟨by simpa [ExampleEventDispatcher.registerAll] using h1,
        by simpa [ExampleEventDispatcher.registerAll] using h2,
        by simpa [ExampleEventDispatcher.registerAll] using h3, ?_,
        by simpa [ExampleEventDispatcher.registerAll] using h5,
        by simpa [ExampleEventDispatcher.registerAll] using h6,
        by simpa [ExampleEventDispatcher.registerAll] using h7⟩
      simp only [ExampleEventDispatcher.registerAll, if_true] at h4 ⊢
      rw [h4]
      by_cases hk : key = first <;>
        simp [hk, List.filter_cons, ExampleEventDispatcher.onceExample]

end DispatcherRegistration

/-! ## C13 -/

section DispatcherClaims

variable {τ ρ : Type} [LinearOrder τ]

/-- Where every handler under the key `first` was registered with `onExample`
(handlers not touching the dispatcher), a base-level `triggerExample(first, fargs)`
returns, invokes exactly the handlers registered under `first`, each once with
`fargs`, in the order of their registration, runs their bodies on the
environment in that order, and leaves the key map as it was. -/
theorem dispatch_by_key_persistent (act : κ → ρ → σ → σ) (regs : List (Bool × τ × κ)) (u : σ)
    (first : τ) (fargs : ρ) (fuel : Nat)
    (hpers : ∀ r ∈ regs, r.2.1 = first → r.1 = false) (hfuel : regs.length < fuel) :
    ∃ w, ExampleEventDispatcher.triggerExample (ExampleEventDispatcher.pureInterp act) fuel
          first fargs (ExampleEventDispatcher.registerAll regs (ExampleEventDispatcher.new u)).1
            = .ok w ∧
      w.user.log.map (fun e => (some e.1, e.2))
        = ((regs.zip (ExampleEventDispatcher.registerAll regs
              (ExampleEventDispatcher.new u : DWorld τ κ ρ σ)).2).filter
            (fun x => decide (x.1.2.1 = first))).map (fun x => (x.2, fargs)) ∧
      w.user.env = ((ExampleEventDispatcher.registerAll regs
          (ExampleEventDispatcher.new u : DWorld τ κ ρ σ)).1.user.map.filter
            (fun e => decide (e.1 = first))).foldl (fun e x => act x.2.handler.fn fargs e) u ∧
      w.user.map = (ExampleEventDispatcher.registerAll regs
        (ExampleEventDispatcher.new u : DWorld τ κ ρ σ)).1.user.map := by
  obtain ⟨h1, h2, h3, h4, h5, h6, _⟩ := dispatcher_registerAll_spec first regs
    (ExampleEventDispatcher.new u : DWorld τ κ ρ σ) (wellFormed_dispatcher_new u) hpers
    (by intro e he; simp [ExampleEventDispatcher.new, ExampleEventProvider.onExample,
          World.init] at he)
  have hnil : (ExampleEventDispatcher.new u : DWorld τ κ ρ σ).user.map = [] := rfl
  have hlognil : (ExampleEventDispatcher.new u : DWorld τ κ ρ σ).user.log = [] := rfl
  have henv : (ExampleEventDispatcher.new u : DWorld τ κ ρ σ).user.env = u := rfl
  rw [hnil, List.filter_nil, List.map_nil, List.nil_append] at h4
  rw [hlognil] at h5
  rw [henv] at h6
  have hlen : ((ExampleEventDispatcher.registerAll regs
      (ExampleEventDispatcher.new u : DWorld τ κ ρ σ)).1.user.map.filter
        (fun e => decide (e.1 = first))).length < fuel := by
    have := congrArg List.length h4
    simp only [List.length_map] at this
    rw [this]
    refine lt_of_le_of_lt (le_trans (List.length_filter_le _ _) ?_) hfuel
    simp [List.length_zip]
  obtain ⟨w1, ht, huser, _, _⟩ := dispatcher_trigger_pure act first fargs fuel _ h1 h3 hlen
  refine ⟨w1, ht, ?_, by rw [huser, h6], by rw [huser]⟩
  rw [huser]
  simp only [h5, List.nil_append, List.map_map]
  have h7 := congrArg (List.map (fun (h : HandlerPtr) => (h, fargs))) h4
  simp only [List.map_map] at h7
  exact h7

/-- The case of handlers under the keys 5, 3, 5, 4 (one-shot) and 3: a trigger with
key 5 invokes the handles 1 and 3, in that order. -/
theorem dispatch_by_key_persistent_example :
    ∃ w, ExampleEventDispatcher.triggerExample
          (ExampleEventDispatcher.pureInterp (fun (k : Nat) (a : Nat) (e : List Nat) => e ++ [k + a])) 6
          5 7 (ExampleEventDispatcher.registerAll
            [(false, 5, 10), (false, 3, 20), (false, 5, 30), (true, 4, 40), (false, 3, 50)]
            (ExampleEventDispatcher.new [] : DWorld Nat Nat Nat (List Nat))).1 = .ok w ∧
      w.user.log.map (fun e => (some e.1, e.2)) = [(some 1, 7), (some 3, 7)] ∧
      w.user.env = [17, 37] := by
  obtain ⟨w, h1, h2, h3, _⟩ := dispatch_by_key_persistent
    (fun (k : Nat) (a : Nat) (e : List Nat) => e ++ [k + a])
    [(false, 5, 10), (false, 3, 20), (false, 5, 30), (true, 4, 40), (false, 3, 50)] [] 5 7 6
    (by decide) (by decide)
  exact ⟨w, h1, h2, h3⟩

end DispatcherClaims

/-- C13 fails on the code: a dispatcher with a one-shot handler H (handle 1)
under the key 1 and a persistent handler G (handle 2) under the key 2, and a
base-level trigger with key 1 and argument 7.  The dispatch lambda calls H
(its body runs with 7 and the wrapper sets `eraseLast`), then calls
`map.erase(it)`, after which `it` points at no element of the map, and goes on
with that `it`: its next use is undefined behaviour, so the trigger does not
return having invoked exactly H, for any iteration bound. -/
theorem C13_dispatch_once_under_key_faults :
    (ExampleEventDispatcher.registerAll [(true, 1, 10), (false, 2, 20)]
        (ExampleEventDispatcher.new [] : DWorld Nat Nat Nat (List Nat))).1.user.map
      = [(1, { ptr := 1, handler := .lambdaCallbackWrapper 10 }),
         (2, { ptr := 2, handler := .user 20 })] ∧
    ExampleEventDispatcher.lowerBound 1
        (ExampleEventDispatcher.registerAll [(true, 1, 10), (false, 2, 20)]
          (ExampleEventDispatcher.new [] : DWorld Nat Nat Nat (List Nat))).1.user.map = .node 1 ∧
    ExampleEventDispatcher.upperBound 1
        (ExampleEventDispatcher.registerAll [(true, 1, 10), (false, 2, 20)]
          (ExampleEventDispatcher.new [] : DWorld Nat Nat Nat (List Nat))).1.user.map = .node 2 ∧
    (∃ w1, ExampleEventDispatcher.call
          (ExampleEventDispatcher.pureInterp (fun (k : Nat) (a : Nat) (e : List Nat) => e ++ [k + a]))
          (.lambdaCallbackWrapper 10) 7
          (ExampleEventDispatcher.registerAll [(true, 1, 10), (false, 2, 20)]
            (ExampleEventDispatcher.new [] : DWorld Nat Nat Nat (List Nat))).1 = .ok w1 ∧
        w1.user.env = [17] ∧ w1.user.eraseLast = true ∧
        ExampleEventDispatcher.mapErase w1.user.map (.node 1)
          = some [(2, { ptr := 2, handler := .user 20 })] ∧
        Iter.deref ([(2, ({ ptr := 2, handler := .user 20 } : Node Nat))].map Prod.snd) (.node 1)
          = none) ∧
    (∀ fuel, ExampleEventDispatcher.triggerExample
        (ExampleEventDispatcher.pureInterp (fun (k : Nat) (a : Nat) (e : List Nat) => e ++ [k + a]))
        (fuel + 2) 1 7
        (ExampleEventDispatcher.registerAll [(true, 1, 10), (false, 2, 20)]
          (ExampleEventDispatcher.new [] : DWorld Nat Nat Nat (List Nat))).1
      = .error .invalidIterator) ∧
    (∀ fuel r, ExampleEventDispatcher.triggerExample
        (ExampleEventDispatcher.pureInterp (fun (k : Nat) (a : Nat) (e : List Nat) => e ++ [k + a]))
        fuel 1 7
        (ExampleEventDispatcher.registerAll [(true, 1, 10), (false, 2, 20)]
          (ExampleEventDispatcher.new [] : DWorld Nat Nat Nat (List Nat))).1
      ≠ .ok r) := by
  refine ⟨rfl, rfl, rfl, ⟨_, rfl, rfl, rfl, rfl, rfl⟩, fun fuel => rfl, ?_⟩
  intro fuel r h
  match fuel with
  | 0 => cases h
  | 1 => cases h
  | fuel + 2 => cases h

/-! ## C14 -/

/-- C14 fails on the code: a dispatcher with a one-shot handler (handle 1) and a
persistent handler (handle 2) under the key 1.  In a trigger with key 1 the
one-shot handler fires, the lambda calls `map.erase(it)` and goes on with the
same `it`, which no longer points into the map: the next use of `it` is
undefined behaviour, the persistent handler is not reached in any defined
way, and for no iteration bound does the trigger return. -/
theorem C14_dispatcher_once_invalid_iterator :
    (ExampleEventDispatcher.registerAll [(true, 1, 10), (false, 1, 20)]
        (ExampleEventDispatcher.new [] : DWorld Nat Nat Nat (List Nat))).1.user.map
      = [(1, { ptr := 1, handler := .lambdaCallbackWrapper 10 }),
         (1, { ptr := 2, handler := .user 20 })] ∧
    (∀ fuel, ExampleEventDispatcher.triggerExample
        (ExampleEventDispatcher.pureInterp (fun (k : Nat) (a : Nat) (e : List Nat) => e ++ [k + a]))
        (fuel + 2) 1 7
        (ExampleEventDispatcher.registerAll [(true, 1, 10), (false, 1, 20)]
          (ExampleEventDispatcher.new [] : DWorld Nat Nat Nat (List Nat))).1
      = .error .invalidIterator) ∧
    (∀ fuel r, ExampleEventDispatcher.triggerExample
        (ExampleEventDispatcher.pureInterp (fun (k : Nat) (a : Nat) (e : List Nat) => e ++ [k + a]))
        fuel 1 7
        (ExampleEventDispatcher.registerAll [(true, 1, 10), (false, 1, 20)]
          (ExampleEventDispatcher.new [] : DWorld Nat Nat Nat (List Nat))).1
      ≠ .ok r) := by
  refine ⟨rfl, fun fuel => rfl, ?_⟩
  intro fuel r h
  match fuel with
  | 0 => cases h
  | 1 => cases h
  | fuel + 2 => cases h

/-! ## The trigger loop on handlers that behave as environment changes along the run -/

theorem triggerLoop_along (interp : Interp κ α σ) (act : κ → α → σ → σ) (a : α) :
    ∀ (rest done : List (Node κ)) (w : World κ α σ) (fuel : Nat),
      w.eventHandlers = some { list := done ++ rest, eraseLast := false } →
      ((done ++ rest).map Node.ptr).Nodup →
      rest.length ≤ fuel →
      (∀ (pre post : List (Node κ)) (e : Node κ), rest = pre ++ e :: post →
        ∀ w1 : World κ α σ, w1.user = fire act a pre w.user →
          interp e.handler.fn a w1 = .ok { w1 with user := act e.handler.fn a w1.user }) →
      ExampleEventProvider.triggerLoop interp a fuel (lastIter done) (Iter.begin rest) w
        = .ok { w with eventHandlers := some { list := done ++ persistent rest, eraseLast := false },
                       user := fire act a rest w.user,
                       log := w.log ++ invocations a rest } := by
  intro rest
  induction rest with
  | nil =>
    intro done w fuel hw _ _ _
    obtain ⟨eh, dq, m, np, u, lg⟩ := w
    simp only at hw
    subst hw
    cases fuel <;>
      simp [ExampleEventProvider.triggerLoop, Iter.begin, persistent, fire, invocations]
  | cons e rest ih =>
    intro done w fuel hw hnd hfuel hstep
    cases fuel with
    | zero => simp at hfuel
    | succ fuel =>
      have hfuel2 : rest.length ≤ fuel := by simpa using hfuel
      obtain ⟨eh, dq, m, np, u, lg⟩ := w
      simp only at hw
      subst hw
      have hcall := hstep [] rest e rfl
      have hstep2 : ∀ (pre post : List (Node κ)) (e1 : Node κ), rest = pre ++ e1 :: post →
          ∀ w1 : World κ α σ, w1.user = fire act a pre (act e.handler.fn a u) →
            interp e1.handler.fn a w1 = .ok { w1 with user := act e1.handler.fn a w1.user } := by
        intro pre post e1 hsplit w1 hw1
        exact hstep (e :: pre) post e1 (by rw [hsplit]; rfl) w1 (by rw [hw1]; rfl)
      obtain ⟨p, h⟩ := e
      cases h with
      | user f =>
        have hnd2 : (((done ++ [(⟨p, Handler.user f⟩ : Node κ)]) ++ rest).map Node.ptr).Nodup := by
          simpa using hnd
        have hi := ih (done ++ [⟨p, Handler.user f⟩])
          { eventHandlers := some { list := (done ++ [⟨p, Handler.user f⟩]) ++ rest, eraseLast := false },
            deferredQueue := dq, mutex := m, nextPtr := np, user := act f a u,
            log := lg ++ [(p, a)] } fuel rfl hnd2 hfuel2 hstep2
        have hd := deref_mid done rest ⟨p, Handler.user f⟩ hnd
        have hn := next_lastIter done rest ⟨p, Handler.user f⟩ hnd
        have hx := nextOf_mid done rest ⟨p, Handler.user f⟩ hnd
        have hc := hcall
          { eventHandlers := some { list := done ++ ⟨p, Handler.user f⟩ :: rest, eraseLast := false },
            deferredQueue := dq, mutex := m, nextPtr := np, user := u,
            log := lg ++ [(p, a)] } rfl
        simp only [lastIter_concat, List.append_assoc, List.singleton_append] at hi
        dsimp only [Handler.fn] at hd hn hx hc
        rw [begin_cons]
        simp only [ExampleEventProvider.triggerLoop, hd, ExampleEventProvider.call, hc,
          next_node, hn, hx, hi]
        simp [persistent, fire, invocations, Handler.isOnce, Handler.fn]
      | lambdaCallbackWrapper f =>
        have hnd2 : ((done ++ rest).map Node.ptr).Nodup := by
          simp only [List.map_append, List.map_cons] at hnd ⊢
          exact (List.nodup_cons.mp (List.nodup_middle.mp hnd)).2
        have hi := ih done
          { eventHandlers := some { list := done ++ rest, eraseLast := false },
            deferredQueue := dq, mutex := m, nextPtr := np, user := act f a u,
            log := lg ++ [(p, a)] } fuel rfl hnd2 hfuel2 hstep2
        have hd := deref_mid done rest ⟨p, Handler.lambdaCallbackWrapper f⟩ hnd
        have he := eraseAfter_lastIter done rest ⟨p, Handler.lambdaCallbackWrapper f⟩ hnd
        have hc := hcall
          { eventHandlers := some { list := done ++ ⟨p, Handler.lambdaCallbackWrapper f⟩ :: rest,
                                    eraseLast := false },
            deferredQueue := dq, mutex := m, nextPtr := np, user := u,
            log := lg ++ [(p, a)] } rfl
        dsimp only [Handler.fn] at hd he hc
        rw [begin_cons]
        simp only [ExampleEventProvider.triggerLoop, hd, ExampleEventProvider.call, hc, he, hi]
        simp [persistent, fire, invocations, Handler.isOnce, Handler.fn]

theorem triggerExample_along (interp : Interp κ α σ) (act : κ → α → σ → σ) (fuel : Nat) (a : α)
    (w : World κ α σ) (hwf : w.WellFormed) (hfuel : w.handlers.length ≤ fuel)
    (hstep : ∀ (pre post : List (Node κ)) (e : Node κ), w.handlers = pre ++ e :: post →
        ∀ w1 : World κ α σ, w1.user = fire act a pre w.user →
          interp e.handler.fn a w1 = .ok { w1 with user := act e.handler.fn a w1.user }) :
    ExampleEventProvider.triggerExample interp fuel a w = .ok (triggered act a w) := by
  obtain ⟨hflag, hnd, _⟩ := hwf
  obtain ⟨eh, dq, m, np, u, lg⟩ := w
  cases eh with
  | none =>
    simp [ExampleEventProvider.triggerExample, triggered, World.handlers, fire, invocations]
  | some s =>
    obtain ⟨l, e⟩ := s
    simp only [World.eraseLast] at hflag
    subst hflag
    simp only [World.handlers] at hnd hfuel hstep
    have := triggerLoop_along interp act a l []
      { eventHandlers := some { list := l, eraseLast := false }, deferredQueue := dq, mutex := m,
        nextPtr := np, user := u, log := lg } fuel rfl (by simpa using hnd) hfuel hstep
    simpa [ExampleEventProvider.triggerExample, triggered, World.handlers, lastIter_nil] using this

/-! ## The threaded provider -/

theorem run_promiseFree (act : κ → α → σ → σ) (h : ThreadedHandler κ) (a : α) :
    ∀ w : TWorld κ α σ, h.promiseFree = true →
      ExampleThreadedEventProvider.run (ExampleThreadedEventProvider.pureInterp act) h a w
        = .ok { w with user := h.act act a w.user } := by
  induction h with
  | user k => intro w _; rfl
  | ignoreArgs => intro w _; rfl
  | lambdaCallbackWrapper f c ih =>
    intro w hf
    have := ih w (by simpa [ThreadedHandler.promiseFree] using hf)
    simp only [ExampleThreadedEventProvider.run, this]
    rfl
  | lambdaPromiseWrapper c => intro w hf; simp [ThreadedHandler.promiseFree] at hf

theorem act_promiseFree_promises (act : κ → α → σ → σ) (h : ThreadedHandler κ) (a : α) :
    ∀ s : ThreadedState α σ, h.promiseFree = true → (h.act act a s).promises = s.promises := by
  induction h with
  | user k => intro s _; rfl
  | ignoreArgs => intro s _; rfl
  | lambdaCallbackWrapper f c ih =>
    intro s hf
    exact ih s (by simpa [ThreadedHandler.promiseFree] using hf)
  | lambdaPromiseWrapper c => intro s hf; simp [ThreadedHandler.promiseFree] at hf

theorem run_promise (act : κ → α → σ → σ) (c : Nat) (a : α) (w : TWorld κ α σ)
    (h : w.user.promises.get? c = some none) :
    ExampleThreadedEventProvider.run (ExampleThreadedEventProvider.pureInterp act)
        (.lambdaPromiseWrapper c) a w
      = .ok { w with
              user := (ThreadedHandler.lambdaPromiseWrapper c : ThreadedHandler κ).act act a w.user } := by
  simp only [ExampleThreadedEventProvider.run, h]
  rfl

/-- The promise `c` is left alone by a pass over nodes none of which sets it. -/
theorem fire_promises_get (act : κ → α → σ → σ) (a : α) (c : Nat) :
    ∀ (pre : List (Node (ThreadedHandler κ))) (s : ThreadedState α σ),
      (∀ n ∈ pre, n.handler.fn.promiseFree = true ∨ ∃ c1, n.handler.fn = .lambdaPromiseWrapper c1) →
      c ∉ pre.filterMap (fun n => n.handler.fn.promiseCell) →
      (fire (ThreadedHandler.act act) a pre s).promises.get? c = s.promises.get? c := by
  intro pre
  induction pre with
  | nil => intro s _ _; rfl
  | cons n pre ih =>
    intro s hgood hc
    have hgood2 : ∀ m ∈ pre, m.handler.fn.promiseFree = true ∨
        ∃ c1, m.handler.fn = .lambdaPromiseWrapper c1 :=
      fun m hm => hgood m (List.mem_cons_of_mem _ hm)
    show (fire (ThreadedHandler.act act) a pre (n.handler.fn.act act a s)).promises.get? c = _
    rcases hgood n (List.mem_cons_self _ _) with hfree | ⟨c1, hc1⟩
    · have hcell : n.handler.fn.promiseCell = none := by
        cases hfn : n.handler.fn with
        | lambdaPromiseWrapper c2 => rw [hfn] at hfree; simp [ThreadedHandler.promiseFree] at hfree
        | user k => rfl
        | ignoreArgs => rfl
        | lambdaCallbackWrapper f c2 => rfl
      have hc2 : c ∉ pre.filterMap (fun n => n.handler.fn.promiseCell) := by
        simpa [List.filterMap_cons, hcell] using hc
      rw [ih _ hgood2 hc2, act_promiseFree_promises act _ a s hfree]
    · have hc2 : c ∉ pre.filterMap (fun n => n.handler.fn.promiseCell) ∧ c ≠ c1 := by
        simp only [List.filterMap_cons, hc1, ThreadedHandler.promiseCell, List.mem_cons,
          not_or] at hc
        exact ⟨hc.2, hc.1⟩
      rw [ih _ hgood2 hc2.1, hc1]
      simp only [ThreadedHandler.act]
      rw [List.get?_eq_getElem?, List.get?_eq_getElem?, List.getElem?_set_ne (Ne.symm hc2.2)]

theorem threaded_good_of_wrappers (w : TWorld κ α σ)
    (hw : ∀ n ∈ w.handlers, n.handler.fn.promiseFree = true ∨
      ∃ c, n.handler = .lambdaCallbackWrapper (.lambdaPromiseWrapper c) ∧
        w.user.promises.get? c = some none) :
    ∀ n ∈ w.handlers, n.handler.fn.promiseFree = true ∨
      ∃ c1, n.handler.fn = .lambdaPromiseWrapper c1 := by
  intro n hn
  rcases hw n hn with h | ⟨c, hc, _⟩
  · exact Or.inl h
  · exact Or.inr ⟨c, by rw [hc]; rfl⟩

theorem threaded_step (act : κ → α → σ → σ) (a : α) (w : TWorld κ α σ)
    (hw : ∀ n ∈ w.handlers, n.handler.fn.promiseFree = true ∨
      ∃ c, n.handler = .lambdaCallbackWrapper (.lambdaPromiseWrapper c) ∧
        w.user.promises.get? c = some none)
    (hd : (w.handlers.filterMap (fun n => n.handler.fn.promiseCell)).Nodup) :
    ∀ (pre post : List (Node (ThreadedHandler κ))) (e : Node (ThreadedHandler κ)),
      w.handlers = pre ++ e :: post →
      ∀ w1 : TWorld κ α σ, w1.user = fire (ThreadedHandler.act act) a pre w.user →
        ExampleThreadedEventProvider.run (ExampleThreadedEventProvider.pureInterp act)
            e.handler.fn a w1
          = .ok { w1 with user := e.handler.fn.act act a w1.user } := by
  intro pre post e hsplit w1 hw1
  have he : e ∈ w.handlers := by rw [hsplit]; simp
  rcases hw e he with hfree | ⟨c, hc, hunset⟩
  · exact run_promiseFree act _ a w1 hfree
  · have hfn : e.handler.fn = .lambdaPromiseWrapper c := by rw [hc]; rfl
    rw [hfn]
    apply run_promise
    rw [hw1]
    have hgood : ∀ n ∈ pre, n.handler.fn.promiseFree = true ∨
        ∃ c1, n.handler.fn = .lambdaPromiseWrapper c1 := by
      intro n hn
      exact threaded_good_of_wrappers w hw n (by rw [hsplit]; exact List.mem_append_left _ hn)
    have hnot : c ∉ pre.filterMap (fun n => n.handler.fn.promiseCell) := by
      rw [hsplit, List.filterMap_append, List.filterMap_cons, hfn] at hd
      simp only [ThreadedHandler.promiseCell] at hd
      exact (List.nodup_cons.mp (List.nodup_middle.mp hd)).1 ∘ List.mem_append_left _
    rw [fire_promises_get act a c pre w.user hgood hnot]
    exact hunset

theorem threaded_trigger_pure (act : κ → α → σ → σ) (fuel : Nat) (a : α) (w : TWorld κ α σ)
    (hwf : ExampleThreadedEventProvider.WellFormed w) (hfuel : w.handlers.length ≤ fuel) :
    ExampleThreadedEventProvider.triggerExample (ExampleThreadedEventProvider.pureInterp act)
        fuel a w
      = .ok (ExampleThreadedEventProvider.notifyAll (triggered (ThreadedHandler.act act) a w)) := by
  obtain ⟨hbase, hmutex, _, hwr, hdis⟩ := hwf
  have hwf1 : World.WellFormed ({ w with mutex := true } : TWorld κ α σ) :=
    wellFormed_congr hbase rfl rfl
  have ht := triggerExample_along
    (ExampleThreadedEventProvider.run (ExampleThreadedEventProvider.pureInterp act))
    (ThreadedHandler.act act) fuel a ({ w with mutex := true } : TWorld κ α σ) hwf1 hfuel
    (threaded_step act a { w with mutex := true } hwr hdis)
  obtain ⟨eh, dq, m, np, u, lg⟩ := w
  simp only at hmutex
  subst hmutex
  simp only [ExampleThreadedEventProvider.triggerExample, DeferredBase.lock, Bool.false_eq_true,
    if_false, ht]
  rfl

theorem threaded_wellFormed_triggered (act : κ → α → σ → σ) (a : α) (w : TWorld κ α σ)
    (hwf : ExampleThreadedEventProvider.WellFormed w) :
    ExampleThreadedEventProvider.WellFormed
      (ExampleThreadedEventProvider.notifyAll (triggered (ThreadedHandler.act act) a w)) := by
  obtain ⟨hbase, hmutex, hm, hwr, hdis⟩ := hwf
  have hh : (ExampleThreadedEventProvider.notifyAll
      (triggered (ThreadedHandler.act act) a w)).handlers = persistent w.handlers :=
    handlers_triggered (ThreadedHandler.act act) a w
  have hpm : ∀ (l : List (Node (ThreadedHandler κ))) (s : ThreadedState α σ),
      (fire (ThreadedHandler.act act) a l s).m = s.m := by
    intro l
    induction l with
    | nil => intro s; rfl
    | cons n l ih =>
      intro s
      show (fire (ThreadedHandler.act act) a l (n.handler.fn.act act a s)).m = _
      rw [ih]
      generalize n.handler.fn = h
      induction h generalizing s with
      | user k => rfl
      | ignoreArgs => rfl
      | lambdaCallbackWrapper f c ih2 => exact ih2 s
      | lambdaPromiseWrapper c => rfl
  refine ⟨wellFormed_congr (wellFormed_triggered (ThreadedHandler.act act) a w hbase) rfl rfl,
    hmutex, ?_, ?_, ?_⟩
  · show (fire (ThreadedHandler.act act) a w.handlers w.user).m = false
    rw [hpm, hm]
  · intro n hn
    rw [hh] at hn
    left
    have hn1 : n ∈ w.handlers := (persistent_sublist _).subset hn
    have hp : n.handler.isOnce = false := by
      simpa [persistent] using (List.mem_filter.mp hn).2
    rcases hwr n hn1 with hfree | ⟨c, hc, _⟩
    · exact hfree
    · rw [hc] at hp
      simp [Handler.isOnce] at hp
  · rw [hh]
    exact hdis.sublist ((persistent_sublist _).filterMap _)

theorem promiseCell_eq_some (h : ThreadedHandler κ) (c : Nat) (hc : h.promiseCell = some c) :
    h = .lambdaPromiseWrapper c := by
  cases h with
  | lambdaPromiseWrapper c1 =>
    simp only [ThreadedHandler.promiseCell, Option.some.injEq] at hc
    rw [hc]
  | user k => simp [ThreadedHandler.promiseCell] at hc
  | ignoreArgs => simp [ThreadedHandler.promiseCell] at hc
  | lambdaCallbackWrapper f c1 => simp [ThreadedHandler.promiseCell] at hc

/-- In a well-formed threaded provider a promise that some node is going to set holds no value. -/
theorem threaded_cell_unset (w : TWorld κ α σ)
    (hw : ∀ n ∈ w.handlers, n.handler.fn.promiseFree = true ∨
      ∃ c, n.handler = .lambdaCallbackWrapper (.lambdaPromiseWrapper c) ∧
        w.user.promises.get? c = some none)
    (c : Nat) (hc : c ∈ w.handlers.filterMap (fun n => n.handler.fn.promiseCell)) :
    w.user.promises.get? c = some none := by
  obtain ⟨n, hn, hcell⟩ := List.mem_filterMap.mp hc
  have hfn := promiseCell_eq_some _ c hcell
  rcases hw n hn with hfree | ⟨c1, hc1, hunset⟩
  · rw [hfn] at hfree
    simp [ThreadedHandler.promiseFree] at hfree
  · rw [hc1] at hfn
    simp only [Handler.fn, ThreadedHandler.lambdaPromiseWrapper.injEq] at hfn
    rw [← hfn]
    exact hunset

theorem futureOnceExample_spec (w : TWorld κ α σ)
    (hwf : ExampleThreadedEventProvider.WellFormed w) :
    ∃ w1, ExampleThreadedEventProvider.futureOnceExample w = .ok (w1, w.user.promises.length) ∧
      w1.handlers = { ptr := w.nextPtr,
                      handler := .lambdaCallbackWrapper (.lambdaPromiseWrapper w.user.promises.length) }
                    :: w.handlers ∧
      w1.user.promises = w.user.promises ++ [none] ∧
      ExampleThreadedEventProvider.WellFormed w1 := by
  obtain ⟨hbase, hmutex, hm, hwr, hdis⟩ := hwf
  have hcalc : ExampleThreadedEventProvider.futureOnceExample w
      = .ok ((ExampleEventProvider.onceExample (.lambdaPromiseWrapper w.user.promises.length)
          (ExampleThreadedEventProvider.notifyAll
            ({ w with user := { w.user with promises := w.user.promises ++ [none] } } :
              TWorld κ α σ))).1, w.user.promises.length) := by
    obtain ⟨eh, dq, m, np, u, lg⟩ := w
    simp only at hmutex
    subst hmutex
    simp only [ExampleThreadedEventProvider.futureOnceExample,
      ExampleThreadedEventProvider.onceExample, DeferredBase.lock, DeferredBase.unlock,
      ExampleThreadedEventProvider.notifyAll, Bool.false_eq_true, if_false]
    rfl
  have hh := handlers_onceExample (ThreadedHandler.lambdaPromiseWrapper w.user.promises.length)
    (ExampleThreadedEventProvider.notifyAll
      ({ w with user := { w.user with promises := w.user.promises ++ [none] } } : TWorld κ α σ))
  have hold : (ExampleThreadedEventProvider.notifyAll
      ({ w with user := { w.user with promises := w.user.promises ++ [none] } } :
        TWorld κ α σ)).handlers = w.handlers := rfl
  rw [hold] at hh
  refine ⟨_, hcalc, hh, rfl, ?_, hmutex, hm, ?_, ?_⟩
  · exact wellFormed_onceExample _ _ (wellFormed_congr hbase rfl rfl)
  · intro n hn
    rw [hh] at hn
    rcases List.mem_cons.mp hn with rfl | hn
    · right
      refine ⟨_, rfl, ?_⟩
      show (w.user.promises ++ [none]).get? w.user.promises.length = some none
      simp
    · rcases hwr n hn with hfree | ⟨c, hc, hunset⟩
      · exact Or.inl hfree
      · right
        refine ⟨c, hc, ?_⟩
        show (w.user.promises ++ [none]).get? c = some none
        have hlt : c < w.user.promises.length := by
          rw [List.get?_eq_getElem?] at hunset
          exact (List.getElem?_eq_some_iff.mp hunset).1
        rw [List.get?_eq_getElem?, List.getElem?_append_left hlt, ← List.get?_eq_getElem?]
        exact hunset
  · rw [hh, List.filterMap_cons]
    simp only [Handler.fn, ThreadedHandler.promiseCell]
    rw [List.nodup_cons]
    refine ⟨?_, hdis⟩
    intro hmem
    have hunset := threaded_cell_unset w hwr _ hmem
    rw [List.get?_eq_getElem?] at hunset
    have := (List.getElem?_eq_some_iff.mp hunset).1
    omega

/-! ## C16 -/

/-- C16: on every well-formed threaded provider whose caller handlers do not
touch the provider, `futureOnceExample()` returns a future whose promise holds
no value; a following `triggerExample(a)` returns and leaves the promise
holding `a`; a second `triggerExample(b)` returns as well (no `future_error`)
and the promise still holds `a`. -/
theorem C16_future_set_exactly_once (act : κ → α → σ → σ) (w : TWorld κ α σ) (a b : α)
    (fuel : Nat) (hwf : ExampleThreadedEventProvider.WellFormed w)
    (hfuel : w.handlers.length < fuel) :
    ∃ w1 c, ExampleThreadedEventProvider.futureOnceExample w = .ok (w1, c) ∧
      w1.user.promises.get? c = some none ∧
      ∃ w2, ExampleThreadedEventProvider.triggerExample
            (ExampleThreadedEventProvider.pureInterp act) fuel a w1 = .ok w2 ∧
        w2.user.promises.get? c = some (some a) ∧
        ∃ w3, ExampleThreadedEventProvider.triggerExample
              (ExampleThreadedEventProvider.pureInterp act) fuel b w2 = .ok w3 ∧
          w3.user.promises.get? c = some (some a) := by
  obtain ⟨w1, h1, hh, hprom, hwf1⟩ := futureOnceExample_spec w hwf
  have hlen1 : w1.handlers.length ≤ fuel := by rw [hh]; exact hfuel
  have ht1 := threaded_trigger_pure act fuel a w1 hwf1 hlen1
  have hwf2 := threaded_wellFormed_triggered act a w1 hwf1
  have hlen2 : (ExampleThreadedEventProvider.notifyAll
      (triggered (ThreadedHandler.act act) a w1)).handlers.length ≤ fuel :=
    le_trans (length_handlers_triggered (ThreadedHandler.act act) a w1) hlen1
  have ht2 := threaded_trigger_pure act fuel b _ hwf2 hlen2
  have hunset1 : w1.user.promises.get? w.user.promises.length = some none := by
    rw [hprom]
    simp
  -- the promise after the first trigger
  have hset : (ExampleThreadedEventProvider.notifyAll
      (triggered (ThreadedHandler.act act) a w1)).user.promises.get? w.user.promises.length
        = some (some a) := by
    show (fire (ThreadedHandler.act act) a w1.handlers w1.user).promises.get? _ = _
    rw [hh]
    show (fire (ThreadedHandler.act act) a w.handlers
      ((ThreadedHandler.lambdaPromiseWrapper w.user.promises.length : ThreadedHandler κ).act act a
        w1.user)).promises.get? _ = _
    have hgood := threaded_good_of_wrappers w hwf.wrappers
    have hnot : w.user.promises.length ∉
        w.handlers.filterMap (fun n => n.handler.fn.promiseCell) := by
      intro hmem
      have hunset := threaded_cell_unset w hwf.wrappers _ hmem
      rw [List.get?_eq_getElem?] at hunset
      have := (List.getElem?_eq_some_iff.mp hunset).1
      omega
    rw [fire_promises_get act a _ w.handlers _ hgood hnot]
    simp only [ThreadedHandler.act, hprom]
    rw [List.get?_eq_getElem?, List.getElem?_set_self]
    simp
  refine ⟨w1, _, h1, hunset1, _, ht1, hset, _, ht2, ?_⟩
  show (fire (ThreadedHandler.act act) b
      (ExampleThreadedEventProvider.notifyAll (triggered (ThreadedHandler.act act) a w1)).handlers
      (ExampleThreadedEventProvider.notifyAll
        (triggered (ThreadedHandler.act act) a w1)).user).promises.get? _ = _
  have hgood2 := threaded_good_of_wrappers _ hwf2.wrappers
  have hnot2 : w.user.promises.length ∉
      (ExampleThreadedEventProvider.notifyAll
        (triggered (ThreadedHandler.act act) a w1)).handlers.filterMap
          (fun n => n.handler.fn.promiseCell) := by
    intro hmem
    have hunset := threaded_cell_unset _ hwf2.wrappers _ hmem
    rw [hset] at hunset
    simp at hunset
  rw [fire_promises_get act b _ _ _ hgood2 hnot2]
  exact hset

/-- C16 at a provider with one persistent handler: the future gets 7 and keeps it. -/
theorem C16_future_set_exactly_once_witness :
    ∃ w1 c, ExampleThreadedEventProvider.futureOnceExample
        (ExampleEventProvider.onExample (ThreadedHandler.user 10)
          (ExampleThreadedEventProvider.new [] : TWorld Nat Nat (List Nat))).1 = .ok (w1, c) ∧
      ∃ w2, ExampleThreadedEventProvider.triggerExample
            (ExampleThreadedEventProvider.pureInterp
              (fun (k : Nat) (a : Nat) (u : List Nat) => u ++ [k + a])) 2 7 w1 = .ok w2 ∧
        w2.user.promises.get? c = some (some 7) ∧
        ∃ w3, ExampleThreadedEventProvider.triggerExample
              (ExampleThreadedEventProvider.pureInterp
                (fun (k : Nat) (a : Nat) (u : List Nat) => u ++ [k + a])) 2 8 w2 = .ok w3 ∧
          w3.user.promises.get? c = some (some 7) := by
  obtain ⟨w1, c, h1, _, w2, h2, h3, w3, h4, h5⟩ := C16_future_set_exactly_once
    (fun (k : Nat) (a : Nat) (u : List Nat) => u ++ [k + a])
    (ExampleEventProvider.onExample (ThreadedHandler.user 10)
      (ExampleThreadedEventProvider.new [] : TWorld Nat Nat (List Nat))).1 7 8 2
    ⟨wellFormed_onExample _ _ (wellFormed_init _), rfl, rfl,
      by
        intro n hn
        left
        have : n = { ptr := 0, handler := .user (.user 10) } := by
          simpa [World.handlers, ExampleEventProvider.onExample, ExampleEventProvider.assureHandlers,
            ExampleThreadedEventProvider.new, World.init] using hn
        rw [this]
        rfl,
      by decide⟩
    (by decide)
  exact ⟨w1, c, h1, w2, h2, h3, w3, h4, h5⟩

/-! ## C15 -/

theorem waitExample_timeout (handler : ThreadedHandler κ) (t : Nat) (w : TWorld κ α σ)
    (hwf : ExampleThreadedEventProvider.WellFormed w) :
    ExampleThreadedEventProvider.waitExample handler (some t) (fun x => .ok x) w
      = .ok ({ w with eventHandlers := some { list := w.handlers, eraseLast := false },
                      nextPtr := w.nextPtr + 1,
                      user := { w.user with finished := w.user.finished ++ [false] } }, false) := by
  obtain ⟨hbase, hmutex, hm, _, _⟩ := hwf
  have hflag := hbase.flag
  obtain ⟨eh, dq, m, np, ⟨um, un, uf, up, ue⟩, lg⟩ := w
  simp only at hmutex hm
  subst hmutex hm
  cases eh with
  | none =>
    simp [ExampleThreadedEventProvider.waitExample, ExampleThreadedEventProvider.onceExample,
      DeferredBase.lock, DeferredBase.unlock, ExampleEventProvider.onceExample,
      ExampleEventProvider.assureHandlers, ExampleEventProvider.removeExampleHandler,
      ExampleEventProvider.removeLoop, World.handlers, List.getD]
  | some s =>
    obtain ⟨l, e⟩ := s
    simp only [World.eraseLast] at hflag
    subst hflag
    simp [ExampleThreadedEventProvider.waitExample, ExampleThreadedEventProvider.onceExample,
      DeferredBase.lock, DeferredBase.unlock, ExampleEventProvider.onceExample,
      ExampleEventProvider.assureHandlers, ExampleEventProvider.removeExampleHandler,
      ExampleEventProvider.removeLoop, World.handlers, List.getD]

/-- C15: on every well-formed threaded provider (no thread inside one of its
methods), a bounded `waitExample(handler, t)` during which nothing happens to
the provider returns false and leaves the handler list exactly as it was; the
node it had installed (handle `w.nextPtr`) is not in the list.  A
`triggerExample(a)` made afterwards (caller handlers not touching the provider)
returns and invokes exactly the nodes that were registered before the wait,
never the handler of the wait. -/
theorem C15_wait_timeout_leaves_no_handler (act : κ → α → σ → σ) (w : TWorld κ α σ)
    (handler : ThreadedHandler κ) (t : Nat) (a : α) (fuel : Nat)
    (hwf : ExampleThreadedEventProvider.WellFormed w) (hfuel : w.handlers.length ≤ fuel) :
    ∃ w1, ExampleThreadedEventProvider.waitExample handler (some t) (fun x => .ok x) w
          = .ok (w1, false) ∧
      w1.handlers = w.handlers ∧
      w.nextPtr ∉ w1.handlers.map Node.ptr ∧
      w1.user.env = w.user.env ∧ w1.log = w.log ∧
      ∃ w2, ExampleThreadedEventProvider.triggerExample
            (ExampleThreadedEventProvider.pureInterp act) fuel a w1 = .ok w2 ∧
        w2.log = w.log ++ w.handlers.map (fun n => (n.ptr, a)) ∧
        delivered w.nextPtr w2.log = delivered w.nextPtr w.log := by
  have hw := waitExample_timeout handler t w hwf
  have hnot : w.nextPtr ∉ w.handlers.map Node.ptr := by
    intro hmem
    obtain ⟨n, hn1, hn2⟩ := List.mem_map.mp hmem
    have := hwf.base.fresh n hn1
    omega
  have hwf1 : ExampleThreadedEventProvider.WellFormed
      ({ w with eventHandlers := some { list := w.handlers, eraseLast := false },
                nextPtr := w.nextPtr + 1,
                user := { w.user with finished := w.user.finished ++ [false] } } :
        TWorld κ α σ) := by
    refine ⟨⟨rfl, hwf.base.nodup, ?_⟩, hwf.mutexFree, hwf.mFree, hwf.wrappers, hwf.distinct⟩
    intro n hn
    exact Nat.lt_succ_of_lt (hwf.base.fresh n hn)
  have ht := threaded_trigger_pure act fuel a _ hwf1 hfuel
  refine ⟨_, hw, rfl, hnot, rfl, rfl, _, ht, rfl, ?_⟩
  show delivered w.nextPtr (w.log ++ invocations a w.handlers) = _
  rw [delivered_append, delivered_invocations_of_not_mem w.nextPtr a w.handlers hnot,
    List.append_nil]

/-- C15 at a provider with one persistent handler. -/
theorem C15_wait_timeout_leaves_no_handler_witness :
    ∃ w1, ExampleThreadedEventProvider.waitExample (ThreadedHandler.user 20) (some 10)
          (fun x => .ok x)
          (ExampleEventProvider.onExample (ThreadedHandler.user 10)
            (ExampleThreadedEventProvider.new [] : TWorld Nat Nat (List Nat))).1 = .ok (w1, false) ∧
      w1.handlers = [{ ptr := 0, handler := .user (.user 10) }] ∧
      ∃ w2, ExampleThreadedEventProvider.triggerExample
            (ExampleThreadedEventProvider.pureInterp
              (fun (k : Nat) (a : Nat) (u : List Nat) => u ++ [k + a])) 1 7 w1 = .ok w2 ∧
        w2.log = [(0, 7)] := by
  obtain ⟨w1, h1, h2, _, _, _, w2, h3, h4, _⟩ := C15_wait_timeout_leaves_no_handler
    (fun (k : Nat) (a : Nat) (u : List Nat) => u ++ [k + a])
    (ExampleEventProvider.onExample (ThreadedHandler.user 10)
      (ExampleThreadedEventProvider.new [] : TWorld Nat Nat (List Nat))).1
    (ThreadedHandler.user 20) 10 7 1
    ⟨wellFormed_onExample _ _ (wellFormed_init _), rfl, rfl,
      by
        intro n hn
        left
        have : n = { ptr := 0, handler := .user (.user 10) } := by
          simpa [World.handlers, ExampleEventProvider.onExample, ExampleEventProvider.assureHandlers,
            ExampleThreadedEventProvider.new, World.init] using hn
        rw [this]
        rfl,
      by decide⟩
    (by decide)
  exact ⟨w1, h1, h2, w2, h3, h4⟩

/-! ## C17 -/

/-- C17 fails on the code: `waitExample(duration)` calls
`waitExample(handler, duration)` with the lambda that ignores its arguments but
has no `return` statement.  On a fresh provider with a timeout of 50 and no
trigger, the call with the handler returns false while the overload without
handler returns no value at all; and whatever the state, the timeout and the
other threads do, the overload without handler never returns a value. -/
theorem C17_wait_overload_returns_nothing :
    (∃ w1, ExampleThreadedEventProvider.waitExample .ignoreArgs (some 50) (fun x => .ok x)
        (ExampleThreadedEventProvider.new [] : TWorld Nat Nat (List Nat)) = .ok (w1, false)) ∧
    ExampleThreadedEventProvider.waitExampleNoPayload (some 50) (fun x => .ok x)
        (ExampleThreadedEventProvider.new [] : TWorld Nat Nat (List Nat)) = .error .missingReturn ∧
    (∀ (duration : Option Nat)
        (during : TWorld Nat Nat (List Nat) → Except Fault (TWorld Nat Nat (List Nat)))
        (w : TWorld Nat Nat (List Nat)) (r : TWorld Nat Nat (List Nat) × Bool),
      ExampleThreadedEventProvider.waitExampleNoPayload duration during w ≠ .ok r) := by
  refine ⟨⟨_, rfl⟩, rfl, ?_⟩
  intro duration during w r h
  unfold ExampleThreadedEventProvider.waitExampleNoPayload at h
  split at h <;> cases h

/-! ## C18 -/

theorem act_env (act : κ → α → σ → σ) (h : ThreadedHandler κ) (a : α) :
    ∀ s : ThreadedState α σ, (h.act act a s).env = h.envAct act a s.env := by
  induction h with
  | user k => intro s; rfl
  | ignoreArgs => intro s; rfl
  | lambdaCallbackWrapper f c ih => intro s; exact ih s
  | lambdaPromiseWrapper c => intro s; rfl

theorem fire_env (act : κ → α → σ → σ) (a : α) (l : List (Node (ThreadedHandler κ))) :
    ∀ s : ThreadedState α σ,
      (fire (ThreadedHandler.act act) a l s).env
        = l.foldl (fun e n => n.handler.fn.envAct act a e) s.env := by
  induction l with
  | nil => intro s; rfl
  | cons n l ih =>
    intro s
    show (fire (ThreadedHandler.act act) a l (n.handler.fn.act act a s)).env = _
    rw [ih, act_env]
    rfl

theorem act_finished (act : κ → α → σ → σ) (c : Nat) (h : ThreadedHandler κ) (a : α) :
    ∀ s : ThreadedState α σ, s.finished.getD c false = true →
      (h.act act a s).finished.getD c false = true := by
  induction h with
  | user k => intro s hs; exact hs
  | ignoreArgs => intro s hs; exact hs
  | lambdaCallbackWrapper f c1 ih =>
    intro s hs
    have h1 := ih s hs
    simp only [ThreadedHandler.act]
    rw [List.getD_eq_getElem?_getD] at h1 ⊢
    rw [List.getElem?_set]
    by_cases hc : c1 = c
    · subst hc
      have hlt : c1 < (ThreadedHandler.act act f a s).finished.length := by
        by_contra hge
        rw [List.getElem?_eq_none (not_lt.mp hge)] at h1
        simp at h1
      simp [hlt]
    · simp [hc, h1]
  | lambdaPromiseWrapper c1 => intro s hs; exact hs

theorem fire_finished (act : κ → α → σ → σ) (c : Nat) (a : α)
    (l : List (Node (ThreadedHandler κ))) :
    ∀ s : ThreadedState α σ, s.finished.getD c false = true →
      (fire (ThreadedHandler.act act) a l s).finished.getD c false = true := by
  induction l with
  | nil => intro s hs; exact hs
  | cons n l ih =>
    intro s hs
    exact ih _ (act_finished act c _ a s hs)

theorem waitExample_unfold (handler : ThreadedHandler κ) (duration : Option Nat)
    (during : TWorld κ α σ → Except Fault (TWorld κ α σ)) (w : TWorld κ α σ)
    (hwf : ExampleThreadedEventProvider.WellFormed w) :
    ExampleThreadedEventProvider.waitExample handler duration during w
      = match during (ExampleThreadedEventProvider.blockedState handler w) with
        | .error e => .error e
        | .ok w3 =>
          if duration = none ∧ w3.user.notified = w.user.notified then .error .blocked
          else if w3.user.finished.getD w.user.finished.length false = true then
            .ok ({ w3 with user := { w3.user with m := false } }, true)
          else
            .ok ({ (ExampleEventProvider.removeExampleHandler (some w.nextPtr)
                      { w3 with user := { w3.user with m := true } }).1 with
                   user := { (ExampleEventProvider.removeExampleHandler (some w.nextPtr)
                      { w3 with user := { w3.user with m := true } }).1.user with m := false } },
                 false) := by
  obtain ⟨hbase, hmutex, hm, _, _⟩ := hwf
  have hflag := hbase.flag
  obtain ⟨eh, dq, m, np, ⟨um, un, uf, up, ue⟩, lg⟩ := w
  simp only at hmutex hm
  subst hmutex hm
  cases eh with
  | none =>
    simp only [ExampleThreadedEventProvider.waitExample, ExampleThreadedEventProvider.onceExample,
      DeferredBase.lock, DeferredBase.unlock, ExampleEventProvider.onceExample,
      ExampleEventProvider.assureHandlers, World.handlers, Bool.false_eq_true, if_false,
      ExampleThreadedEventProvider.blockedState]
    cases during _ with
    | error e => rfl
    | ok w3 =>
      simp only
      split
      · rfl
      · cases hg : w3.user.finished.getD uf.length false <;> simp [hg]
  | some s =>
    obtain ⟨l, e⟩ := s
    simp only [World.eraseLast] at hflag
    subst hflag
    simp only [ExampleThreadedEventProvider.waitExample, ExampleThreadedEventProvider.onceExample,
      DeferredBase.lock, DeferredBase.unlock, ExampleEventProvider.onceExample,
      ExampleEventProvider.assureHandlers, World.handlers, Bool.false_eq_true, if_false,
      ExampleThreadedEventProvider.blockedState]
    cases during _ with
    | error e => rfl
    | ok w3 =>
      simp only
      split
      · rfl
      · cases hg : w3.user.finished.getD uf.length false <;> simp [hg]

theorem act_finished_length (act : κ → α → σ → σ) (h : ThreadedHandler κ) (a : α) :
    ∀ s : ThreadedState α σ, (h.act act a s).finished.length = s.finished.length := by
  induction h with
  | user k => intro s; rfl
  | ignoreArgs => intro s; rfl
  | lambdaCallbackWrapper f c ih =>
    intro s
    simp only [ThreadedHandler.act, List.length_set]
    exact ih s
  | lambdaPromiseWrapper c => intro s; rfl

theorem wellFormed_blockedState (handler : ThreadedHandler κ) (w : TWorld κ α σ)
    (hwf : ExampleThreadedEventProvider.WellFormed w) (hh : handler.promiseFree = true) :
    ExampleThreadedEventProvider.WellFormed
      (ExampleThreadedEventProvider.blockedState handler w) := by
  refine ⟨wellFormed_cons w _ _ hwf.base hwf.base.flag.symm rfl rfl, hwf.mutexFree, hwf.mFree,
    ?_, ?_⟩
  · intro n hn
    have hn2 : n ∈ (⟨w.nextPtr, Handler.lambdaCallbackWrapper
        (ThreadedHandler.lambdaCallbackWrapper handler w.user.finished.length)⟩ :
          Node (ThreadedHandler κ)) :: w.handlers := hn
    rcases List.mem_cons.mp hn2 with rfl | hn2
    · left
      exact hh
    · exact hwf.wrappers n hn2
  · exact hwf.distinct

theorem finished_after_trigger (act : κ → α → σ → σ) (handler : ThreadedHandler κ) (a : α)
    (w : TWorld κ α σ) :
    (ExampleThreadedEventProvider.notifyAll
      (triggered (ThreadedHandler.act act) a
        (ExampleThreadedEventProvider.blockedState handler w))).user.finished.getD
          w.user.finished.length false = true := by
  show (fire (ThreadedHandler.act act) a w.handlers
    ((ThreadedHandler.lambdaCallbackWrapper handler w.user.finished.length).act act a
      (ExampleThreadedEventProvider.blockedState handler w).user)).finished.getD _ false = true
  apply fire_finished
  have hlt : w.user.finished.length
      < (handler.act act a (ExampleThreadedEventProvider.blockedState handler w).user).finished.length := by
    rw [act_finished_length]
    show w.user.finished.length < (w.user.finished ++ [false]).length
    simp
  simp only [ThreadedHandler.act]
  rw [List.getD_eq_getElem?_getD, List.getElem?_set_self hlt]
  rfl

/-- C18: on every well-formed threaded provider, take a bounded
`waitExample(handler, t)` during which, while the caller is blocked with its
node installed, another thread makes one `triggerExample(a)` (caller handlers
not touching the provider).  The wait returns true; the node of the wait
(handle `w.nextPtr`) has been invoked exactly once, with `a`, ahead of the
older handlers, the body of `handler` has run on the environment with `a`
before theirs, and the node is no longer registered. -/
theorem C18_wait_returns_true_on_trigger (act : κ → α → σ → σ) (w : TWorld κ α σ)
    (handler : ThreadedHandler κ) (t : Nat) (a : α) (fuel : Nat)
    (hwf : ExampleThreadedEventProvider.WellFormed w) (hh : handler.promiseFree = true)
    (hfuel : w.handlers.length < fuel) :
    ∃ w1, ExampleThreadedEventProvider.waitExample handler (some t)
          (fun x => ExampleThreadedEventProvider.triggerExample
            (ExampleThreadedEventProvider.pureInterp act) fuel a x) w = .ok (w1, true) ∧
      w1.log = w.log ++ (w.nextPtr, a) :: w.handlers.map (fun n => (n.ptr, a)) ∧
      delivered w.nextPtr w1.log = delivered w.nextPtr w.log ++ [a] ∧
      w1.user.env = w.handlers.foldl (fun e n => n.handler.fn.envAct act a e)
        (handler.envAct act a w.user.env) ∧
      w1.handlers = w.handlers.filter (fun n => !n.handler.isOnce) ∧
      w.nextPtr ∉ w1.handlers.map Node.ptr := by
  have hnot : w.nextPtr ∉ w.handlers.map Node.ptr := by
    intro hmem
    obtain ⟨n, hn1, hn2⟩ := List.mem_map.mp hmem
    have := hwf.base.fresh n hn1
    omega
  have ht := threaded_trigger_pure act fuel a (ExampleThreadedEventProvider.blockedState handler w)
    (wellFormed_blockedState handler w hwf hh) hfuel
  have hfin := finished_after_trigger act handler a w
  have hpers : (ExampleThreadedEventProvider.notifyAll
      (triggered (ThreadedHandler.act act) a
        (ExampleThreadedEventProvider.blockedState handler w))).handlers
      = w.handlers.filter (fun n => !n.handler.isOnce) := by
    have h0 : (ExampleThreadedEventProvider.notifyAll
        (triggered (ThreadedHandler.act act) a
          (ExampleThreadedEventProvider.blockedState handler w))).handlers
        = persistent (ExampleThreadedEventProvider.blockedState handler w).handlers :=
      handlers_triggered (ThreadedHandler.act act) a
        (ExampleThreadedEventProvider.blockedState handler w)
    rw [h0]
    show persistent (_ :: w.handlers) = _
    simp [persistent, List.filter_cons, Handler.isOnce]
  rw [waitExample_unfold handler (some t) _ w hwf]
  simp only [ht]
  rw [if_neg (by simp), if_pos hfin]
  refine ⟨_, rfl, ?_, ?_, ?_, ?_, ?_⟩
  · show w.log ++ (w.nextPtr, a) :: invocations a w.handlers = _
    rfl
  · show delivered w.nextPtr (w.log ++ (w.nextPtr, a) :: invocations a w.handlers) = _
    rw [delivered_append]
    have h0 := delivered_invocations_of_not_mem w.nextPtr a w.handlers hnot
    simp only [delivered, List.filter_cons, decide_True, if_true, List.map_cons] at h0 ⊢
    rw [h0]
  · show (fire (ThreadedHandler.act act) a w.handlers
      ((ThreadedHandler.lambdaCallbackWrapper handler w.user.finished.length).act act a
        (ExampleThreadedEventProvider.blockedState handler w).user)).env = _
    rw [fire_env, act_env]
    rfl
  · exact hpers
  · intro hmem
    apply hnot
    have hmem2 : w.nextPtr ∈ (w.handlers.filter (fun n => !n.handler.isOnce)).map Node.ptr := by
      rw [← hpers]
      exact hmem
    exact ((List.filter_sublist _).map Node.ptr).subset hmem2

/-- C18 at a provider with one persistent handler, a wait of 50 and a trigger with 7. -/
theorem C18_wait_returns_true_on_trigger_witness :
    ∃ w1, ExampleThreadedEventProvider.waitExample (ThreadedHandler.user 20) (some 50)
          (fun x => ExampleThreadedEventProvider.triggerExample
            (ExampleThreadedEventProvider.pureInterp
              (fun (k : Nat) (a : Nat) (u : List Nat) => u ++ [k + a])) 2 7 x)
          (ExampleEventProvider.onExample (ThreadedHandler.user 10)
            (ExampleThreadedEventProvider.new [] : TWorld Nat Nat (List Nat))).1 = .ok (w1, true) ∧
      w1.log = [(1, 7), (0, 7)] ∧ delivered 1 w1.log = [7] ∧ w1.user.env = [27, 17] ∧
      w1.handlers = [{ ptr := 0, handler := .user (.user 10) }] := by
  obtain ⟨w1, h1, h2, h3, h4, h5, _⟩ := C18_wait_returns_true_on_trigger
    (fun (k : Nat) (a : Nat) (u : List Nat) => u ++ [k + a])
    (ExampleEventProvider.onExample (ThreadedHandler.user 10)
      (ExampleThreadedEventProvider.new [] : TWorld Nat Nat (List Nat))).1
    (ThreadedHandler.user 20) 50 7 2
    ⟨wellFormed_onExample _ _ (wellFormed_init _), rfl, rfl,
      by
        intro n hn
        left
        have : n = { ptr := 0, handler := .user (.user 10) } := by
          simpa [World.handlers, ExampleEventProvider.onExample, ExampleEventProvider.assureHandlers,
            ExampleThreadedEventProvider.new, World.init] using hn
        rw [this]
        rfl,
      by decide⟩
    rfl (by decide)
  exact ⟨w1, h1, h2, h3, h4, h5⟩

end EventEmitter
